import Mathlib

/-!
# Picture YUV buffer (`TComPicYuv.cpp`)

A shallow embedding of the picture buffer class of
`source/Lib/TLibCommon/TComPicYuv.cpp` and proofs of properties of its
operations `create`, `copyToPic`, `extendPicBorder`, `DefaultConvertPix` and
`resample`.

Modelling conventions.

* The C++ type `Int` is modelled by the mathematical integers (`Int`);
  quantities that the code only ever uses as non-negative sizes or loop
  counters (picture width and height, margins, CTU sizes, depths, bit depths)
  are modelled by `Nat`.  Arithmetic on them is exact: the development is
  about pictures whose sizes stay inside the machine range.  The statements
  about the colour transform bound the bit depths by 28, for which every
  `Int` value that the transform computes from in-range samples is inside 32
  bits (`convertIntValues_range`).
* The sample type `Pel` is a signed integer whose width `pelBits` is fixed by
  the build; its values are carried by `Int`, and a computed value that is
  stored into a `Pel` goes through `toPel pelBits`, which wraps around.
  Copies of samples (`memcpy`, border extension, `resample`) move `Pel`
  values unchanged.
* A plane buffer is a block of `size` samples together with its contents, a
  function from the linear sample index (counted from the start of the
  allocation) to the sample stored there.  A pointer into a plane is such a
  linear index; the origin pointer `m_piPicOrg` is the index of the sample at
  picture coordinate `(0,0)`.
* A `for` loop `for (i = 0; i < n; i++) body` is `forLoop n body`, which runs
  the body for `i = 0, 1, .., n-1` in this order on an explicit state.
* An `assert` that fails ends the call.  `copyToPic` returns `Except.error`
  with the destination object as it is at that moment, and `Except.ok` with
  the updated destination otherwise.  `DefaultConvertPix` and `resample`
  return `Except.error` with the kind of fault: `Fault.assertion`,
  `Fault.divisionByZero` (the unsigned arithmetic of `resample`), or
  `Fault.outOfBounds` (an access of `DefaultConvertPix` outside the allocated
  block of a plane, or through the null pointer of a plane that does not
  exist).
* `create` divides by the CTU sizes (lines 114-115) and `copyToPic` copies the
  whole padded storage of the source (line 191) without a check, and their
  models are total functions.  The properties of the object that `create`
  returns are stated for non-zero CTU sizes, and the properties of the members
  that `copyToPic` keeps are stated for copies that stay inside the blocks of
  both pictures (`copyFits`).
* The header `TComPicYuv.h` and the common definitions (`Clip3`, the chroma
  format scale functions) are not part of the file; the few accessors that
  the operations call are modelled from the specification and marked so.
-/

/-- Modelled from the spec: the sample type `Pel` of the missing type header, a fixed-width
signed integer.  Its values are carried by the integers; the width enters where a computed
`Int` value is stored into a `Pel` (see `toPel`). -/
abbrev Pel := Int

/-- Modelled from the spec: the conversion of an `Int` value to the sample type `Pel` of the
missing type header, a signed integer of `pelBits` bits.  A value in
`[-2^(pelBits-1), 2^(pelBits-1))` is kept; any other value wraps around modulo `2^pelBits`. -/
def toPel (pelBits : Nat) (v : Int) : Pel :=
  (v + 2 ^ (pelBits - 1)) % 2 ^ pelBits - 2 ^ (pelBits - 1)

/-- Chroma format of a picture (`ChromaFormat`). -/
inductive ChromaFormat where
  | CHROMA_400
  | CHROMA_420
  | CHROMA_422
  | CHROMA_444
  deriving DecidableEq, Repr

/-- Colour component of a picture (`ComponentID`). -/
inductive ComponentID where
  | COMPONENT_Y
  | COMPONENT_Cb
  | COMPONENT_Cr
  deriving DecidableEq, Repr

/-- Channel type (`ChannelType`): luma, or the chroma group shared by Cb and Cr. -/
inductive ChannelType where
  | CHANNEL_TYPE_LUMA
  | CHANNEL_TYPE_CHROMA
  deriving DecidableEq, Repr

open ChromaFormat ComponentID ChannelType

/-- The cast `ComponentID(chan)` of a loop counter to a component. -/
def ComponentID.ofChan : Nat → ComponentID
  | 0 => COMPONENT_Y
  | 1 => COMPONENT_Cb
  | _ => COMPONENT_Cr

/-- The numeric value of a component (its index into the per-component arrays). -/
def ComponentID.toChan : ComponentID → Nat
  | COMPONENT_Y => 0
  | COMPONENT_Cb => 1
  | COMPONENT_Cr => 2

/-- The channel type whose numeric value is `chan` (index into the offset tables). -/
def ChannelType.ofChan : Nat → ChannelType
  | 0 => CHANNEL_TYPE_LUMA
  | _ => CHANNEL_TYPE_CHROMA

/-- The ways in which a call can stop without a result: a failed `assert`, a division or
modulo whose divisor is zero, or an access outside the allocated block of a plane (which
includes every access through a null plane pointer). -/
inductive Fault where
  | assertion
  | divisionByZero
  | outOfBounds
  deriving DecidableEq, Repr

/-- The loop `for (i = 0; i < n; i++) body(i)` acting on a state. -/
def forLoop {σ : Type} : Nat → (Nat → σ → σ) → σ → σ
  | 0, _, s => s
  | n + 1, body, s => body n (forLoop n body s)

/-- A plane buffer: `size` allocated samples and the sample stored at each linear index. -/
structure PelBuf where
  size : Int
  data : Int → Pel

/-- The null buffer pointer. -/
def PelBuf.null : PelBuf := ⟨0, fun _ => 0⟩

/-- The linear index `i` lies inside the allocated block of the buffer `b`.  No index lies
inside the block of the null pointer, whose size is 0. -/
abbrev PelBuf.inBlock (b : PelBuf) (i : Int) : Prop :=
  0 ≤ i ∧ i < b.size

/-- The store `p[i] = v` into a plane buffer. -/
def PelBuf.write (b : PelBuf) (i : Int) (v : Pel) : PelBuf :=
  { b with data := fun j => if j = i then v else b.data j }

/-- The call `memcpy(dst + dOff, src + sOff, sizeof(Pel) * n)`: the `n` samples of `src`
starting at `sOff` are stored into `dst` starting at `dOff`. -/
def memcpy (dst : PelBuf) (dOff : Int) (src : PelBuf) (sOff : Int) (n : Int) : PelBuf :=
  { dst with data := fun j => if dOff ≤ j ∧ j < dOff + n then src.data (sOff + (j - dOff)) else dst.data j }

/-- The members of a `TComPicYuv` object. -/
structure TComPicYuv where
  m_apiPicBuf : ComponentID → PelBuf
  m_piPicOrg : ComponentID → Int
  m_iPicWidth : Nat
  m_iPicHeight : Nat
  m_chromaFormatIDC : ChromaFormat
  m_ctuOffsetInBuffer : ChannelType → List (Option Int)
  m_subCuOffsetInBuffer : ChannelType → List (Option Int)
  m_iMarginX : Nat
  m_iMarginY : Nat
  m_bIsBorderExtended : Bool

/-- Modelled from the spec: the helper `Clip3` of the missing common header, which clips
`a` to the range `[minVal, maxVal]`. -/
def Clip3 (minVal maxVal a : Int) : Int :=
  min (max minVal a) maxVal

/-- Modelled from the spec: the struct `BitDepths` of the missing common header; `recon` is
the reconstruction bit depth of each channel type. -/
structure BitDepths where
  recon : ChannelType → Nat

/-- The left shift `a << n` of an `Int` by a non-negative count. -/
def shl (a : Int) (n : Nat) : Int :=
  a * 2 ^ n

namespace TComPicYuv

/-- Modelled from the spec: accessor `getComponentScaleX` of the missing class header; the
horizontal subsampling shift of a plane is 0 for luma and for 4:4:4 chroma and 1 otherwise. -/
def getComponentScaleX (pic : TComPicYuv) (ch : ComponentID) : Nat :=
  if ch = COMPONENT_Y ∨ pic.m_chromaFormatIDC = CHROMA_444 then 0 else 1

/-- Modelled from the spec: accessor `getComponentScaleY` of the missing class header; the
vertical subsampling shift of a plane is 0 for luma and for 4:4:4 chroma and 1 otherwise. -/
def getComponentScaleY (pic : TComPicYuv) (ch : ComponentID) : Nat :=
  if ch = COMPONENT_Y ∨ pic.m_chromaFormatIDC = CHROMA_444 then 0 else 1

/-- Modelled from the spec: accessor `getNumberValidComponents` of the missing class header;
a monochrome picture has 1 valid plane and every other format has 3. -/
def getNumberValidComponents (pic : TComPicYuv) : Nat :=
  if pic.m_chromaFormatIDC = CHROMA_400 then 1 else 3

/-- Modelled from the spec: accessor `getWidth` of the missing class header, the logical
width of a plane, `width >> scaleX`. -/
def getWidth (pic : TComPicYuv) (ch : ComponentID) : Nat :=
  pic.m_iPicWidth >>> pic.getComponentScaleX ch

/-- Modelled from the spec: accessor `getHeight` of the missing class header, the logical
height of a plane, `height >> scaleY`. -/
def getHeight (pic : TComPicYuv) (ch : ComponentID) : Nat :=
  pic.m_iPicHeight >>> pic.getComponentScaleY ch

/-- Modelled from the spec: accessor `getMarginX` of the missing class header, the
horizontal margin of a plane, `marginX >> scaleX`. -/
def getMarginX (pic : TComPicYuv) (ch : ComponentID) : Nat :=
  pic.m_iMarginX >>> pic.getComponentScaleX ch

/-- Modelled from the spec: accessor `getMarginY` of the missing class header, the vertical
margin of a plane, `marginY >> scaleY`. -/
def getMarginY (pic : TComPicYuv) (ch : ComponentID) : Nat :=
  pic.m_iMarginY >>> pic.getComponentScaleY ch

/-- Modelled from the spec: accessor `getStride` of the missing class header, the samples
per row of a plane, `width>>scaleX + 2*(marginX>>scaleX)`. -/
def getStride (pic : TComPicYuv) (ch : ComponentID) : Nat :=
  (pic.m_iPicWidth >>> pic.getComponentScaleX ch) + 2 * (pic.m_iMarginX >>> pic.getComponentScaleX ch)

/-- Modelled from the spec: accessor `getTotalHeight` of the missing class header, the rows
of a plane, `height>>scaleY + 2*(marginY>>scaleY)`. -/
def getTotalHeight (pic : TComPicYuv) (ch : ComponentID) : Nat :=
  (pic.m_iPicHeight >>> pic.getComponentScaleY ch) + 2 * (pic.m_iMarginY >>> pic.getComponentScaleY ch)

/-- Modelled from the spec: accessor `getAddr` of the missing class header, the pointer to
the sample at logical coordinate (0,0) of a plane, that is `m_piPicOrg`. -/
def getAddr (pic : TComPicYuv) (ch : ComponentID) : Int :=
  pic.m_piPicOrg ch

/-- Modelled from the spec: accessor `getBuf` of the missing class header, the pointer to
the start of the padded storage of a plane (linear index 0 of `m_apiPicBuf`). -/
def getBuf (_pic : TComPicYuv) (_ch : ComponentID) : Int :=
  0

/-- Modelled from the spec: accessor `getChromaFormat` of the missing class header. -/
def getChromaFormat (pic : TComPicYuv) : ChromaFormat :=
  pic.m_chromaFormatIDC

/-- Modelled from the spec: helper `toChannelType` of the missing common header; luma is
its own channel type and Cb and Cr share the chroma channel type. -/
def toChannelType : ComponentID → ChannelType
  | COMPONENT_Y => CHANNEL_TYPE_LUMA
  | _ => CHANNEL_TYPE_CHROMA

/-- The sample of plane `ch` at picture coordinate `(x, y)`, that is `getAddr(ch)[y*stride + x]`;
negative coordinates and coordinates past the picture address the margin. -/
def sample (pic : TComPicYuv) (ch : ComponentID) (x y : Int) : Pel :=
  (pic.m_apiPicBuf ch).data (pic.getAddr ch + y * (pic.getStride ch : Int) + x)

/-- The store `m_ctuOffsetInBuffer[chan][i] = v` and its sub-unit sibling: entry `i` of an
offset table becomes `v`. -/
def tableWrite (tbl : List (Option Int)) (i : Nat) (v : Int) : List (Option Int) :=
  tbl.set i (some v)

/-- The allocation `new Int[n]`: `n` entries, none of them written yet. -/
def newTable (n : Nat) : List (Option Int) :=
  List.replicate n none

/-- The two loops of `create` (lines 125-131) that fill the CTU offset table. -/
def fillCtuOffsets (numCuInWidth numCuInHeight : Nat) (stride ctuWidth ctuHeight : Int)
    (tbl : List (Option Int)) : List (Option Int) :=
  forLoop numCuInHeight (fun cuRow t =>
    forLoop numCuInWidth (fun cuCol t =>
      tableWrite t (cuRow * numCuInWidth + cuCol)
        (stride * (cuRow : Int) * ctuHeight + (cuCol : Int) * ctuWidth)) t) tbl

/-- The two loops of `create` (lines 139-145) that fill the sub-unit offset table. -/
def fillSubCuOffsets (uiMaxCUDepth numSubBlockPartitions : Nat)
    (stride minSubBlockWidth minSubBlockHeight : Int)
    (tbl : List (Option Int)) : List (Option Int) :=
  forLoop numSubBlockPartitions (fun buRow t =>
    forLoop numSubBlockPartitions (fun buCol t =>
      tableWrite t ((buRow <<< uiMaxCUDepth) + buCol)
        (stride * (buRow : Int) * minSubBlockHeight + (buCol : Int) * minSubBlockWidth)) t) tbl

/-- The method `TComPicYuv::create`.  Every member is assigned, so the result does not
depend on the object before the call; `heap ch` is the (arbitrary) content of the block
that `xMalloc` returns for plane `ch`.  Lines 114-115 divide by `uiMaxCUWidth` and
`uiMaxCUHeight`: a call with a CTU size of zero does not run to its end, and the value of
this function at a CTU size of zero (where `/` and `%` of `Nat` give 0 and the dividend)
describes no object; the properties of created pictures are stated for non-zero CTU
sizes. -/
def create (iPicWidth iPicHeight : Nat) (chromaFormatIDC : ChromaFormat)
    (uiMaxCUWidth uiMaxCUHeight uiMaxCUDepth : Nat) (bUseMargin : Bool)
    (heap : ComponentID → Int → Pel) : TComPicYuv :=
  let pic0 : TComPicYuv :=
    { m_apiPicBuf := fun _ => PelBuf.null
      m_piPicOrg := fun _ => 0
      m_iPicWidth := iPicWidth
      m_iPicHeight := iPicHeight
      m_chromaFormatIDC := chromaFormatIDC
      m_ctuOffsetInBuffer := fun _ => []
      m_subCuOffsetInBuffer := fun _ => []
      m_iMarginX := (if bUseMargin then uiMaxCUWidth else 0) + 16
      m_iMarginY := (if bUseMargin then uiMaxCUHeight else 0) + 16
      m_bIsBorderExtended := false }
  -- assign the picture arrays and set up the ptr to the top left of the original picture
  let pic1 := forLoop pic0.getNumberValidComponents (fun chan pic =>
    let ch := ComponentID.ofChan chan
    { pic with
      m_apiPicBuf := Function.update pic.m_apiPicBuf ch
        ⟨(pic.getStride ch : Int) * (pic.getTotalHeight ch : Int), heap ch⟩
      m_piPicOrg := Function.update pic.m_piPicOrg ch
        (((pic.m_iMarginY >>> pic.getComponentScaleY ch : Nat) : Int) * (pic.getStride ch : Int)
          + ((pic.m_iMarginX >>> pic.getComponentScaleX ch : Nat) : Int)) }) pic0
  let pic2 := forLoop (3 - pic1.getNumberValidComponents) (fun i pic =>
    let ch := ComponentID.ofChan (pic1.getNumberValidComponents + i)
    { pic with
      m_apiPicBuf := Function.update pic.m_apiPicBuf ch PelBuf.null
      m_piPicOrg := Function.update pic.m_piPicOrg ch 0 }) pic1
  let numCuInWidth := pic2.m_iPicWidth / uiMaxCUWidth + (if pic2.m_iPicWidth % uiMaxCUWidth ≠ 0 then 1 else 0)
  let numCuInHeight := pic2.m_iPicHeight / uiMaxCUHeight + (if pic2.m_iPicHeight % uiMaxCUHeight ≠ 0 then 1 else 0)
  forLoop 2 (fun chan pic =>
    let ch := ComponentID.ofChan chan
    let ctuHeight := uiMaxCUHeight >>> pic.getComponentScaleY ch
    let ctuWidth := uiMaxCUWidth >>> pic.getComponentScaleX ch
    let stride := pic.getStride ch
    let numSubBlockPartitions := 1 <<< uiMaxCUDepth
    let minSubBlockHeight := ctuHeight >>> uiMaxCUDepth
    let minSubBlockWidth := ctuWidth >>> uiMaxCUDepth
    { pic with
      m_ctuOffsetInBuffer := Function.update pic.m_ctuOffsetInBuffer (ChannelType.ofChan chan)
        (fillCtuOffsets numCuInWidth numCuInHeight stride ctuWidth ctuHeight
          (newTable (numCuInWidth * numCuInHeight)))
      m_subCuOffsetInBuffer := Function.update pic.m_subCuOffsetInBuffer (ChannelType.ofChan chan)
        (fillSubCuOffsets uiMaxCUDepth numSubBlockPartitions stride minSubBlockWidth minSubBlockHeight
          (newTable (1 <<< (2 * uiMaxCUDepth)))) }) pic2

/-- The inner loop of `extendPicBorder` (lines 218-222): the left and right margin of the
row that starts at `pi` are filled with the first and the last sample of the row. -/
def extendRowMargins (iWidth iMarginX : Nat) (pi : Int) (buf : PelBuf) : PelBuf :=
  forLoop iMarginX (fun x b =>
    let b1 := b.write (pi + (-(iMarginX : Int) + (x : Int))) (b.data (pi + 0))
    b1.write (pi + ((iWidth : Int) + (x : Int))) (b1.data (pi + ((iWidth : Int) - 1)))) buf

/-- The body of the component loop of `extendPicBorder` (lines 207-240) for one plane whose
sample (0,0) is at `piTxt`: left and right margins of every row, then the rows below the
picture, then the rows above it.  The loop state of the first loop is the pointer `pi`
together with the buffer. -/
def extendPlane (piTxt : Int) (iStride iWidth iHeight iMarginX iMarginY : Nat) (buf : PelBuf) :
    PelBuf :=
  let pi := piTxt
  -- do left and right margins
  let st := forLoop iHeight (fun _y (st : Int × PelBuf) =>
    (st.1 + (iStride : Int), extendRowMargins iWidth iMarginX st.1 st.2)) (pi, buf)
  let pi := st.1
  let buf := st.2
  -- pi is now the (0,height) (bottom left of image within bigger picture
  let pi := pi - ((iStride : Int) + (iMarginX : Int))
  -- pi is now the (-marginX, height-1)
  let buf := forLoop iMarginY (fun y b =>
    memcpy b (pi + ((y : Int) + 1) * (iStride : Int)) b pi ((iWidth + (iMarginX <<< 1) : Nat) : Int)) buf
  -- pi is still (-marginX, height-1)
  let pi := pi - (((iHeight : Int) - 1) * (iStride : Int))
  -- pi is now (-marginX, 0)
  forLoop iMarginY (fun y b =>
    memcpy b (pi - ((y : Int) + 1) * (iStride : Int)) b pi ((iWidth + (iMarginX <<< 1) : Nat) : Int)) buf

/-- The method `TComPicYuv::extendPicBorder`. -/
def extendPicBorder (pic : TComPicYuv) : TComPicYuv :=
  if pic.m_bIsBorderExtended then
    pic
  else
    let pic1 := forLoop pic.getNumberValidComponents (fun chan p =>
      let ch := ComponentID.ofChan chan
      { p with
        m_apiPicBuf := Function.update p.m_apiPicBuf ch
          (extendPlane (p.getAddr ch) (p.getStride ch) (p.getWidth ch) (p.getHeight ch)
            (p.getMarginX ch) (p.getMarginY ch) (p.m_apiPicBuf ch)) }) pic
    { pic1 with m_bIsBorderExtended := true }

/-- The method `TComPicYuv::copyToPic`, called on `src` with destination `pcPicYuvDst`.
A failed `assert` ends the call with `Except.error`, carrying the destination as it is at
that moment; otherwise the result is the destination after the copy.  The source object is
`const` and is not part of the result.  Line 191 copies `getStride * getTotalHeight` samples
of the source without comparing this count with the size of the destination block: the
function records every sample that the copy writes, also at indices at or beyond `size` of
the destination buffer, where the code writes outside the block.  What such a write does to
the rest of the memory is not described; `copyFits` states that the copy stays inside the
blocks. -/
def copyToPic (src : TComPicYuv) (pcPicYuvDst : TComPicYuv) : Except TComPicYuv TComPicYuv :=
  if ¬ (src.m_iPicWidth = pcPicYuvDst.getWidth COMPONENT_Y) then Except.error pcPicYuvDst
  else if ¬ (src.m_iPicHeight = pcPicYuvDst.getHeight COMPONENT_Y) then Except.error pcPicYuvDst
  else if ¬ (src.m_chromaFormatIDC = pcPicYuvDst.getChromaFormat) then Except.error pcPicYuvDst
  else
    Except.ok (forLoop src.getNumberValidComponents (fun chan dst =>
      let ch := ComponentID.ofChan chan
      { dst with
        m_apiPicBuf := Function.update dst.m_apiPicBuf ch
          (memcpy (dst.m_apiPicBuf ch) (dst.getBuf ch) (src.m_apiPicBuf ch) 0
            ((src.getStride ch : Int) * (src.getTotalHeight ch : Int))) }) pcPicYuvDst)

/-- The constants that `DefaultConvertPix` derives from the bit depths (lines 292-299). -/
structure ConvertConsts where
  iMaxLuma : Int
  iMaxChroma : Int
  iChromaOffset : Int
  iShiftLuma : Nat
  iShiftChroma : Nat
  iRoundLuma : Int
  iRoundChroma : Int

/-- Lines 292-299 of `DefaultConvertPix`. -/
def convertConsts (bitDepths : BitDepths) : ConvertConsts :=
  let maxBitDepth := max (bitDepths.recon CHANNEL_TYPE_LUMA) (bitDepths.recon CHANNEL_TYPE_CHROMA)
  let iShiftLuma := maxBitDepth - bitDepths.recon CHANNEL_TYPE_LUMA
  let iShiftChroma := maxBitDepth - bitDepths.recon CHANNEL_TYPE_CHROMA
  { iMaxLuma := shl 1 (bitDepths.recon CHANNEL_TYPE_LUMA) - 1
    iMaxChroma := shl 1 (bitDepths.recon CHANNEL_TYPE_CHROMA) - 1
    iChromaOffset := shl 1 (bitDepths.recon CHANNEL_TYPE_CHROMA - 1)
    iShiftLuma := iShiftLuma
    iShiftChroma := iShiftChroma
    iRoundLuma := shl 1 (1 + iShiftLuma)
    iRoundChroma := shl 1 (1 + iShiftChroma) }

/-- The three destination buffers that the pixel loop of `DefaultConvertPix` writes. -/
structure DstBufs where
  dst0 : PelBuf
  dst1 : PelBuf
  dst2 : PelBuf

/-- The state of the row loop of `DefaultConvertPix`: the six row pointers and the three
destination buffers. -/
structure ConvertState where
  pSrc0 : Int
  pSrc1 : Int
  pSrc2 : Int
  pDst0 : Int
  pDst1 : Int
  pDst2 : Int
  bufs : DstBufs

/-- The body of the pixel loop of `DefaultConvertPix` (lines 321-335) at column `x`.  The
body reads `pSrc0[x]`, `pSrc1[x]`, `pSrc2[x]` and reads and writes `pDst0[x]`, `pDst1[x]`,
`pDst2[x]`; if one of these six locations is outside the block of its plane the call stops
with `Fault.outOfBounds`.  Every value assigned to a destination sample is converted to
`Pel`. -/
def convertPixel (pelBits : Nat) (c : ConvertConsts) (src0 src1 src2 : PelBuf)
    (pSrc0 pSrc1 pSrc2 pDst0 pDst1 pDst2 : Int) (x : Nat) (d : DstBufs) :
    Except Fault DstBufs :=
  if ¬ (src0.inBlock (pSrc0 + (x : Int)) ∧ src1.inBlock (pSrc1 + (x : Int)) ∧
      src2.inBlock (pSrc2 + (x : Int)) ∧ d.dst0.inBlock (pDst0 + (x : Int)) ∧
      d.dst1.inBlock (pDst1 + (x : Int)) ∧ d.dst2.inBlock (pDst2 + (x : Int))) then
    Except.error Fault.outOfBounds
  else
    let r := shl (src2.data (pSrc2 + (x : Int))) c.iShiftChroma
    let g := shl (src0.data (pSrc0 + (x : Int))) c.iShiftLuma
    let b := shl (src1.data (pSrc1 + (x : Int))) c.iShiftChroma
    let dst0 := d.dst0.write (pDst0 + (x : Int))
      (toPel pelBits ((shl g 1 + r + b + c.iRoundLuma) >>> (2 + c.iShiftLuma)))
    let dst1 := d.dst1.write (pDst1 + (x : Int))
      (toPel pelBits ((shl g 1 - r - b + c.iRoundChroma) >>> (2 + c.iShiftChroma)))
    let dst2 := d.dst2.write (pDst2 + (x : Int))
      (toPel pelBits ((shl (r - b) 1 + c.iRoundChroma) >>> (2 + c.iShiftChroma)))
    let dst1 := dst1.write (pDst1 + (x : Int))
      (toPel pelBits (dst1.data (pDst1 + (x : Int)) + c.iChromaOffset))
    let dst2 := dst2.write (pDst2 + (x : Int))
      (toPel pelBits (dst2.data (pDst2 + (x : Int)) + c.iChromaOffset))
    let dst0 := dst0.write (pDst0 + (x : Int))
      (toPel pelBits (Clip3 0 c.iMaxLuma (dst0.data (pDst0 + (x : Int)))))
    let dst1 := dst1.write (pDst1 + (x : Int))
      (toPel pelBits (Clip3 0 c.iMaxChroma (dst1.data (pDst1 + (x : Int)))))
    let dst2 := dst2.write (pDst2 + (x : Int))
      (toPel pelBits (Clip3 0 c.iMaxChroma (dst2.data (pDst2 + (x : Int)))))
    Except.ok { dst0 := dst0, dst1 := dst1, dst2 := dst2 }

/-- The body of the row loop of `DefaultConvertPix` (lines 319-344): the pixel loop over the
row, then the six pointers advance by their strides.  A fault of the pixel loop ends the
call. -/
def convertRow (pelBits : Nat) (c : ConvertConsts) (src0 src1 src2 : PelBuf) (m_iPicWidth : Nat)
    (iSrcStride0 iSrcStride1 iSrcStride2 iDstStride0 iDstStride1 iDstStride2 : Int)
    (st : ConvertState) : Except Fault ConvertState :=
  match forLoop m_iPicWidth (fun x r =>
      match r with
      | Except.ok d =>
        convertPixel pelBits c src0 src1 src2 st.pSrc0 st.pSrc1 st.pSrc2 st.pDst0 st.pDst1
          st.pDst2 x d
      | Except.error e => Except.error e) (Except.ok st.bufs) with
  | Except.ok bufs =>
    Except.ok
      { pSrc0 := st.pSrc0 + iSrcStride0
        pSrc1 := st.pSrc1 + iSrcStride1
        pSrc2 := st.pSrc2 + iSrcStride2
        pDst0 := st.pDst0 + iDstStride0
        pDst1 := st.pDst1 + iDstStride1
        pDst2 := st.pDst2 + iDstStride2
        bufs := bufs }
  | Except.error e => Except.error e

/-- The method `TComPicYuv::DefaultConvertPix`, called on the destination `pic` with the
source `pcSrcPicYuv`, a different object; `pelBits` is the width of the sample type `Pel`.
A failed `assert` ends the call with `Fault.assertion`.  The asserts do not look at the
chroma format of the source: the planes of the source are read at the coordinates of the
destination whatever their size is, and an access outside a block (a monochrome source has
null chroma planes) ends the call with `Fault.outOfBounds`. -/
def DefaultConvertPix (pelBits : Nat) (pic : TComPicYuv) (pcSrcPicYuv : TComPicYuv)
    (bitDepths : BitDepths) : Except Fault TComPicYuv :=
  if ¬ (pic.m_iPicWidth = pcSrcPicYuv.m_iPicWidth) then Except.error Fault.assertion
  else if ¬ (pic.m_iPicHeight = pcSrcPicYuv.m_iPicHeight) then Except.error Fault.assertion
  else if ¬ (pic.m_chromaFormatIDC = CHROMA_444) then Except.error Fault.assertion
  else
    let c := convertConsts bitDepths
    match forLoop pic.m_iPicHeight (fun _y r =>
        match r with
        | Except.ok st =>
          convertRow pelBits c (pcSrcPicYuv.m_apiPicBuf COMPONENT_Y)
            (pcSrcPicYuv.m_apiPicBuf COMPONENT_Cb) (pcSrcPicYuv.m_apiPicBuf COMPONENT_Cr)
            pic.m_iPicWidth
            (pcSrcPicYuv.getStride COMPONENT_Y) (pcSrcPicYuv.getStride COMPONENT_Cb)
            (pcSrcPicYuv.getStride COMPONENT_Cr)
            (pic.getStride COMPONENT_Y) (pic.getStride COMPONENT_Cb) (pic.getStride COMPONENT_Cr)
            st
        | Except.error e => Except.error e)
        (Except.ok
          { pSrc0 := pcSrcPicYuv.getAddr COMPONENT_Y
            pSrc1 := pcSrcPicYuv.getAddr COMPONENT_Cb
            pSrc2 := pcSrcPicYuv.getAddr COMPONENT_Cr
            pDst0 := pic.getAddr COMPONENT_Y
            pDst1 := pic.getAddr COMPONENT_Cb
            pDst2 := pic.getAddr COMPONENT_Cr
            bufs :=
              { dst0 := pic.m_apiPicBuf COMPONENT_Y
                dst1 := pic.m_apiPicBuf COMPONENT_Cb
                dst2 := pic.m_apiPicBuf COMPONENT_Cr } }) with
    | Except.ok st =>
      Except.ok
        { pic with
          m_apiPicBuf := Function.update (Function.update (Function.update pic.m_apiPicBuf
            COMPONENT_Y st.bufs.dst0) COMPONENT_Cb st.bufs.dst1) COMPONENT_Cr st.bufs.dst2 }
    | Except.error e => Except.error e

/-- Every access of `DefaultConvertPix` with destination `pic` and source `src` stays inside
the block of its plane: for each pixel `(x, y)` of the picture, the location
`getAddr(ch) + y * getStride(ch) + x` of each of the three planes of the source and of the
destination is inside the allocated block of that plane. -/
def convertInBlock (pic src : TComPicYuv) : Prop :=
  ∀ x : Nat, x < pic.m_iPicWidth → ∀ y : Nat, y < pic.m_iPicHeight →
    ((src.m_apiPicBuf COMPONENT_Y).inBlock
        (src.getAddr COMPONENT_Y + (y : Int) * (src.getStride COMPONENT_Y : Int) + (x : Int)) ∧
      (src.m_apiPicBuf COMPONENT_Cb).inBlock
        (src.getAddr COMPONENT_Cb + (y : Int) * (src.getStride COMPONENT_Cb : Int) + (x : Int)) ∧
      (src.m_apiPicBuf COMPONENT_Cr).inBlock
        (src.getAddr COMPONENT_Cr + (y : Int) * (src.getStride COMPONENT_Cr : Int) + (x : Int))) ∧
    ((pic.m_apiPicBuf COMPONENT_Y).inBlock
        (pic.getAddr COMPONENT_Y + (y : Int) * (pic.getStride COMPONENT_Y : Int) + (x : Int)) ∧
      (pic.m_apiPicBuf COMPONENT_Cb).inBlock
        (pic.getAddr COMPONENT_Cb + (y : Int) * (pic.getStride COMPONENT_Cb : Int) + (x : Int)) ∧
      (pic.m_apiPicBuf COMPONENT_Cr).inBlock
        (pic.getAddr COMPONENT_Cr + (y : Int) * (pic.getStride COMPONENT_Cr : Int) + (x : Int)))

instance (pic src : TComPicYuv) : Decidable (pic.convertInBlock src) :=
  inferInstanceAs (Decidable (∀ x : Nat, x < pic.m_iPicWidth → ∀ y : Nat, y < pic.m_iPicHeight →
    ((src.m_apiPicBuf COMPONENT_Y).inBlock
        (src.getAddr COMPONENT_Y + (y : Int) * (src.getStride COMPONENT_Y : Int) + (x : Int)) ∧
      (src.m_apiPicBuf COMPONENT_Cb).inBlock
        (src.getAddr COMPONENT_Cb + (y : Int) * (src.getStride COMPONENT_Cb : Int) + (x : Int)) ∧
      (src.m_apiPicBuf COMPONENT_Cr).inBlock
        (src.getAddr COMPONENT_Cr + (y : Int) * (src.getStride COMPONENT_Cr : Int) + (x : Int))) ∧
    ((pic.m_apiPicBuf COMPONENT_Y).inBlock
        (pic.getAddr COMPONENT_Y + (y : Int) * (pic.getStride COMPONENT_Y : Int) + (x : Int)) ∧
      (pic.m_apiPicBuf COMPONENT_Cb).inBlock
        (pic.getAddr COMPONENT_Cb + (y : Int) * (pic.getStride COMPONENT_Cb : Int) + (x : Int)) ∧
      (pic.m_apiPicBuf COMPONENT_Cr).inBlock
        (pic.getAddr COMPONENT_Cr + (y : Int) * (pic.getStride COMPONENT_Cr : Int) + (x : Int)))))

/-- The copy of `copyToPic` from `src` to `dst` stays inside the blocks of both pictures: for
every valid plane of the source, the `getStride * getTotalHeight` samples that line 191
copies are no more than the source block holds and no more than the destination block
holds. -/
def copyFits (src dst : TComPicYuv) : Prop :=
  ∀ ch : ComponentID, ch.toChan < src.getNumberValidComponents →
    (src.getStride ch : Int) * (src.getTotalHeight ch : Int) ≤ (src.m_apiPicBuf ch).size ∧
    (src.getStride ch : Int) * (src.getTotalHeight ch : Int) ≤ (dst.m_apiPicBuf ch).size

instance (src dst : TComPicYuv) : Decidable (src.copyFits dst) :=
  decidable_of_iff
    ((fun ch : ComponentID => ch.toChan < src.getNumberValidComponents →
        (src.getStride ch : Int) * (src.getTotalHeight ch : Int) ≤ (src.m_apiPicBuf ch).size ∧
        (src.getStride ch : Int) * (src.getTotalHeight ch : Int) ≤ (dst.m_apiPicBuf ch).size)
        COMPONENT_Y ∧
      (fun ch : ComponentID => ch.toChan < src.getNumberValidComponents →
        (src.getStride ch : Int) * (src.getTotalHeight ch : Int) ≤ (src.m_apiPicBuf ch).size ∧
        (src.getStride ch : Int) * (src.getTotalHeight ch : Int) ≤ (dst.m_apiPicBuf ch).size)
        COMPONENT_Cb ∧
      (fun ch : ComponentID => ch.toChan < src.getNumberValidComponents →
        (src.getStride ch : Int) * (src.getTotalHeight ch : Int) ≤ (src.m_apiPicBuf ch).size ∧
        (src.getStride ch : Int) * (src.getTotalHeight ch : Int) ≤ (dst.m_apiPicBuf ch).size)
        COMPONENT_Cr)
    ⟨fun h ch => by cases ch; exact h.1; exact h.2.1; exact h.2.2, fun h => ⟨h _, h _, h _⟩⟩

end TComPicYuv

/-- The three right-hand sides of lines 326-328 of `DefaultConvertPix`, as `Int` values before
they are converted to `Pel`, for a pixel whose source samples are `s0`, `s1`, `s2`: the three
right shifts of the transform. -/
def convertShifted (c : TComPicYuv.ConvertConsts) (s0 s1 s2 : Pel) : Int × Int × Int :=
  let r := shl s2 c.iShiftChroma
  let g := shl s0 c.iShiftLuma
  let b := shl s1 c.iShiftChroma
  ((shl g 1 + r + b + c.iRoundLuma) >>> (2 + c.iShiftLuma),
   (shl g 1 - r - b + c.iRoundChroma) >>> (2 + c.iShiftChroma),
   (shl (r - b) 1 + c.iRoundChroma) >>> (2 + c.iShiftChroma))

/-- The values of type `Int` that `DefaultConvertPix` computes for a pixel whose source samples
are `s0`, `s1`, `s2`: the constants of lines 292-299 (with `1 << bitDepth` before the
subtraction), the shifted inputs of lines 322-324, the sums and differences of lines 326-328
before the right shift, and the sums of lines 330-331. -/
def convertIntValues (bitDepths : BitDepths) (s0 s1 s2 : Pel) : List Int :=
  let c := TComPicYuv.convertConsts bitDepths
  let r := shl s2 c.iShiftChroma
  let g := shl s0 c.iShiftLuma
  let b := shl s1 c.iShiftChroma
  [shl 1 (bitDepths.recon CHANNEL_TYPE_LUMA), shl 1 (bitDepths.recon CHANNEL_TYPE_CHROMA),
    c.iMaxLuma, c.iMaxChroma, c.iChromaOffset, c.iRoundLuma, c.iRoundChroma,
    r, g, b,
    shl g 1, shl g 1 + r, shl g 1 + r + b, shl g 1 + r + b + c.iRoundLuma,
    shl g 1 - r, shl g 1 - r - b, shl g 1 - r - b + c.iRoundChroma,
    r - b, shl (r - b) 1, shl (r - b) 1 + c.iRoundChroma,
    (convertShifted c s0 s1 s2).2.1 + c.iChromaOffset,
    (convertShifted c s0 s1 s2).2.2 + c.iChromaOffset]

/-- The three values that one pass of the pixel loop body of `DefaultConvertPix` leaves in the
destination samples of a pixel whose source samples are `s0`, `s1`, `s2` (lines 322-335
with the stores followed through): each assignment to a destination sample converts its
value to `Pel`. -/
def convertValue (pelBits : Nat) (c : TComPicYuv.ConvertConsts) (s0 s1 s2 : Pel) :
    Pel × Pel × Pel :=
  let v := convertShifted c s0 s1 s2
  (toPel pelBits (Clip3 0 c.iMaxLuma (toPel pelBits v.1)),
   toPel pelBits (Clip3 0 c.iMaxChroma (toPel pelBits (toPel pelBits v.2.1 + c.iChromaOffset))),
   toPel pelBits (Clip3 0 c.iMaxChroma (toPel pelBits (toPel pelBits v.2.2 + c.iChromaOffset))))

/-- The values of `convertValue` when no conversion to `Pel` changes its argument: the
shifted values, offset (chroma only) and clipped. -/
def convertExact (c : TComPicYuv.ConvertConsts) (s0 s1 s2 : Pel) : Int × Int × Int :=
  let v := convertShifted c s0 s1 s2
  (Clip3 0 c.iMaxLuma v.1,
   Clip3 0 c.iMaxChroma (v.2.1 + c.iChromaOffset),
   Clip3 0 c.iMaxChroma (v.2.2 + c.iChromaOffset))

/-- The coordinate `v` clamped to the range `[lo, hi]`. -/
def clamp (v lo hi : Int) : Int :=
  max lo (min v hi)

/-- The colour transform in the words of the specification, for the luma and chroma bit
depths `bL`, `bC` and the three source samples `s0`, `s1`, `s2` of one pixel: the inputs are
shifted up to the common bit depth `max bL bC`, combined, rounded by a floor division, and
the results are offset (chroma only) and clipped to the range of their bit depth. -/
def specConvertPix (bL bC : Nat) (s0 s1 s2 : Int) : Int × Int × Int :=
  let m := max bL bC
  let sL := m - bL
  let sC := m - bC
  let in0 := s0 * 2 ^ sL
  let in1 := s1 * 2 ^ sC
  let in2 := s2 * 2 ^ sC
  (clamp ((2 * in0 + in1 + in2 + 2 ^ (1 + sL)) / 2 ^ (2 + sL)) 0 (2 ^ bL - 1),
   clamp ((2 * in0 - in1 - in2 + 2 ^ (1 + sC)) / 2 ^ (2 + sC) + 2 ^ (bC - 1)) 0 (2 ^ bC - 1),
   clamp ((2 * (in2 - in1) + 2 ^ (1 + sC)) / 2 ^ (2 + sC) + 2 ^ (bC - 1)) 0 (2 ^ bC - 1))

/-- A small 4:2:0 picture of 4x4 luma samples, created without the CTU margin, whose storage
holds the linear index of every sample. -/
def examplePic : TComPicYuv :=
  TComPicYuv.create 4 4 CHROMA_420 16 16 1 false (fun _ i => i)

/-- A 4:4:4 picture of 2x2 samples in which every sample of every plane is `v`. -/
def flatPic (v : Pel) : TComPicYuv :=
  TComPicYuv.create 2 2 CHROMA_444 16 16 1 false (fun _ _ => v)

/-- Bit depths with `bL` bits for luma and `bC` bits for chroma. -/
def mkBitDepths (bL bC : Nat) : BitDepths :=
  ⟨fun ct => match ct with
    | CHANNEL_TYPE_LUMA => bL
    | CHANNEL_TYPE_CHROMA => bC⟩

namespace TComPicYuv

/-- The horizontal source coordinate of forward `resample` (lines 391, 394-397). -/
def resampleOrgX (uiMaxCUWidth uiNumberUseBiggerStrideX uiStrideX uiStrideXplus1
    uiPicRsmpldX : Nat) : Nat :=
  let uiIdX := uiPicRsmpldX % uiMaxCUWidth
  if uiIdX < uiNumberUseBiggerStrideX then
    uiPicRsmpldX / uiMaxCUWidth + uiIdX * uiStrideXplus1
  else
    uiPicRsmpldX / uiMaxCUWidth + uiNumberUseBiggerStrideX * uiStrideXplus1
      + (uiIdX - uiNumberUseBiggerStrideX) * uiStrideX

/-- The vertical source coordinate of forward `resample` (lines 392, 399-402). -/
def resampleOrgY (uiMaxCUHeight uiNumberUseBiggerStrideY uiStrideY uiStrideYplus1
    uiPicRsmpldY : Nat) : Nat :=
  let uiIdY := uiPicRsmpldY % uiMaxCUHeight
  if uiIdY < uiNumberUseBiggerStrideY then
    uiPicRsmpldY / uiMaxCUHeight + uiIdY * uiStrideYplus1
  else
    uiPicRsmpldY / uiMaxCUHeight + uiNumberUseBiggerStrideY * uiStrideYplus1
      + (uiIdY - uiNumberUseBiggerStrideY) * uiStrideY

/-- The horizontal source coordinate of backward `resample` (lines 426, 430-439). -/
def resampleRsmpldX (uiMaxCUWidth uiNumberUseBiggerStrideX uiStrideX uiStrideXplus1
    uiPicOrgX : Nat) : Nat :=
  let uiThresholdX := uiNumberUseBiggerStrideX * uiStrideXplus1
  if uiPicOrgX < uiThresholdX then
    let uiIdX := uiPicOrgX % uiStrideXplus1
    uiPicOrgX / uiStrideXplus1 + uiIdX * uiMaxCUWidth
  else
    let uiIdX := (uiPicOrgX - uiThresholdX) % uiStrideX
    uiNumberUseBiggerStrideX + (uiPicOrgX - uiThresholdX) / uiStrideX + uiIdX * uiMaxCUWidth

/-- The vertical source coordinate of backward `resample` (lines 427, 440-449); as in the
source, the in-unit index is multiplied by `uiMaxCUWidth`. -/
def resampleRsmpldY (uiMaxCUWidth uiNumberUseBiggerStrideY uiStrideY uiStrideYplus1
    uiPicOrgY : Nat) : Nat :=
  let uiThresholdY := uiNumberUseBiggerStrideY * uiStrideYplus1
  if uiPicOrgY < uiThresholdY then
    let uiIdY := uiPicOrgY % uiStrideYplus1
    uiPicOrgY / uiStrideYplus1 + uiIdY * uiMaxCUWidth
  else
    let uiIdY := (uiPicOrgY - uiThresholdY) % uiStrideY
    uiNumberUseBiggerStrideY + (uiPicOrgY - uiThresholdY) / uiStrideY + uiIdY * uiMaxCUWidth

/-- The body of the component loop of `resample` (lines 363-463) for component `ch`.  A
modulo by a zero stride (lines 374, 375) stops the call with `Fault.divisionByZero`;
`heap cId` is the (arbitrary) content of the block that `xMalloc` returns. -/
def resampleComponent (pic : TComPicYuv) (uiMaxCUWidth uiMaxCUHeight : Nat) (bInverse : Bool)
    (heap : ComponentID → Int → Pel) (ch : Nat) : Except Fault TComPicYuv :=
  let cId := ComponentID.ofChan ch
  let uiPicStride := pic.getStride cId
  let uiPicWidth := pic.getWidth cId
  let uiPicHeight := pic.getHeight cId
  let uiStrideX := uiPicWidth / uiMaxCUWidth
  let uiStrideY := pic.m_iPicHeight / uiMaxCUHeight
  let uiStrideXplus1 := uiStrideX + 1
  let uiStrideYplus1 := uiStrideY + 1
  if uiStrideX = 0 then Except.error Fault.divisionByZero
  else if uiStrideY = 0 then Except.error Fault.divisionByZero
  else
    let uiNumberUseBiggerStrideX := uiPicWidth % uiStrideX
    let uiNumberUseBiggerStrideY := uiPicHeight % uiStrideY
    -- allocate pixels memory
    let piPicTmpBuf : PelBuf := ⟨(uiPicStride : Int) * (pic.getTotalHeight cId : Int), heap cId⟩
    let piPicTmpOrg : Int :=
      ((pic.m_iMarginY >>> pic.getComponentScaleY cId : Nat) : Int) * (uiPicStride : Int)
        + ((pic.m_iMarginX >>> pic.getComponentScaleX cId : Nat) : Int)
    let tmp :=
      if !bInverse then
        -- forward resample: traverse the resampled picture
        forLoop uiPicHeight (fun uiPicRsmpldY b =>
          forLoop uiPicWidth (fun uiPicRsmpldX b =>
            let uiPicOrgX := resampleOrgX uiMaxCUWidth uiNumberUseBiggerStrideX uiStrideX
              uiStrideXplus1 uiPicRsmpldX
            let uiPicOrgY := resampleOrgY uiMaxCUHeight uiNumberUseBiggerStrideY uiStrideY
              uiStrideYplus1 uiPicRsmpldY
            let uiDstId := uiPicStride * uiPicRsmpldY + uiPicRsmpldX
            let uiSrcId := uiPicStride * uiPicOrgY + uiPicOrgX
            b.write (piPicTmpOrg + (uiDstId : Int))
              ((pic.m_apiPicBuf cId).data (pic.m_piPicOrg cId + (uiSrcId : Int)))) b) piPicTmpBuf
      else
        -- backward resample: traverse the original picture
        forLoop uiPicHeight (fun uiPicOrgY b =>
          forLoop uiPicWidth (fun uiPicOrgX b =>
            let uiPicRsmpldX := resampleRsmpldX uiMaxCUWidth uiNumberUseBiggerStrideX uiStrideX
              uiStrideXplus1 uiPicOrgX
            let uiPicRsmpldY := resampleRsmpldY uiMaxCUWidth uiNumberUseBiggerStrideY uiStrideY
              uiStrideYplus1 uiPicOrgY
            let uiDstId := uiPicStride * uiPicOrgY + uiPicOrgX
            let uiSrcId := uiPicStride * uiPicRsmpldY + uiPicRsmpldX
            b.write (piPicTmpOrg + (uiDstId : Int))
              ((pic.m_apiPicBuf cId).data (pic.m_piPicOrg cId + (uiSrcId : Int)))) b) piPicTmpBuf
    -- replace the picture with the scratch buffer
    Except.ok
      { pic with
        m_apiPicBuf := Function.update pic.m_apiPicBuf cId tmp
        m_piPicOrg := Function.update pic.m_piPicOrg cId piPicTmpOrg }

/-- The method `TComPicYuv::resample` (compiled under `PGR_ENABLE`). -/
def resample (pic : TComPicYuv) (uiMaxCUWidth uiMaxCUHeight : Nat) (bInverse : Bool)
    (heap : ComponentID → Int → Pel) : Except Fault TComPicYuv :=
  if ¬ (uiMaxCUWidth ≠ 0 ∧ uiMaxCUHeight ≠ 0) then Except.error Fault.assertion
  else
    forLoop pic.getNumberValidComponents (fun ch r =>
      match r with
      | Except.ok p => resampleComponent p uiMaxCUWidth uiMaxCUHeight bInverse heap ch
      | Except.error e => Except.error e) (Except.ok pic)

end TComPicYuv

/-- The margins of a picture are validly replicated: in every valid plane of width and
height at least 1, every sample of the padded window equals the sample of the logical
picture at the nearest (clamped) coordinate. -/
def marginsReplicated (pic : TComPicYuv) : Prop :=
  ∀ ch : ComponentID, ch.toChan < pic.getNumberValidComponents →
    1 ≤ pic.getWidth ch → 1 ≤ pic.getHeight ch →
    ∀ x y : Int, -(pic.getMarginX ch : Int) ≤ x →
      x < (pic.getWidth ch : Int) + (pic.getMarginX ch : Int) →
      -(pic.getMarginY ch : Int) ≤ y →
      y < (pic.getHeight ch : Int) + (pic.getMarginY ch : Int) →
      pic.sample ch x y
        = pic.sample ch (clamp x 0 ((pic.getWidth ch : Int) - 1))
            (clamp y 0 ((pic.getHeight ch : Int) - 1))

/-- The states of a picture buffer that are reachable from a call of `create` with non-zero
CTU sizes by calls of `extendPicBorder`, of `copyToPic` with this buffer as destination (the
copy staying inside the blocks of both pictures), and of `DefaultConvertPix` with this buffer
as destination. -/
inductive Reachable : TComPicYuv → Prop where
  | create (w h : Nat) (fmt : ChromaFormat) (cw chh D : Nat) (useMargin : Bool)
      (heap : ComponentID → Int → Pel) : 0 < cw → 0 < chh →
      Reachable (TComPicYuv.create w h fmt cw chh D useMargin heap)
  | extend (pic : TComPicYuv) : Reachable pic → Reachable pic.extendPicBorder
  | copy (src pic pic2 : TComPicYuv) :
      Reachable pic → src.copyFits pic → src.copyToPic pic = Except.ok pic2 → Reachable pic2
  | convert (pelBits : Nat) (src pic pic2 : TComPicYuv) (bd : BitDepths) :
      Reachable pic → pic.DefaultConvertPix pelBits src bd = Except.ok pic2 → Reachable pic2

/-- The states of a picture buffer that are reachable from a call of `create` with non-zero
CTU sizes by calls of `extendPicBorder` alone. -/
inductive ReachableByExtend : TComPicYuv → Prop where
  | create (w h : Nat) (fmt : ChromaFormat) (cw chh D : Nat) (useMargin : Bool)
      (heap : ComponentID → Int → Pel) : 0 < cw → 0 < chh →
      ReachableByExtend (TComPicYuv.create w h fmt cw chh D useMargin heap)
  | extend (pic : TComPicYuv) : ReachableByExtend pic → ReachableByExtend pic.extendPicBorder

/-- A monochrome picture of `w` x `h` samples, created without the CTU margin, whose storage
holds the linear index of every sample. -/
def indexPic (w h : Nat) : TComPicYuv :=
  TComPicYuv.create w h CHROMA_400 16 16 0 false (fun _ i => i)

/-- A monochrome picture of 4x4 samples in which every stored sample is `v`, created with the
CTU margin of 16 (`useMargin = true`) or without it. -/
def marginPic (useMargin : Bool) (v : Pel) : TComPicYuv :=
  TComPicYuv.create 4 4 CHROMA_400 16 16 0 useMargin (fun _ _ => v)

/-- The sample at `(x, y)` of plane `ch` of the picture that a call of `resample` returns, if
the call returns one. -/
def resultSample (r : Except Fault TComPicYuv) (ch : ComponentID) (x y : Int) : Option Pel :=
  match r with
  | Except.ok p => some (p.sample ch x y)
  | Except.error _ => none

/-- Forward `resample` followed by backward `resample` with the same CTU size; every scratch
buffer that `xMalloc` returns holds `v` in every sample. -/
def resampleRoundTrip (pic : TComPicYuv) (uiMaxCUWidth uiMaxCUHeight : Nat) (v : Pel) :
    Except Fault TComPicYuv :=
  match pic.resample uiMaxCUWidth uiMaxCUHeight false (fun _ _ => v) with
  | Except.ok p => p.resample uiMaxCUWidth uiMaxCUHeight true (fun _ _ => v)
  | Except.error e => Except.error e

/-- A 4:2:0 picture of `w` x `h` luma samples, created without the CTU margin, whose storage
holds the linear index of every sample. -/
def indexPic420 (w h : Nat) : TComPicYuv :=
  TComPicYuv.create w h CHROMA_420 16 16 0 false (fun _ i => i)

/-! ## Loops and offset tables -/

theorem forLoop_zero {σ : Type} (body : Nat → σ → σ) (s : σ) : forLoop 0 body s = s := rfl

theorem forLoop_succ {σ : Type} (n : Nat) (body : Nat → σ → σ) (s : σ) :
    forLoop (n + 1) body s = body n (forLoop n body s) := rfl

/-- A loop invariant that holds initially and is preserved by each iteration holds at the end. -/
theorem forLoop_invariant {σ : Type} (P : Nat → σ → Prop) (body : Nat → σ → σ) (s : σ) (n : Nat)
    (h0 : P 0 s) (hstep : ∀ i t, i < n → P i t → P (i + 1) (body i t)) :
    P n (forLoop n body s) := by
  induction n with
  | zero => exact h0
  | succ k ih =>
    rw [forLoop_succ]
    exact hstep k _ (Nat.lt_succ_self k) (ih (fun i t hi hP => hstep i t (Nat.lt_succ_of_lt hi) hP))

/-- One row of table writes: entries `b .. b+n-1` receive `val 0 .. val (n-1)`, every other
entry is kept, and the length is kept. -/
theorem tableWrite_row (b n : Nat) (val : Nat → Int) (t : List (Option Int))
    (hlen : b + n ≤ t.length) :
    (forLoop n (fun c u => TComPicYuv.tableWrite u (b + c) (val c)) t).length = t.length ∧
    (∀ c, c < n → (forLoop n (fun c u => TComPicYuv.tableWrite u (b + c) (val c)) t)[b + c]?
        = some (some (val c))) ∧
    (∀ j, (j < b ∨ b + n ≤ j) →
      (forLoop n (fun c u => TComPicYuv.tableWrite u (b + c) (val c)) t)[j]? = t[j]?) := by
  refine forLoop_invariant
    (fun i u => u.length = t.length ∧ (∀ c, c < i → u[b + c]? = some (some (val c))) ∧
      (∀ j, (j < b ∨ b + i ≤ j) → u[j]? = t[j]?))
    _ t n ⟨rfl, fun c hc => absurd hc (Nat.not_lt_zero c), fun _ _ => rfl⟩ ?_
  intro i u hi ⟨hl, hin, hout⟩
  refine ⟨by simp [TComPicYuv.tableWrite, hl], ?_, ?_⟩
  · intro c hc
    by_cases hci : c = i
    · subst hci
      simp only [TComPicYuv.tableWrite]
      rw [List.getElem?_set_self (by omega)]
    · simp only [TComPicYuv.tableWrite]
      rw [List.getElem?_set_ne (by omega)]
      exact hin c (by omega)
  · intro j hj
    simp only [TComPicYuv.tableWrite]
    rw [List.getElem?_set_ne (by omega)]
    exact hout j (by omega)

/-- A nested pair of loops writing `val r c` at index `r * C + c` fills the first `R * C`
entries of the table row by row, keeps the remaining entries and keeps the length. -/
theorem tableWrite_grid (R C : Nat) (val : Nat → Nat → Int) (t : List (Option Int))
    (hlen : R * C ≤ t.length) :
    (forLoop R (fun r u => forLoop C (fun c u => TComPicYuv.tableWrite u (r * C + c) (val r c)) u) t).length
      = t.length ∧
    (∀ r c, r < R → c < C →
      (forLoop R (fun r u => forLoop C (fun c u => TComPicYuv.tableWrite u (r * C + c) (val r c)) u) t)[r * C + c]?
        = some (some (val r c))) ∧
    (∀ j, R * C ≤ j →
      (forLoop R (fun r u => forLoop C (fun c u => TComPicYuv.tableWrite u (r * C + c) (val r c)) u) t)[j]?
        = t[j]?) := by
  refine forLoop_invariant
    (fun i u => u.length = t.length ∧
      (∀ r c, r < i → c < C → u[r * C + c]? = some (some (val r c))) ∧
      (∀ j, i * C ≤ j → u[j]? = t[j]?))
    _ t R ⟨rfl, fun r c hr => absurd hr (Nat.not_lt_zero r), fun _ _ => rfl⟩ ?_
  intro i u hi ⟨hl, hin, hout⟩
  have hiC : (i + 1) * C ≤ R * C := Nat.mul_le_mul_right C hi
  have hsucc : (i + 1) * C = i * C + C := Nat.succ_mul i C
  obtain ⟨hl2, hin2, hout2⟩ := tableWrite_row (i * C) C (val i) u (by omega)
  refine ⟨by rw [hl2, hl], ?_, ?_⟩
  · intro r c hr hc
    by_cases hri : r = i
    · subst hri
      exact hin2 c hc
    · have hlt : r < i := by omega
      have h1 : (r + 1) * C ≤ i * C := Nat.mul_le_mul_right C hlt
      have h2 : (r + 1) * C = r * C + C := Nat.succ_mul r C
      rw [hout2 (r * C + c) (Or.inl (by omega))]
      exact hin r c hlt hc
  · intro j hj
    rw [hout2 j (Or.inr (by omega))]
    exact hout j (by omega)

/-- The count of CTUs along one dimension computed by `create` is the rounded-up quotient. -/
theorem numCu_eq_ceil (w c : Nat) (hc : 0 < c) :
    w / c + (if w % c ≠ 0 then 1 else 0) = ⌈(w : ℚ) / (c : ℚ)⌉₊ := by
  have hcq : (0 : ℚ) < (c : ℚ) := by exact_mod_cast hc
  have hdm := Nat.div_add_mod w c
  have hlt := Nat.mod_lt w hc
  apply le_antisymm
  · generalize hN : w / c + (if w % c ≠ 0 then 1 else 0) = N
    cases N with
    | zero => exact Nat.zero_le _
    | succ k =>
      apply Nat.succ_le_of_lt
      rw [Nat.lt_ceil, lt_div_iff₀ hcq]
      have : k * c < w := by
        split_ifs at hN with h
        · have hk : k = w / c := by omega
          subst hk
          have h1 : c * (w / c) = w / c * c := Nat.mul_comm _ _
          omega
        · have hk : w / c = k + 1 := by omega
          rw [hk] at hdm
          have h1 : c * (k + 1) = k * c + c := by ring
          omega
      exact_mod_cast this
  · rw [Nat.ceil_le, div_le_iff₀ hcq]
    have : w ≤ (w / c + (if w % c ≠ 0 then 1 else 0)) * c := by
      split_ifs with h
      · nlinarith
      · have : w % c = 0 := by omega
        nlinarith
    exact_mod_cast this

namespace TComPicYuv

/-! ## The members after `create` -/

section create_members

variable (w h : Nat) (fmt : ChromaFormat) (cw chh D : Nat) (useMargin : Bool)
  (heap : ComponentID → Int → Pel)

theorem create_width : (create w h fmt cw chh D useMargin heap).m_iPicWidth = w := by
  cases fmt <;> rfl

theorem create_height : (create w h fmt cw chh D useMargin heap).m_iPicHeight = h := by
  cases fmt <;> rfl

theorem create_format : (create w h fmt cw chh D useMargin heap).m_chromaFormatIDC = fmt := by
  cases fmt <;> rfl

theorem create_marginX :
    (create w h fmt cw chh D useMargin heap).m_iMarginX = (if useMargin then cw else 0) + 16 := by
  cases fmt <;> rfl

theorem create_marginY :
    (create w h fmt cw chh D useMargin heap).m_iMarginY = (if useMargin then chh else 0) + 16 := by
  cases fmt <;> rfl

theorem create_flag : (create w h fmt cw chh D useMargin heap).m_bIsBorderExtended = false := by
  cases fmt <;> rfl

theorem create_ctuTable (ch : ComponentID) :
    (create w h fmt cw chh D useMargin heap).m_ctuOffsetInBuffer (toChannelType ch) =
      fillCtuOffsets
        (w / cw + (if w % cw ≠ 0 then 1 else 0)) (h / chh + (if h % chh ≠ 0 then 1 else 0))
        ((create w h fmt cw chh D useMargin heap).getStride ch)
        ((cw >>> (create w h fmt cw chh D useMargin heap).getComponentScaleX ch : Nat) : Int)
        ((chh >>> (create w h fmt cw chh D useMargin heap).getComponentScaleY ch : Nat) : Int)
        (newTable ((w / cw + (if w % cw ≠ 0 then 1 else 0)) * (h / chh + (if h % chh ≠ 0 then 1 else 0)))) := by
  cases fmt <;> cases ch <;> rfl

theorem create_subCuTable (ch : ComponentID) :
    (create w h fmt cw chh D useMargin heap).m_subCuOffsetInBuffer (toChannelType ch) =
      fillSubCuOffsets D (1 <<< D)
        ((create w h fmt cw chh D useMargin heap).getStride ch)
        (((cw >>> (create w h fmt cw chh D useMargin heap).getComponentScaleX ch) >>> D : Nat) : Int)
        (((chh >>> (create w h fmt cw chh D useMargin heap).getComponentScaleY ch) >>> D : Nat) : Int)
        (newTable (1 <<< (2 * D))) := by
  cases fmt <;> cases ch <;> rfl

theorem create_buf (ch : ComponentID)
    (hvalid : ch.toChan < (create w h fmt cw chh D useMargin heap).getNumberValidComponents) :
    (create w h fmt cw chh D useMargin heap).m_apiPicBuf ch =
      ⟨((create w h fmt cw chh D useMargin heap).getStride ch : Int)
        * ((create w h fmt cw chh D useMargin heap).getTotalHeight ch : Int), heap ch⟩ := by
  cases fmt <;> cases ch <;>
    first
    | rfl
    | (exfalso; revert hvalid; simp [getNumberValidComponents, create_format, ComponentID.toChan])

theorem create_org (ch : ComponentID)
    (hvalid : ch.toChan < (create w h fmt cw chh D useMargin heap).getNumberValidComponents) :
    (create w h fmt cw chh D useMargin heap).m_piPicOrg ch =
      ((create w h fmt cw chh D useMargin heap).getMarginY ch : Int)
        * ((create w h fmt cw chh D useMargin heap).getStride ch : Int)
        + ((create w h fmt cw chh D useMargin heap).getMarginX ch : Int) := by
  cases fmt <;> cases ch <;>
    first
    | rfl
    | (exfalso; revert hvalid; simp [getNumberValidComponents, create_format, ComponentID.toChan])

end create_members

end TComPicYuv

/-! ## Geometry of a created picture -/

namespace TComPicYuv

theorem scaleX_le_one (pic : TComPicYuv) (ch : ComponentID) : pic.getComponentScaleX ch ≤ 1 := by
  unfold getComponentScaleX
  split_ifs <;> omega

theorem scaleY_le_one (pic : TComPicYuv) (ch : ComponentID) : pic.getComponentScaleY ch ≤ 1 := by
  unfold getComponentScaleY
  split_ifs <;> omega

/-- A margin of at least 16 luma samples leaves at least 8 samples after a shift by at most 1. -/
theorem shiftRight_margin_pos (m s : Nat) (hm : 16 ≤ m) (hs : s ≤ 1) : 1 ≤ m >>> s := by
  rw [Nat.shiftRight_eq_div_pow]
  interval_cases s
  · simpa using (by omega : 1 ≤ m)
  · simp only [pow_one]
    omega

theorem create_getMarginX_pos (w h : Nat) (fmt : ChromaFormat) (cw chh D : Nat) (useMargin : Bool)
    (heap : ComponentID → Int → Pel) (ch : ComponentID) :
    1 ≤ (create w h fmt cw chh D useMargin heap).getMarginX ch := by
  unfold getMarginX
  rw [create_marginX]
  exact shiftRight_margin_pos _ _ (by omega) (scaleX_le_one _ _)

theorem create_getMarginY_pos (w h : Nat) (fmt : ChromaFormat) (cw chh D : Nat) (useMargin : Bool)
    (heap : ComponentID → Int → Pel) (ch : ComponentID) :
    1 ≤ (create w h fmt cw chh D useMargin heap).getMarginY ch := by
  unfold getMarginY
  rw [create_marginY]
  exact shiftRight_margin_pos _ _ (by omega) (scaleY_le_one _ _)

theorem getStride_eq (pic : TComPicYuv) (ch : ComponentID) :
    pic.getStride ch = pic.getWidth ch + 2 * pic.getMarginX ch := rfl

theorem getTotalHeight_eq (pic : TComPicYuv) (ch : ComponentID) :
    pic.getTotalHeight ch = pic.getHeight ch + 2 * pic.getMarginY ch := rfl

/-- A linear index `(my + y) * s + (mx + x)` of a padded window of `th` rows of `s` samples
lies inside the `s * th` samples of the plane. -/
theorem window_index_bounds (s th mx my : Int) (x y : Int)
    (hx0 : 0 ≤ mx + x) (hx1 : mx + x < s) (hy0 : 0 ≤ my + y) (hy1 : my + y < th) :
    0 ≤ my * s + mx + y * s + x ∧ my * s + mx + y * s + x < s * th := by
  have hs : 0 ≤ s := by omega
  have e : my * s + mx + y * s + x = (my + y) * s + (mx + x) := by ring
  have h1 : 0 ≤ (my + y) * s := mul_nonneg hy0 hs
  have h2 : (my + y) * s ≤ (th - 1) * s := mul_le_mul_of_nonneg_right (by omega) hs
  have e2 : (th - 1) * s = s * th - s := by ring
  rw [e]
  constructor <;> omega

end TComPicYuv

/-! ## Properties of `create` -/

/-- C3: after `create` with positive CTU width and height, the CTU offset table of each
channel type has `gridWidth * gridHeight` entries, where `gridWidth = ceil(width/ctuWidth)`
and `gridHeight = ceil(height/ctuHeight)`, and the entry at `row * gridWidth + col` is
`stride * row * (ctuHeight >> scaleY) + col * (ctuWidth >> scaleX)` for the stride and
scales of the channel. -/
theorem C3_ctuOffset_table (w h : Nat) (fmt : ChromaFormat) (cw chh D : Nat) (useMargin : Bool)
    (heap : ComponentID → Int → Pel) (hcw : 0 < cw) (hch : 0 < chh) (ch : ComponentID) :
    ((TComPicYuv.create w h fmt cw chh D useMargin heap).m_ctuOffsetInBuffer
        (TComPicYuv.toChannelType ch)).length
      = ⌈(w : ℚ) / (cw : ℚ)⌉₊ * ⌈(h : ℚ) / (chh : ℚ)⌉₊ ∧
    ∀ row col : Nat, row < ⌈(h : ℚ) / (chh : ℚ)⌉₊ → col < ⌈(w : ℚ) / (cw : ℚ)⌉₊ →
      ((TComPicYuv.create w h fmt cw chh D useMargin heap).m_ctuOffsetInBuffer
          (TComPicYuv.toChannelType ch))[row * ⌈(w : ℚ) / (cw : ℚ)⌉₊ + col]?
        = some (some
            (((TComPicYuv.create w h fmt cw chh D useMargin heap).getStride ch : Int) * (row : Int)
                * ((chh >>> (TComPicYuv.create w h fmt cw chh D useMargin heap).getComponentScaleY ch : Nat) : Int)
              + (col : Int)
                * ((cw >>> (TComPicYuv.create w h fmt cw chh D useMargin heap).getComponentScaleX ch : Nat) : Int))) := by
  rw [TComPicYuv.create_ctuTable, numCu_eq_ceil w cw hcw, numCu_eq_ceil h chh hch]
  obtain ⟨hlen, hget, -⟩ := tableWrite_grid ⌈(h : ℚ) / (chh : ℚ)⌉₊ ⌈(w : ℚ) / (cw : ℚ)⌉₊
    (fun r c => ((TComPicYuv.create w h fmt cw chh D useMargin heap).getStride ch : Int) * (r : Int)
      * ((chh >>> (TComPicYuv.create w h fmt cw chh D useMargin heap).getComponentScaleY ch : Nat) : Int)
      + (c : Int)
        * ((cw >>> (TComPicYuv.create w h fmt cw chh D useMargin heap).getComponentScaleX ch : Nat) : Int))
    (TComPicYuv.newTable (⌈(w : ℚ) / (cw : ℚ)⌉₊ * ⌈(h : ℚ) / (chh : ℚ)⌉₊))
    (by simp [TComPicYuv.newTable, Nat.mul_comm])
  refine ⟨?_, ?_⟩
  · unfold TComPicYuv.fillCtuOffsets
    rw [hlen]
    simp [TComPicYuv.newTable]
  · intro row col hrow hcol
    unfold TComPicYuv.fillCtuOffsets
    exact hget row col hrow hcol

/-- Witness for C3: a 64x64 picture with 16x16 CTUs has a 4x4 grid, and the luma entry at
`row * 4 + col` is `stride * row * 16 + col * 16` with the luma stride 128. -/
theorem C3_ctuOffset_table_witness :
    (0 < 16 ∧ 0 < 16) ∧
    ((TComPicYuv.create 64 64 CHROMA_420 16 16 2 true (fun _ _ => 0)).m_ctuOffsetInBuffer
        CHANNEL_TYPE_LUMA).length = 4 * 4 ∧
    ∀ row col : Nat, row < 4 → col < 4 →
      ((TComPicYuv.create 64 64 CHROMA_420 16 16 2 true (fun _ _ => 0)).m_ctuOffsetInBuffer
          CHANNEL_TYPE_LUMA)[row * 4 + col]?
        = some (some ((128 : Int) * (row : Int) * 16 + (col : Int) * 16)) := by
  have e : ⌈((64 : ℕ) : ℚ) / ((16 : ℕ) : ℚ)⌉₊ = 4 := by norm_num
  have h := C3_ctuOffset_table 64 64 CHROMA_420 16 16 2 true (fun _ _ => 0)
    (by decide) (by decide) COMPONENT_Y
  rw [e] at h
  exact ⟨⟨by decide, by decide⟩, h⟩

/-- C4: after `create` with positive CTU width and height and maximum depth `D`, the sub-unit
offset table of each channel type has exactly `4^D` entries; the index map
`(row, col) -> (row << D) + col` on `[0, 2^D) x [0, 2^D)` is a bijection onto `[0, 4^D)`; the
entry at `(row << D) + col` is
`stride * row * (ctuHeightForChannel >> D) + col * (ctuWidthForChannel >> D)`; and every
entry of the table has been written. -/
theorem C4_subUnit_table (w h : Nat) (fmt : ChromaFormat) (cw chh D : Nat) (useMargin : Bool)
    (heap : ComponentID → Int → Pel) (_hcw : 0 < cw) (_hch : 0 < chh) (ch : ComponentID) :
    ((TComPicYuv.create w h fmt cw chh D useMargin heap).m_subCuOffsetInBuffer
        (TComPicYuv.toChannelType ch)).length = 4 ^ D ∧
    (∀ row col : Nat, row < 2 ^ D → col < 2 ^ D →
      (row <<< D) + col < 4 ^ D ∧
      ((TComPicYuv.create w h fmt cw chh D useMargin heap).m_subCuOffsetInBuffer
          (TComPicYuv.toChannelType ch))[(row <<< D) + col]?
        = some (some
            (((TComPicYuv.create w h fmt cw chh D useMargin heap).getStride ch : Int) * (row : Int)
                * (((chh >>> (TComPicYuv.create w h fmt cw chh D useMargin heap).getComponentScaleY ch)
                      >>> D : Nat) : Int)
              + (col : Int)
                * (((cw >>> (TComPicYuv.create w h fmt cw chh D useMargin heap).getComponentScaleX ch)
                      >>> D : Nat) : Int)))) ∧
    (∀ row col row2 col2 : Nat, row < 2 ^ D → col < 2 ^ D → row2 < 2 ^ D → col2 < 2 ^ D →
      (row <<< D) + col = (row2 <<< D) + col2 → row = row2 ∧ col = col2) ∧
    (∀ i : Nat, i < 4 ^ D → ∃ row col : Nat, row < 2 ^ D ∧ col < 2 ^ D ∧ i = (row <<< D) + col) ∧
    (∀ i : Nat, i < 4 ^ D → ∃ v : Int,
      ((TComPicYuv.create w h fmt cw chh D useMargin heap).m_subCuOffsetInBuffer
          (TComPicYuv.toChannelType ch))[i]? = some (some v)) := by
  have h4 : (4 : Nat) ^ D = 2 ^ D * 2 ^ D := by
    rw [← Nat.mul_pow]
  have hpos : 0 < 2 ^ D := Nat.pow_pos (by decide)
  have hsz : (1 : Nat) <<< (2 * D) = 4 ^ D := by
    rw [Nat.one_shiftLeft, Nat.pow_mul]
  rw [TComPicYuv.create_subCuTable]
  unfold TComPicYuv.fillSubCuOffsets
  simp only [Nat.shiftLeft_eq, Nat.one_shiftLeft, Nat.one_mul]
  obtain ⟨hlen, hget, -⟩ := tableWrite_grid (2 ^ D) (2 ^ D)
    (fun r c => ((TComPicYuv.create w h fmt cw chh D useMargin heap).getStride ch : Int) * (r : Int)
      * (((chh >>> (TComPicYuv.create w h fmt cw chh D useMargin heap).getComponentScaleY ch)
            >>> D : Nat) : Int)
      + (c : Int)
        * (((cw >>> (TComPicYuv.create w h fmt cw chh D useMargin heap).getComponentScaleX ch)
            >>> D : Nat) : Int))
    (TComPicYuv.newTable (2 ^ (2 * D)))
    (by simp [TComPicYuv.newTable, Nat.pow_mul, h4])
  have hidx : ∀ row col : Nat, row < 2 ^ D → col < 2 ^ D → row * 2 ^ D + col < 4 ^ D := by
    intro row col hr hc
    have h1 : (row + 1) * 2 ^ D ≤ 2 ^ D * 2 ^ D := Nat.mul_le_mul_right _ hr
    have h2 : (row + 1) * 2 ^ D = row * 2 ^ D + 2 ^ D := Nat.succ_mul _ _
    omega
  have hsurj : ∀ i : Nat, i < 4 ^ D → ∃ row col : Nat, row < 2 ^ D ∧ col < 2 ^ D ∧
      i = row * 2 ^ D + col := by
    intro i hi
    refine ⟨i / 2 ^ D, i % 2 ^ D, ?_, Nat.mod_lt _ hpos, ?_⟩
    · rw [Nat.div_lt_iff_lt_mul hpos]
      omega
    · have := Nat.div_add_mod i (2 ^ D)
      rw [Nat.mul_comm] at this
      omega
  refine ⟨?_, ?_, ?_, hsurj, ?_⟩
  · rw [hlen]
    simp [TComPicYuv.newTable, Nat.pow_mul, h4]
  · intro row col hr hc
    exact ⟨hidx row col hr hc, hget row col hr hc⟩
  · intro row col row2 col2 hr hc hr2 hc2 he
    have d1 : (row * 2 ^ D + col) / 2 ^ D = row := by
      rw [Nat.mul_comm, Nat.mul_add_div hpos, Nat.div_eq_of_lt hc, Nat.add_zero]
    have d2 : (row2 * 2 ^ D + col2) / 2 ^ D = row2 := by
      rw [Nat.mul_comm, Nat.mul_add_div hpos, Nat.div_eq_of_lt hc2, Nat.add_zero]
    have hrow : row = row2 := by rw [← d1, ← d2, he]
    subst hrow
    exact ⟨rfl, by omega⟩
  · intro i hi
    obtain ⟨row, col, hr, hc, rfl⟩ := hsurj i hi
    exact ⟨_, hget row col hr hc⟩

/-- Witness for C4: with maximum depth 2 the luma sub-unit table of a 64x64 picture with
16x16 CTUs has 16 entries, and the entry at `(row << 2) + col` is `128 * row * 4 + col * 4`. -/
theorem C4_subUnit_table_witness :
    (0 < 16 ∧ 0 < 16) ∧
    ((TComPicYuv.create 64 64 CHROMA_420 16 16 2 true (fun _ _ => 0)).m_subCuOffsetInBuffer
        CHANNEL_TYPE_LUMA).length = 16 ∧
    ∀ row col : Nat, row < 4 → col < 4 →
      ((TComPicYuv.create 64 64 CHROMA_420 16 16 2 true (fun _ _ => 0)).m_subCuOffsetInBuffer
          CHANNEL_TYPE_LUMA)[(row <<< 2) + col]?
        = some (some ((128 : Int) * (row : Int) * 4 + (col : Int) * 4)) := by
  have h := C4_subUnit_table 64 64 CHROMA_420 16 16 2 true (fun _ _ => 0)
    (by decide) (by decide) COMPONENT_Y
  exact ⟨⟨by decide, by decide⟩, h.1, fun row col hr hc => (h.2.1 row col hr hc).2⟩

/-- C5: for every plane that `create`, called with positive CTU width and height, allocates,
the stride is at least the plane width and the total height at least the plane height, the
storage has `stride * totalHeight` samples,
the origin is at offset `(marginY>>scaleY) * stride + (marginX>>scaleX)` inside the storage,
and every coordinate `(x, y)` of the padded window has its linear index
`origin + y * stride + x` in `[0, stride * totalHeight)`. -/
theorem C5_geometry_bounds (w h : Nat) (fmt : ChromaFormat) (cw chh D : Nat) (useMargin : Bool)
    (heap : ComponentID → Int → Pel) (_hcw : 0 < cw) (_hch : 0 < chh) (ch : ComponentID)
    (hvalid : ch.toChan < (TComPicYuv.create w h fmt cw chh D useMargin heap).getNumberValidComponents) :
    (TComPicYuv.create w h fmt cw chh D useMargin heap).getStride ch
      ≥ w >>> (TComPicYuv.create w h fmt cw chh D useMargin heap).getComponentScaleX ch ∧
    (TComPicYuv.create w h fmt cw chh D useMargin heap).getTotalHeight ch
      ≥ h >>> (TComPicYuv.create w h fmt cw chh D useMargin heap).getComponentScaleY ch ∧
    ((TComPicYuv.create w h fmt cw chh D useMargin heap).m_apiPicBuf ch).size
      = ((TComPicYuv.create w h fmt cw chh D useMargin heap).getStride ch : Int)
        * ((TComPicYuv.create w h fmt cw chh D useMargin heap).getTotalHeight ch : Int) ∧
    (TComPicYuv.create w h fmt cw chh D useMargin heap).getAddr ch
      = (((TComPicYuv.create w h fmt cw chh D useMargin heap).m_iMarginY
            >>> (TComPicYuv.create w h fmt cw chh D useMargin heap).getComponentScaleY ch : Nat) : Int)
          * ((TComPicYuv.create w h fmt cw chh D useMargin heap).getStride ch : Int)
        + (((TComPicYuv.create w h fmt cw chh D useMargin heap).m_iMarginX
            >>> (TComPicYuv.create w h fmt cw chh D useMargin heap).getComponentScaleX ch : Nat) : Int) ∧
    (0 ≤ (TComPicYuv.create w h fmt cw chh D useMargin heap).getAddr ch ∧
      (TComPicYuv.create w h fmt cw chh D useMargin heap).getAddr ch
        < ((TComPicYuv.create w h fmt cw chh D useMargin heap).m_apiPicBuf ch).size) ∧
    ∀ x y : Int,
      -((TComPicYuv.create w h fmt cw chh D useMargin heap).getMarginX ch : Int) ≤ x →
      x < ((TComPicYuv.create w h fmt cw chh D useMargin heap).getWidth ch : Int)
            + ((TComPicYuv.create w h fmt cw chh D useMargin heap).getMarginX ch : Int) →
      -((TComPicYuv.create w h fmt cw chh D useMargin heap).getMarginY ch : Int) ≤ y →
      y < ((TComPicYuv.create w h fmt cw chh D useMargin heap).getHeight ch : Int)
            + ((TComPicYuv.create w h fmt cw chh D useMargin heap).getMarginY ch : Int) →
      0 ≤ (TComPicYuv.create w h fmt cw chh D useMargin heap).getAddr ch
            + y * ((TComPicYuv.create w h fmt cw chh D useMargin heap).getStride ch : Int) + x ∧
      (TComPicYuv.create w h fmt cw chh D useMargin heap).getAddr ch
            + y * ((TComPicYuv.create w h fmt cw chh D useMargin heap).getStride ch : Int) + x
        < ((TComPicYuv.create w h fmt cw chh D useMargin heap).m_apiPicBuf ch).size := by
  generalize hpic : TComPicYuv.create w h fmt cw chh D useMargin heap = pic at hvalid ⊢
  have hbuf := TComPicYuv.create_buf w h fmt cw chh D useMargin heap ch (by rw [hpic]; exact hvalid)
  have horg := TComPicYuv.create_org w h fmt cw chh D useMargin heap ch (by rw [hpic]; exact hvalid)
  have hmx := TComPicYuv.create_getMarginX_pos w h fmt cw chh D useMargin heap ch
  have hmy := TComPicYuv.create_getMarginY_pos w h fmt cw chh D useMargin heap ch
  have hw := TComPicYuv.create_width w h fmt cw chh D useMargin heap
  have hh := TComPicYuv.create_height w h fmt cw chh D useMargin heap
  rw [hpic] at hbuf horg hmx hmy hw hh
  have hS := TComPicYuv.getStride_eq pic ch
  have hT := TComPicYuv.getTotalHeight_eq pic ch
  have hwin : ∀ x y : Int, -(pic.getMarginX ch : Int) ≤ x →
      x < (pic.getWidth ch : Int) + (pic.getMarginX ch : Int) →
      -(pic.getMarginY ch : Int) ≤ y →
      y < (pic.getHeight ch : Int) + (pic.getMarginY ch : Int) →
      0 ≤ pic.getAddr ch + y * (pic.getStride ch : Int) + x ∧
      pic.getAddr ch + y * (pic.getStride ch : Int) + x < (pic.m_apiPicBuf ch).size := by
    intro x y hx0 hx1 hy0 hy1
    have := TComPicYuv.window_index_bounds (pic.getStride ch) (pic.getTotalHeight ch)
      (pic.getMarginX ch) (pic.getMarginY ch) x y (by omega) (by omega) (by omega) (by omega)
    rw [hbuf]
    simp only [TComPicYuv.getAddr, horg]
    exact this
  refine ⟨?_, ?_, ?_, ?_, ?_, hwin⟩
  · have : pic.getWidth ch = w >>> pic.getComponentScaleX ch := by
      unfold TComPicYuv.getWidth; rw [hw]
    omega
  · have : pic.getHeight ch = h >>> pic.getComponentScaleY ch := by
      unfold TComPicYuv.getHeight; rw [hh]
    omega
  · rw [hbuf]
  · simp only [TComPicYuv.getAddr, horg]
    rfl
  · have := hwin 0 0 (by omega) (by omega) (by omega) (by omega)
    simpa using this

/-- Witness for C5: the Cb plane of a 4:2:0 picture of 65x31 samples with 16x16 CTUs and
margins enabled is a valid plane, so its geometry bounds hold. -/
theorem C5_geometry_bounds_witness :
    (0 < 16 ∧ 0 < 16) ∧
    COMPONENT_Cb.toChan
      < (TComPicYuv.create 65 31 CHROMA_420 16 16 2 true (fun _ _ => 0)).getNumberValidComponents ∧
    (TComPicYuv.create 65 31 CHROMA_420 16 16 2 true (fun _ _ => 0)).getStride COMPONENT_Cb
      ≥ 65 >>> (TComPicYuv.create 65 31 CHROMA_420 16 16 2 true (fun _ _ => 0)).getComponentScaleX
          COMPONENT_Cb :=
  ⟨⟨by decide, by decide⟩, by decide,
    (C5_geometry_bounds 65 31 CHROMA_420 16 16 2 true (fun _ _ => 0) (by decide) (by decide)
      COMPONENT_Cb (by decide)).1⟩

/-! ## Border extension of one plane -/

namespace TComPicYuv

theorem write_data (b : PelBuf) (i : Int) (v : Pel) (j : Int) :
    (b.write i v).data j = if j = i then v else b.data j := rfl

theorem write_size (b : PelBuf) (i : Int) (v : Pel) : (b.write i v).size = b.size := rfl

theorem memcpy_data (dst : PelBuf) (dOff : Int) (src : PelBuf) (sOff n j : Int) :
    (memcpy dst dOff src sOff n).data j
      = if dOff ≤ j ∧ j < dOff + n then src.data (sOff + (j - dOff)) else dst.data j := rfl

theorem memcpy_size (dst : PelBuf) (dOff : Int) (src : PelBuf) (sOff n : Int) :
    (memcpy dst dOff src sOff n).size = dst.size := rfl

/-- Two rows of a plane are equal or at least one stride apart. -/
theorem row_sep (S y j : Int) (hS : 0 ≤ S) :
    (y = j ∧ y * S = j * S) ∨ (j < y ∧ j * S + S ≤ y * S) ∨ (y < j ∧ y * S ≤ j * S - S) := by
  rcases lt_trichotomy y j with h | h | h
  · right; right
    have : (y + 1) * S ≤ j * S := mul_le_mul_of_nonneg_right (by omega) hS
    have e : (y + 1) * S = y * S + S := by ring
    exact ⟨h, by omega⟩
  · left; exact ⟨h, by rw [h]⟩
  · right; left
    have : (j + 1) * S ≤ y * S := mul_le_mul_of_nonneg_right (by omega) hS
    have e : (j + 1) * S = j * S + S := by ring
    exact ⟨h, by omega⟩

/-- The margin loop of one row: the `MX` samples left of `p` receive the sample at `p`, the
`MX` samples from `p + W` on receive the sample at `p + W - 1`, and nothing else changes. -/
theorem extendRowMargins_data (W MX : Nat) (p : Int) (b : PelBuf) (hW : 1 ≤ W) (a : Int) :
    (extendRowMargins W MX p b).data a =
      if p - (MX : Int) ≤ a ∧ a < p then b.data p
      else if p + (W : Int) ≤ a ∧ a < p + (W : Int) + (MX : Int) then b.data (p + (W : Int) - 1)
      else b.data a := by
  have key := forLoop_invariant
    (fun n u => n ≤ MX → ∀ a : Int, u.data a =
      if p - (MX : Int) ≤ a ∧ a < p - (MX : Int) + (n : Int) then b.data p
      else if p + (W : Int) ≤ a ∧ a < p + (W : Int) + (n : Int) then b.data (p + (W : Int) - 1)
      else b.data a)
    (fun x b =>
      let b1 := b.write (p + (-(MX : Int) + (x : Int))) (b.data (p + 0))
      b1.write (p + ((W : Int) + (x : Int))) (b1.data (p + ((W : Int) - 1)))) b MX
    (by
      intro _ a
      have h1 : ¬ (p - (MX : Int) ≤ a ∧ a < p - (MX : Int) + ((0 : Nat) : Int)) := by omega
      have h2 : ¬ (p + (W : Int) ≤ a ∧ a < p + (W : Int) + ((0 : Nat) : Int)) := by omega
      rw [if_neg h1, if_neg h2])
    (by
      intro k u hk ih hk1 a
      have ihk := ih (by omega)
      simp only [write_data]
      rw [ihk (p + 0), ihk (p + ((W : Int) - 1)), ihk a]
      have e1 : p + ((W : Int) - 1) = p + (W : Int) - 1 := by ring
      have e0 : p + 0 = p := by ring
      rw [e1, e0]
      push_cast
      split_ifs <;> first | rfl | omega)
  have := key (le_refl _) a
  have e : p - (MX : Int) + (MX : Int) = p := by ring
  rw [e] at this
  exact this

theorem extendRowMargins_size (W MX : Nat) (p : Int) (b : PelBuf) :
    (extendRowMargins W MX p b).size = b.size := by
  unfold extendRowMargins
  refine forLoop_invariant (fun _ u => u.size = b.size) _ b MX rfl ?_
  intro i t _ h
  simpa [write_size] using h

end TComPicYuv

namespace TComPicYuv

/-- The row loop of `extendPicBorder` (lines 216-224): after it the pointer is `H` rows below
the origin, and every sample of the horizontally padded window of a picture row holds the
sample of that row at the clamped column; other rows are not touched. -/
theorem extendRows_spec (org : Int) (S W H MX : Nat) (b : PelBuf) (hW : 1 ≤ W)
    (hS : W + 2 * MX ≤ S) :
    (forLoop H (fun _y (st : Int × PelBuf) =>
        (st.1 + (S : Int), extendRowMargins W MX st.1 st.2)) (org, b)).1 = org + (H : Int) * (S : Int) ∧
    (forLoop H (fun _y (st : Int × PelBuf) =>
        (st.1 + (S : Int), extendRowMargins W MX st.1 st.2)) (org, b)).2.size = b.size ∧
    ∀ x y : Int, -(MX : Int) ≤ x → x < (W : Int) + (MX : Int) →
      (forLoop H (fun _y (st : Int × PelBuf) =>
        (st.1 + (S : Int), extendRowMargins W MX st.1 st.2)) (org, b)).2.data (org + y * (S : Int) + x)
      = if 0 ≤ y ∧ y < (H : Int) then b.data (org + y * (S : Int) + clamp x 0 ((W : Int) - 1))
        else b.data (org + y * (S : Int) + x) := by
  refine forLoop_invariant
    (fun n (st : Int × PelBuf) => st.1 = org + (n : Int) * (S : Int) ∧ st.2.size = b.size ∧
      ∀ x y : Int, -(MX : Int) ≤ x → x < (W : Int) + (MX : Int) →
        st.2.data (org + y * (S : Int) + x)
        = if 0 ≤ y ∧ y < (n : Int) then b.data (org + y * (S : Int) + clamp x 0 ((W : Int) - 1))
          else b.data (org + y * (S : Int) + x))
    _ (org, b) H ⟨by simp, rfl, ?_⟩ ?_
  · intro x y _ _
    have h1 : ¬ (0 ≤ y ∧ y < ((0 : Nat) : Int)) := by omega
    rw [if_neg h1]
  · rintro n ⟨p, u⟩ _ ⟨hp, hsz, ih⟩
    simp only at hp hsz ih ⊢
    subst hp
    refine ⟨by push_cast; ring, by rw [extendRowMargins_size, hsz], ?_⟩
    intro x y hx0 hx1
    rw [extendRowMargins_data W MX _ u hW]
    have h0 := ih 0 n (by omega) (by omega)
    have hl := ih ((W : Int) - 1) n (by omega) (by omega)
    have ha := ih x y hx0 hx1
    have e0 : org + (n : Int) * (S : Int) + 0 = org + (n : Int) * (S : Int) := by ring
    have el : org + (n : Int) * (S : Int) + ((W : Int) - 1) = org + (n : Int) * (S : Int) + (W : Int) - 1 := by
      ring
    rw [e0] at h0
    rw [el] at hl
    rw [h0, hl, ha]
    have hsep := row_sep (S : Int) y (n : Int) (by omega)
    have hcl : clamp x 0 ((W : Int) - 1) = max 0 (min x ((W : Int) - 1)) := rfl
    generalize clamp x 0 ((W : Int) - 1) = cx at hcl ⊢
    simp only [Nat.cast_add, Nat.cast_one]
    split_ifs <;> first | rfl | (exfalso; omega) | (congr 1; omega)

/-- The loop of `extendPicBorder` that copies the padded row `r` into the `MY` rows below it
(lines 229-232). -/
theorem copyRowsDown_spec (org src n : Int) (S W MX MY : Nat) (r : Int) (b : PelBuf)
    (hS : W + 2 * MX ≤ S) (hsrc : src = org + r * (S : Int) - (MX : Int))
    (hn : n = (W : Int) + 2 * (MX : Int)) :
    (forLoop MY (fun y u => memcpy u (src + ((y : Int) + 1) * (S : Int)) u src n) b).size = b.size ∧
    ∀ x y : Int, -(MX : Int) ≤ x → x < (W : Int) + (MX : Int) →
      (forLoop MY (fun y u => memcpy u (src + ((y : Int) + 1) * (S : Int)) u src n) b).data
          (org + y * (S : Int) + x)
      = if r < y ∧ y ≤ r + (MY : Int) then b.data (org + r * (S : Int) + x)
        else b.data (org + y * (S : Int) + x) := by
  refine forLoop_invariant
    (fun k u => u.size = b.size ∧
      ∀ x y : Int, -(MX : Int) ≤ x → x < (W : Int) + (MX : Int) →
        u.data (org + y * (S : Int) + x)
        = if r < y ∧ y ≤ r + (k : Int) then b.data (org + r * (S : Int) + x)
          else b.data (org + y * (S : Int) + x))
    _ b MY ⟨rfl, ?_⟩ ?_
  · intro x y _ _
    have h1 : ¬ (r < y ∧ y ≤ r + ((0 : Nat) : Int)) := by omega
    rw [if_neg h1]
  · rintro k u _ ⟨hsz, ih⟩
    refine ⟨by rw [memcpy_size, hsz], ?_⟩
    intro x y hx0 hx1
    rw [memcpy_data]
    have hsep := row_sep (S : Int) y (r + (k : Int) + 1) (by omega)
    have e1 : (r + (k : Int) + 1) * (S : Int) = r * (S : Int) + (k : Int) * (S : Int) + (S : Int) := by ring
    have e2 : ((k : Int) + 1) * (S : Int) = (k : Int) * (S : Int) + (S : Int) := by ring
    rw [e1] at hsep
    rw [e2]
    by_cases hc : src + ((k : Int) * (S : Int) + (S : Int)) ≤ org + y * (S : Int) + x ∧
        org + y * (S : Int) + x < src + ((k : Int) * (S : Int) + (S : Int)) + n
    · rw [if_pos hc]
      have hy : y = r + (k : Int) + 1 := by
        rcases hsep with h | h | h
        · exact h.1
        · exfalso; omega
        · exfalso; omega
      have hyS : y * (S : Int) = r * (S : Int) + (k : Int) * (S : Int) + (S : Int) := by
        rw [hy, e1]
      have e3 : src + (org + y * (S : Int) + x - (src + ((k : Int) * (S : Int) + (S : Int))))
          = org + r * (S : Int) + x := by omega
      rw [e3, ih x r hx0 hx1]
      have c1 : ¬ (r < r ∧ r ≤ r + (k : Int)) := by omega
      have c2 : r < y ∧ y ≤ r + ((k + 1 : Nat) : Int) := by push_cast; omega
      rw [if_neg c1, if_pos c2]
    · rw [if_neg hc, ih x y hx0 hx1]
      have hy : y ≠ r + (k : Int) + 1 := by
        intro hy
        have hyS : y * (S : Int) = r * (S : Int) + (k : Int) * (S : Int) + (S : Int) := by
          rw [hy, e1]
        apply hc
        omega
      push_cast
      split_ifs <;> first | rfl | (exfalso; omega)

/-- The loop of `extendPicBorder` that copies the padded row `r` into the `MY` rows above it
(lines 237-240). -/
theorem copyRowsUp_spec (org src n : Int) (S W MX MY : Nat) (r : Int) (b : PelBuf)
    (hS : W + 2 * MX ≤ S) (hsrc : src = org + r * (S : Int) - (MX : Int))
    (hn : n = (W : Int) + 2 * (MX : Int)) :
    (forLoop MY (fun y u => memcpy u (src - ((y : Int) + 1) * (S : Int)) u src n) b).size = b.size ∧
    ∀ x y : Int, -(MX : Int) ≤ x → x < (W : Int) + (MX : Int) →
      (forLoop MY (fun y u => memcpy u (src - ((y : Int) + 1) * (S : Int)) u src n) b).data
          (org + y * (S : Int) + x)
      = if r - (MY : Int) ≤ y ∧ y < r then b.data (org + r * (S : Int) + x)
        else b.data (org + y * (S : Int) + x) := by
  refine forLoop_invariant
    (fun k u => u.size = b.size ∧
      ∀ x y : Int, -(MX : Int) ≤ x → x < (W : Int) + (MX : Int) →
        u.data (org + y * (S : Int) + x)
        = if r - (k : Int) ≤ y ∧ y < r then b.data (org + r * (S : Int) + x)
          else b.data (org + y * (S : Int) + x))
    _ b MY ⟨rfl, ?_⟩ ?_
  · intro x y _ _
    have h1 : ¬ (r - ((0 : Nat) : Int) ≤ y ∧ y < r) := by omega
    rw [if_neg h1]
  · rintro k u _ ⟨hsz, ih⟩
    refine ⟨by rw [memcpy_size, hsz], ?_⟩
    intro x y hx0 hx1
    rw [memcpy_data]
    have hsep := row_sep (S : Int) y (r - (k : Int) - 1) (by omega)
    have e1 : (r - (k : Int) - 1) * (S : Int) = r * (S : Int) - (k : Int) * (S : Int) - (S : Int) := by ring
    have e2 : ((k : Int) + 1) * (S : Int) = (k : Int) * (S : Int) + (S : Int) := by ring
    rw [e1] at hsep
    rw [e2]
    by_cases hc : src - ((k : Int) * (S : Int) + (S : Int)) ≤ org + y * (S : Int) + x ∧
        org + y * (S : Int) + x < src - ((k : Int) * (S : Int) + (S : Int)) + n
    · rw [if_pos hc]
      have hy : y = r - (k : Int) - 1 := by
        rcases hsep with h | h | h
        · exact h.1
        · exfalso; omega
        · exfalso; omega
      have hyS : y * (S : Int) = r * (S : Int) - (k : Int) * (S : Int) - (S : Int) := by
        rw [hy, e1]
      have e3 : src + (org + y * (S : Int) + x - (src - ((k : Int) * (S : Int) + (S : Int))))
          = org + r * (S : Int) + x := by omega
      rw [e3, ih x r hx0 hx1]
      have c1 : ¬ (r - (k : Int) ≤ r ∧ r < r) := by omega
      have c2 : r - ((k + 1 : Nat) : Int) ≤ y ∧ y < r := by push_cast; omega
      rw [if_neg c1, if_pos c2]
    · rw [if_neg hc, ih x y hx0 hx1]
      have hy : y ≠ r - (k : Int) - 1 := by
        intro hy
        have hyS : y * (S : Int) = r * (S : Int) - (k : Int) * (S : Int) - (S : Int) := by
          rw [hy, e1]
        apply hc
        omega
      push_cast
      split_ifs <;> first | rfl | (exfalso; omega)

end TComPicYuv

namespace TComPicYuv

/-- Border extension of one plane: the size of the buffer is kept, and every sample of the
padded window holds the sample that the picture had at the clamped coordinate before. -/
theorem extendPlane_spec (org : Int) (S W H MX MY : Nat) (b : PelBuf) (hW : 1 ≤ W) (hH : 1 ≤ H)
    (hS : W + 2 * MX ≤ S) :
    (extendPlane org S W H MX MY b).size = b.size ∧
    ∀ x y : Int, -(MX : Int) ≤ x → x < (W : Int) + (MX : Int) →
      -(MY : Int) ≤ y → y < (H : Int) + (MY : Int) →
      (extendPlane org S W H MX MY b).data (org + y * (S : Int) + x)
        = b.data (org + clamp y 0 ((H : Int) - 1) * (S : Int) + clamp x 0 ((W : Int) - 1)) := by
  obtain ⟨h1p, h1s, h1d⟩ := extendRows_spec org S W H MX b hW hS
  have hn : ((W + (MX <<< 1) : Nat) : Int) = (W : Int) + 2 * (MX : Int) := by
    rw [Nat.shiftLeft_eq]
    push_cast
    ring
  unfold extendPlane
  simp only []
  rw [h1p, hn]
  obtain ⟨h2s, h2d⟩ := copyRowsDown_spec org
    (org + (H : Int) * (S : Int) - ((S : Int) + (MX : Int))) ((W : Int) + 2 * (MX : Int))
    S W MX MY ((H : Int) - 1)
    (forLoop H (fun _y (st : Int × PelBuf) =>
        (st.1 + (S : Int), extendRowMargins W MX st.1 st.2)) (org, b)).2
    hS (by ring) rfl
  obtain ⟨h3s, h3d⟩ := copyRowsUp_spec org
    (org + (H : Int) * (S : Int) - ((S : Int) + (MX : Int)) - ((H : Int) - 1) * (S : Int))
    ((W : Int) + 2 * (MX : Int)) S W MX MY 0
    (forLoop MY (fun y u =>
      memcpy u (org + (H : Int) * (S : Int) - ((S : Int) + (MX : Int)) + ((y : Int) + 1) * (S : Int)) u
        (org + (H : Int) * (S : Int) - ((S : Int) + (MX : Int))) ((W : Int) + 2 * (MX : Int)))
      (forLoop H (fun _y (st : Int × PelBuf) =>
        (st.1 + (S : Int), extendRowMargins W MX st.1 st.2)) (org, b)).2)
    hS (by ring) rfl
  refine ⟨by rw [h3s, h2s, h1s], ?_⟩
  intro x y hx0 hx1 hy0 hy1
  rw [h3d x y hx0 hx1]
  rcases lt_or_le y 0 with hy | hy
  · have hcy : clamp y 0 ((H : Int) - 1) = 0 := by unfold clamp; omega
    rw [if_pos ⟨by omega, hy⟩, h2d x 0 hx0 hx1, if_neg (by omega), h1d x 0 hx0 hx1,
      if_pos ⟨le_refl _, by omega⟩, hcy]
  · rw [if_neg (by omega), h2d x y hx0 hx1]
    rcases lt_or_le y (H : Int) with hyH | hyH
    · have hcy : clamp y 0 ((H : Int) - 1) = y := by unfold clamp; omega
      rw [if_neg (by omega), h1d x y hx0 hx1, if_pos ⟨hy, hyH⟩, hcy]
    · have hcy : clamp y 0 ((H : Int) - 1) = (H : Int) - 1 := by unfold clamp; omega
      rw [if_pos ⟨by omega, by omega⟩, h1d x ((H : Int) - 1) hx0 hx1, if_pos ⟨by omega, by omega⟩, hcy]

end TComPicYuv

/-! ## Border extension of a picture -/

namespace TComPicYuv

theorem toChan_ofChan (i : Nat) (hi : i < 3) : (ComponentID.ofChan i).toChan = i := by
  interval_cases i <;> rfl

theorem toChan_injective (a b : ComponentID) (h : a.toChan = b.toChan) : a = b := by
  cases a <;> cases b <;> first | rfl | exact absurd h (by decide)

theorem getNumberValidComponents_le (pic : TComPicYuv) : pic.getNumberValidComponents ≤ 3 := by
  unfold getNumberValidComponents
  split_ifs <;> omega

/-- The component loop of `extendPicBorder`: after `n` components only the plane storage has
changed, and exactly the first `n` planes have been extended. -/
theorem extendLoop_spec (pic : TComPicYuv) (n : Nat) (hn : n ≤ 3) :
    ∃ f : ComponentID → PelBuf,
      forLoop n (fun chan p =>
        let ch := ComponentID.ofChan chan
        { p with
          m_apiPicBuf := Function.update p.m_apiPicBuf ch
            (extendPlane (p.getAddr ch) (p.getStride ch) (p.getWidth ch) (p.getHeight ch)
              (p.getMarginX ch) (p.getMarginY ch) (p.m_apiPicBuf ch)) }) pic
        = { pic with m_apiPicBuf := f } ∧
      ∀ ch : ComponentID, f ch =
        if ch.toChan < n then
          extendPlane (pic.getAddr ch) (pic.getStride ch) (pic.getWidth ch) (pic.getHeight ch)
            (pic.getMarginX ch) (pic.getMarginY ch) (pic.m_apiPicBuf ch)
        else pic.m_apiPicBuf ch := by
  induction n with
  | zero => exact ⟨pic.m_apiPicBuf, rfl, fun ch => by simp⟩
  | succ k ih =>
    obtain ⟨f, hf, hfch⟩ := ih (by omega)
    rw [forLoop_succ, hf]
    refine ⟨_, rfl, ?_⟩
    intro ch
    have hk := toChan_ofChan k (by omega)
    simp only [Function.update_apply]
    by_cases hch : ch = ComponentID.ofChan k
    · subst hch
      rw [if_pos rfl, if_pos (by omega), hfch, if_neg (by omega)]
      rfl
    · have hne : ch.toChan ≠ k := fun h => hch (toChan_injective _ _ (by rw [h, hk]))
      rw [if_neg hch, hfch]
      by_cases hlt : ch.toChan < k
      · rw [if_pos hlt, if_pos (by omega)]
      · rw [if_neg hlt, if_neg (by omega)]

theorem extendPicBorder_flag (pic : TComPicYuv) :
    (extendPicBorder pic).m_bIsBorderExtended = true := by
  unfold extendPicBorder
  split_ifs with h
  · exact h
  · rfl

/-- When the flag is clear, `extendPicBorder` changes the plane storage and the flag only, and
it extends exactly the valid planes. -/
theorem extendPicBorder_eq (pic : TComPicYuv) (hflag : pic.m_bIsBorderExtended = false) :
    ∃ f : ComponentID → PelBuf,
      extendPicBorder pic = { pic with m_apiPicBuf := f, m_bIsBorderExtended := true } ∧
      ∀ ch : ComponentID, f ch =
        if ch.toChan < pic.getNumberValidComponents then
          extendPlane (pic.getAddr ch) (pic.getStride ch) (pic.getWidth ch) (pic.getHeight ch)
            (pic.getMarginX ch) (pic.getMarginY ch) (pic.m_apiPicBuf ch)
        else pic.m_apiPicBuf ch := by
  obtain ⟨f, hf, hfch⟩ := extendLoop_spec pic pic.getNumberValidComponents
    (getNumberValidComponents_le pic)
  refine ⟨f, ?_, hfch⟩
  unfold extendPicBorder
  rw [if_neg (by simp [hflag])]
  simp only []
  rw [hf]

/-- After `extendPicBorder` on a buffer whose flag was clear, every sample of the padded
window of a valid plane equals the sample that the picture had at the clamped coordinate. -/
theorem extendPicBorder_sample (pic : TComPicYuv) (hflag : pic.m_bIsBorderExtended = false)
    (ch : ComponentID) (hvalid : ch.toChan < pic.getNumberValidComponents)
    (hW : 1 ≤ pic.getWidth ch) (hH : 1 ≤ pic.getHeight ch) (x y : Int)
    (hx0 : -(pic.getMarginX ch : Int) ≤ x)
    (hx1 : x < (pic.getWidth ch : Int) + (pic.getMarginX ch : Int))
    (hy0 : -(pic.getMarginY ch : Int) ≤ y)
    (hy1 : y < (pic.getHeight ch : Int) + (pic.getMarginY ch : Int)) :
    (extendPicBorder pic).sample ch x y
      = pic.sample ch (clamp x 0 ((pic.getWidth ch : Int) - 1))
          (clamp y 0 ((pic.getHeight ch : Int) - 1)) := by
  obtain ⟨f, hf, hfch⟩ := extendPicBorder_eq pic hflag
  have hbuf := hfch ch
  rw [if_pos hvalid] at hbuf
  obtain ⟨-, hd⟩ := extendPlane_spec (pic.getAddr ch) (pic.getStride ch) (pic.getWidth ch)
    (pic.getHeight ch) (pic.getMarginX ch) (pic.getMarginY ch) (pic.m_apiPicBuf ch) hW hH
    (by rw [getStride_eq])
  rw [hf]
  show (f ch).data (pic.getAddr ch + y * (pic.getStride ch : Int) + x) = _
  rw [hbuf, hd x y hx0 hx1 hy0 hy1]
  rfl

end TComPicYuv

/-- C1: after `extendPicBorder` on a buffer whose flag was clear, in every valid plane of
width and height at least 1, every margin sample left (right) of a picture row equals the
first (last) sample of that row, and every sample of the four margin corners equals the
nearest corner sample of the picture. -/
theorem C1_replication (pic : TComPicYuv) (hflag : pic.m_bIsBorderExtended = false)
    (ch : ComponentID) (hvalid : ch.toChan < pic.getNumberValidComponents)
    (hW : 1 ≤ pic.getWidth ch) (hH : 1 ≤ pic.getHeight ch) :
    (∀ y k : Int, 0 ≤ y → y < (pic.getHeight ch : Int) → 1 ≤ k → k ≤ (pic.getMarginX ch : Int) →
      (pic.extendPicBorder).sample ch (-k) y = (pic.extendPicBorder).sample ch 0 y ∧
      (pic.extendPicBorder).sample ch ((pic.getWidth ch : Int) - 1 + k) y
        = (pic.extendPicBorder).sample ch ((pic.getWidth ch : Int) - 1) y) ∧
    (∀ k1 k2 : Int, 1 ≤ k1 → k1 ≤ (pic.getMarginX ch : Int) →
      1 ≤ k2 → k2 ≤ (pic.getMarginY ch : Int) →
      (pic.extendPicBorder).sample ch (-k1) (-k2) = (pic.extendPicBorder).sample ch 0 0 ∧
      (pic.extendPicBorder).sample ch ((pic.getWidth ch : Int) - 1 + k1) (-k2)
        = (pic.extendPicBorder).sample ch ((pic.getWidth ch : Int) - 1) 0 ∧
      (pic.extendPicBorder).sample ch (-k1) ((pic.getHeight ch : Int) - 1 + k2)
        = (pic.extendPicBorder).sample ch 0 ((pic.getHeight ch : Int) - 1) ∧
      (pic.extendPicBorder).sample ch ((pic.getWidth ch : Int) - 1 + k1)
          ((pic.getHeight ch : Int) - 1 + k2)
        = (pic.extendPicBorder).sample ch ((pic.getWidth ch : Int) - 1)
            ((pic.getHeight ch : Int) - 1)) := by
  have key : ∀ x y x2 y2 : Int,
      -(pic.getMarginX ch : Int) ≤ x → x < (pic.getWidth ch : Int) + (pic.getMarginX ch : Int) →
      -(pic.getMarginY ch : Int) ≤ y → y < (pic.getHeight ch : Int) + (pic.getMarginY ch : Int) →
      -(pic.getMarginX ch : Int) ≤ x2 → x2 < (pic.getWidth ch : Int) + (pic.getMarginX ch : Int) →
      -(pic.getMarginY ch : Int) ≤ y2 → y2 < (pic.getHeight ch : Int) + (pic.getMarginY ch : Int) →
      clamp x 0 ((pic.getWidth ch : Int) - 1) = clamp x2 0 ((pic.getWidth ch : Int) - 1) →
      clamp y 0 ((pic.getHeight ch : Int) - 1) = clamp y2 0 ((pic.getHeight ch : Int) - 1) →
      (pic.extendPicBorder).sample ch x y = (pic.extendPicBorder).sample ch x2 y2 := by
    intro x y x2 y2 a1 a2 a3 a4 b1 b2 b3 b4 ex ey
    rw [TComPicYuv.extendPicBorder_sample pic hflag ch hvalid hW hH x y a1 a2 a3 a4,
      TComPicYuv.extendPicBorder_sample pic hflag ch hvalid hW hH x2 y2 b1 b2 b3 b4, ex, ey]
  refine ⟨?_, ?_⟩
  · intro y k hy0 hy1 hk0 hk1
    constructor <;>
      exact key _ _ _ _ (by omega) (by omega) (by omega) (by omega) (by omega) (by omega)
        (by omega) (by omega) (by unfold clamp; omega) rfl
  · intro k1 k2 h1 h2 h3 h4
    refine ⟨?_, ?_, ?_, ?_⟩ <;>
      exact key _ _ _ _ (by omega) (by omega) (by omega) (by omega) (by omega) (by omega)
        (by omega) (by omega) (by unfold clamp; omega) (by unfold clamp; omega)

/-- Witness for C1: the Cb plane of the example picture is a valid plane of 2x2 samples with
the flag clear, so its left and right margins are replicated by `extendPicBorder`. -/
theorem C1_replication_witness :
    (examplePic.m_bIsBorderExtended = false ∧
      COMPONENT_Cb.toChan < examplePic.getNumberValidComponents ∧
      1 ≤ examplePic.getWidth COMPONENT_Cb ∧ 1 ≤ examplePic.getHeight COMPONENT_Cb) ∧
    ∀ y k : Int, 0 ≤ y → y < (examplePic.getHeight COMPONENT_Cb : Int) → 1 ≤ k →
      k ≤ (examplePic.getMarginX COMPONENT_Cb : Int) →
      (examplePic.extendPicBorder).sample COMPONENT_Cb (-k) y
        = (examplePic.extendPicBorder).sample COMPONENT_Cb 0 y ∧
      (examplePic.extendPicBorder).sample COMPONENT_Cb
          ((examplePic.getWidth COMPONENT_Cb : Int) - 1 + k) y
        = (examplePic.extendPicBorder).sample COMPONENT_Cb
            ((examplePic.getWidth COMPONENT_Cb : Int) - 1) y :=
  ⟨⟨by decide, by decide, by decide, by decide⟩,
    (C1_replication examplePic (by decide) COMPONENT_Cb (by decide) (by decide) (by decide)).1⟩

/-- C2: calling `extendPicBorder` twice gives exactly the same object (all plane storage and
the flag) as calling it once, and a call on a buffer whose flag is set changes nothing. -/
theorem C2_extend_idempotent (pic : TComPicYuv) :
    (pic.extendPicBorder).extendPicBorder = pic.extendPicBorder ∧
    (pic.m_bIsBorderExtended = true → pic.extendPicBorder = pic) := by
  have hset : ∀ q : TComPicYuv, q.m_bIsBorderExtended = true → q.extendPicBorder = q := by
    intro q hq
    unfold TComPicYuv.extendPicBorder
    rw [if_pos hq]
  exact ⟨hset _ (TComPicYuv.extendPicBorder_flag pic), hset pic⟩

/-! ## Bulk copy -/

namespace TComPicYuv

/-- A component loop that replaces the storage of plane `chan` by `G chan` of its old
storage: only the plane storage changes, and exactly the first `n` planes are replaced. -/
theorem planeLoop_spec (pic : TComPicYuv) (G : ComponentID → PelBuf → PelBuf) (n : Nat)
    (hn : n ≤ 3) :
    forLoop n (fun chan p =>
        { p with
          m_apiPicBuf := Function.update p.m_apiPicBuf (ComponentID.ofChan chan)
            (G (ComponentID.ofChan chan) (p.m_apiPicBuf (ComponentID.ofChan chan))) }) pic
      = { pic with
          m_apiPicBuf := fun ch => if ch.toChan < n then G ch (pic.m_apiPicBuf ch)
            else pic.m_apiPicBuf ch } := by
  induction n with
  | zero => simp [forLoop]
  | succ k ih =>
    rw [forLoop_succ, ih (by omega)]
    have hk := toChan_ofChan k (by omega)
    simp only [mk.injEq, and_true, true_and]
    funext ch
    simp only [Function.update_apply]
    by_cases hch : ch = ComponentID.ofChan k
    · subst hch
      have h1 : (ComponentID.ofChan k).toChan < k + 1 := by omega
      have h2 : ¬ (ComponentID.ofChan k).toChan < k := by omega
      simp [h1, h2]
    · have hne : ch.toChan ≠ k := fun h => hch (toChan_injective _ _ (by rw [h, hk]))
      by_cases hlt : ch.toChan < k
      · have h1 : ch.toChan < k + 1 := by omega
        simp [hch, hlt, h1]
      · have h1 : ¬ ch.toChan < k + 1 := by omega
        simp [hch, hlt, h1]

theorem getWidth_luma (pic : TComPicYuv) : pic.getWidth COMPONENT_Y = pic.m_iPicWidth := by
  simp [getWidth, getComponentScaleX]

theorem getHeight_luma (pic : TComPicYuv) : pic.getHeight COMPONENT_Y = pic.m_iPicHeight := by
  simp [getHeight, getComponentScaleY]

/-- When the three assertions of `copyToPic` hold, the call returns the destination with the
storage of every valid plane of the source copied over its first `stride * totalHeight`
samples, and with all other members as before. -/
theorem copyToPic_ok (src dst : TComPicYuv) (hw : src.m_iPicWidth = dst.m_iPicWidth)
    (hh : src.m_iPicHeight = dst.m_iPicHeight)
    (hf : src.m_chromaFormatIDC = dst.m_chromaFormatIDC) :
    src.copyToPic dst = Except.ok
      { dst with
        m_apiPicBuf := fun ch =>
          if ch.toChan < src.getNumberValidComponents then
            memcpy (dst.m_apiPicBuf ch) 0 (src.m_apiPicBuf ch) 0
              ((src.getStride ch : Int) * (src.getTotalHeight ch : Int))
          else dst.m_apiPicBuf ch } := by
  unfold copyToPic
  rw [getWidth_luma, getHeight_luma, if_neg (by simp [hw]), if_neg (by simp [hh]),
    if_neg (by simp [hf, getChromaFormat])]
  exact congrArg Except.ok (planeLoop_spec dst
    (fun ch b => memcpy b 0 (src.m_apiPicBuf ch) 0
      ((src.getStride ch : Int) * (src.getTotalHeight ch : Int)))
    src.getNumberValidComponents (getNumberValidComponents_le src))

/-- When one of the three assertions of `copyToPic` fails, the call ends with the violation
and the destination is as it was passed in. -/
theorem copyToPic_error (src dst : TComPicYuv)
    (hne : src.m_iPicWidth ≠ dst.m_iPicWidth ∨ src.m_iPicHeight ≠ dst.m_iPicHeight ∨
      src.m_chromaFormatIDC ≠ dst.m_chromaFormatIDC) :
    src.copyToPic dst = Except.error dst := by
  unfold copyToPic
  rw [getWidth_luma, getHeight_luma]
  simp only [getChromaFormat]
  by_cases h1 : src.m_iPicWidth = dst.m_iPicWidth
  · rw [if_neg (not_not.mpr h1)]
    by_cases h2 : src.m_iPicHeight = dst.m_iPicHeight
    · rw [if_neg (not_not.mpr h2)]
      by_cases h3 : src.m_chromaFormatIDC = dst.m_chromaFormatIDC
      · exfalso
        rcases hne with h | h | h
        · exact h h1
        · exact h h2
        · exact h h3
      · rw [if_pos h3]
    · rw [if_pos h2]
  · rw [if_pos h1]

end TComPicYuv

/-- C6: for a source and a destination with identical width, height, chroma format and
margins, `copyToPic` succeeds, and afterwards every valid plane of the destination has the
same stride and total height as the source plane and holds the same `stride * totalHeight`
samples, margins included.  (The source is a `const` argument of the call: it is not
written.) -/
theorem C6_copy_all_samples (src dst : TComPicYuv) (hw : src.m_iPicWidth = dst.m_iPicWidth)
    (hh : src.m_iPicHeight = dst.m_iPicHeight)
    (hf : src.m_chromaFormatIDC = dst.m_chromaFormatIDC)
    (hmx : src.m_iMarginX = dst.m_iMarginX) (hmy : src.m_iMarginY = dst.m_iMarginY) :
    ∃ dst2 : TComPicYuv, src.copyToPic dst = Except.ok dst2 ∧
      ∀ ch : ComponentID, ch.toChan < dst2.getNumberValidComponents →
        dst2.getStride ch = src.getStride ch ∧
        dst2.getTotalHeight ch = src.getTotalHeight ch ∧
        ∀ i : Int, 0 ≤ i → i < (dst2.getStride ch : Int) * (dst2.getTotalHeight ch : Int) →
          (dst2.m_apiPicBuf ch).data i = (src.m_apiPicBuf ch).data i := by
  refine ⟨_, TComPicYuv.copyToPic_ok src dst hw hh hf, ?_⟩
  intro ch hvalid
  have hS : ∀ f : ComponentID → PelBuf,
      ({ dst with m_apiPicBuf := f } : TComPicYuv).getStride ch = src.getStride ch := by
    intro f
    simp [TComPicYuv.getStride, TComPicYuv.getComponentScaleX, hw, hf, hmx]
  have hT : ∀ f : ComponentID → PelBuf,
      ({ dst with m_apiPicBuf := f } : TComPicYuv).getTotalHeight ch = src.getTotalHeight ch := by
    intro f
    simp [TComPicYuv.getTotalHeight, TComPicYuv.getComponentScaleY, hh, hf, hmy]
  have hN : src.getNumberValidComponents = dst.getNumberValidComponents := by
    simp [TComPicYuv.getNumberValidComponents, hf]
  refine ⟨hS _, hT _, ?_⟩
  intro i hi0 hi1
  rw [hS, hT] at hi1
  have hv : ch.toChan < src.getNumberValidComponents := by rw [hN]; exact hvalid
  simp only [if_pos hv, TComPicYuv.memcpy_data]
  rw [if_pos ⟨hi0, by omega⟩]
  congr 1
  omega

/-- Witness for C6: copying the example picture onto a picture of the same geometry. -/
theorem C6_copy_all_samples_witness :
    ∃ dst2 : TComPicYuv,
      examplePic.copyToPic (TComPicYuv.create 4 4 CHROMA_420 16 16 1 false (fun _ _ => 0))
        = Except.ok dst2 ∧
      ∀ ch : ComponentID, ch.toChan < dst2.getNumberValidComponents →
        dst2.getStride ch = examplePic.getStride ch ∧
        dst2.getTotalHeight ch = examplePic.getTotalHeight ch ∧
        ∀ i : Int, 0 ≤ i → i < (dst2.getStride ch : Int) * (dst2.getTotalHeight ch : Int) →
          (dst2.m_apiPicBuf ch).data i = (examplePic.m_apiPicBuf ch).data i :=
  C6_copy_all_samples examplePic (TComPicYuv.create 4 4 CHROMA_420 16 16 1 false (fun _ _ => 0))
    (by decide) (by decide) (by decide) (by decide) (by decide)

/-- C7: `copyToPic` ends with a contract violation exactly when the width, the height or the
chroma format of the destination differs from that of the source, and at the violation the
destination is unchanged: no sample of it has been written. -/
theorem C7_copy_violation (src dst : TComPicYuv) :
    ((∃ d : TComPicYuv, src.copyToPic dst = Except.error d) ↔
      (dst.m_iPicWidth ≠ src.m_iPicWidth ∨ dst.m_iPicHeight ≠ src.m_iPicHeight ∨
        dst.m_chromaFormatIDC ≠ src.m_chromaFormatIDC)) ∧
    (∀ d : TComPicYuv, src.copyToPic dst = Except.error d → d = dst) := by
  by_cases hne : src.m_iPicWidth ≠ dst.m_iPicWidth ∨ src.m_iPicHeight ≠ dst.m_iPicHeight ∨
      src.m_chromaFormatIDC ≠ dst.m_chromaFormatIDC
  · have herr := TComPicYuv.copyToPic_error src dst hne
    refine ⟨⟨fun _ => ?_, fun _ => ⟨dst, herr⟩⟩, ?_⟩
    · rcases hne with h | h | h
      · exact Or.inl (Ne.symm h)
      · exact Or.inr (Or.inl (Ne.symm h))
      · exact Or.inr (Or.inr (Ne.symm h))
    · intro d hd
      rw [herr] at hd
      exact (Except.error.inj hd).symm
  · have hw : src.m_iPicWidth = dst.m_iPicWidth := by
      by_contra h
      exact hne (Or.inl h)
    have hh : src.m_iPicHeight = dst.m_iPicHeight := by
      by_contra h
      exact hne (Or.inr (Or.inl h))
    have hf : src.m_chromaFormatIDC = dst.m_chromaFormatIDC := by
      by_contra h
      exact hne (Or.inr (Or.inr h))
    have hok := TComPicYuv.copyToPic_ok src dst hw hh hf
    refine ⟨⟨?_, ?_⟩, ?_⟩
    · rintro ⟨d, hd⟩
      rw [hok] at hd
      exact absurd hd (by simp)
    · intro h
      exfalso
      rcases h with h | h | h
      · exact h hw.symm
      · exact h hh.symm
      · exact h hf.symm
    · intro d hd
      rw [hok] at hd
      exact absurd hd (by simp)

/-! ## Colour transform -/

namespace TComPicYuv

theorem PelBuf_ext (a b : PelBuf) (hs : a.size = b.size) (hd : ∀ i, a.data i = b.data i) :
    a = b := by
  cases a
  cases b
  simp only [PelBuf.mk.injEq]
  exact ⟨hs, funext hd⟩

theorem write_write (b : PelBuf) (i : Int) (v w : Pel) : (b.write i v).write i w = b.write i w := by
  apply PelBuf_ext
  · rfl
  · intro j
    simp only [write_data]
    split_ifs <;> rfl

theorem write_data_self (b : PelBuf) (i : Int) (v : Pel) : (b.write i v).data i = v := by
  rw [write_data, if_pos rfl]

/-- The body of the pixel loop, when its six locations are inside their blocks, stores in each
destination buffer the value `convertValue` of the three source samples of the pixel. -/
theorem convertPixel_eq (pelBits : Nat) (c : ConvertConsts) (src0 src1 src2 : PelBuf)
    (pSrc0 pSrc1 pSrc2 pDst0 pDst1 pDst2 : Int) (x : Nat) (d : DstBufs)
    (hin : src0.inBlock (pSrc0 + (x : Int)) ∧ src1.inBlock (pSrc1 + (x : Int)) ∧
      src2.inBlock (pSrc2 + (x : Int)) ∧ d.dst0.inBlock (pDst0 + (x : Int)) ∧
      d.dst1.inBlock (pDst1 + (x : Int)) ∧ d.dst2.inBlock (pDst2 + (x : Int))) :
    convertPixel pelBits c src0 src1 src2 pSrc0 pSrc1 pSrc2 pDst0 pDst1 pDst2 x d =
      Except.ok
        { dst0 := d.dst0.write (pDst0 + (x : Int))
            (convertValue pelBits c (src0.data (pSrc0 + (x : Int)))
              (src1.data (pSrc1 + (x : Int))) (src2.data (pSrc2 + (x : Int)))).1
          dst1 := d.dst1.write (pDst1 + (x : Int))
            (convertValue pelBits c (src0.data (pSrc0 + (x : Int)))
              (src1.data (pSrc1 + (x : Int))) (src2.data (pSrc2 + (x : Int)))).2.1
          dst2 := d.dst2.write (pDst2 + (x : Int))
            (convertValue pelBits c (src0.data (pSrc0 + (x : Int)))
              (src1.data (pSrc1 + (x : Int))) (src2.data (pSrc2 + (x : Int)))).2.2 } := by
  unfold convertPixel
  rw [if_neg (not_not.mpr hin)]
  unfold convertValue convertShifted
  simp only [write_write, write_data_self]

/-- The body of the pixel loop stops with a fault when one of its six locations is outside
its block. -/
theorem convertPixel_fault (pelBits : Nat) (c : ConvertConsts) (src0 src1 src2 : PelBuf)
    (pSrc0 pSrc1 pSrc2 pDst0 pDst1 pDst2 : Int) (x : Nat) (d : DstBufs)
    (hout : ¬ (src0.inBlock (pSrc0 + (x : Int)) ∧ src1.inBlock (pSrc1 + (x : Int)) ∧
      src2.inBlock (pSrc2 + (x : Int)) ∧ d.dst0.inBlock (pDst0 + (x : Int)) ∧
      d.dst1.inBlock (pDst1 + (x : Int)) ∧ d.dst2.inBlock (pDst2 + (x : Int)))) :
    convertPixel pelBits c src0 src1 src2 pSrc0 pSrc1 pSrc2 pDst0 pDst1 pDst2 x d =
      Except.error Fault.outOfBounds := by
  unfold convertPixel
  rw [if_pos hout]

/-- A loop that stores `v x` at `p + x` for `x = 0 .. W-1`. -/
theorem writeRow_data (W : Nat) (p : Int) (v : Int → Pel) (b : PelBuf) :
    (forLoop W (fun x u => u.write (p + (x : Int)) (v (x : Int))) b).size = b.size ∧
    ∀ a : Int, (forLoop W (fun x u => u.write (p + (x : Int)) (v (x : Int))) b).data a
      = if p ≤ a ∧ a < p + (W : Int) then v (a - p) else b.data a := by
  refine forLoop_invariant
    (fun n u => u.size = b.size ∧
      ∀ a : Int, u.data a = if p ≤ a ∧ a < p + (n : Int) then v (a - p) else b.data a)
    _ b W ⟨rfl, ?_⟩ ?_
  · intro a
    rw [if_neg (by omega)]
  · rintro n u _ ⟨hsz, ih⟩
    refine ⟨by rw [write_size, hsz], ?_⟩
    intro a
    rw [write_data, ih a]
    by_cases ha : a = p + (n : Int)
    · have e : a - p = (n : Int) := by omega
      rw [if_pos ha, if_pos (by push_cast; omega), e]
    · rw [if_neg ha]
      by_cases h1 : p ≤ a ∧ a < p + (n : Int)
      · rw [if_pos h1, if_pos (by push_cast; omega)]
      · rw [if_neg h1, if_neg (by push_cast; omega)]

/-- The pixel loop of one row, when every location of the row is inside its block, runs to
its end and acts on the three destination buffers independently. -/
theorem convertPixelLoop_eq (pelBits : Nat) (c : ConvertConsts) (src0 src1 src2 : PelBuf)
    (pSrc0 pSrc1 pSrc2 pDst0 pDst1 pDst2 : Int) (W : Nat) (d : DstBufs)
    (hin : ∀ x : Nat, x < W →
      src0.inBlock (pSrc0 + (x : Int)) ∧ src1.inBlock (pSrc1 + (x : Int)) ∧
      src2.inBlock (pSrc2 + (x : Int)) ∧ d.dst0.inBlock (pDst0 + (x : Int)) ∧
      d.dst1.inBlock (pDst1 + (x : Int)) ∧ d.dst2.inBlock (pDst2 + (x : Int))) :
    forLoop W (fun x r =>
        match r with
        | Except.ok d =>
          convertPixel pelBits c src0 src1 src2 pSrc0 pSrc1 pSrc2 pDst0 pDst1 pDst2 x d
        | Except.error e => Except.error e) (Except.ok d) =
      Except.ok
        { dst0 := forLoop W (fun x u => u.write (pDst0 + (x : Int))
            ((fun i : Int => (convertValue pelBits c (src0.data (pSrc0 + i))
              (src1.data (pSrc1 + i)) (src2.data (pSrc2 + i))).1) (x : Int))) d.dst0
          dst1 := forLoop W (fun x u => u.write (pDst1 + (x : Int))
            ((fun i : Int => (convertValue pelBits c (src0.data (pSrc0 + i))
              (src1.data (pSrc1 + i)) (src2.data (pSrc2 + i))).2.1) (x : Int))) d.dst1
          dst2 := forLoop W (fun x u => u.write (pDst2 + (x : Int))
            ((fun i : Int => (convertValue pelBits c (src0.data (pSrc0 + i))
              (src1.data (pSrc1 + i)) (src2.data (pSrc2 + i))).2.2) (x : Int))) d.dst2 } := by
  induction W with
  | zero => rfl
  | succ k ih =>
    rw [forLoop_succ, ih (fun x hx => hin x (by omega))]
    obtain ⟨i0, i1, i2, ⟨a0, b0⟩, ⟨a1, b1⟩, ⟨a2, b2⟩⟩ := hin k (by omega)
    have s0 := (writeRow_data k pDst0
      (fun i : Int => (convertValue pelBits c (src0.data (pSrc0 + i))
        (src1.data (pSrc1 + i)) (src2.data (pSrc2 + i))).1) d.dst0).1
    have s1 := (writeRow_data k pDst1
      (fun i : Int => (convertValue pelBits c (src0.data (pSrc0 + i))
        (src1.data (pSrc1 + i)) (src2.data (pSrc2 + i))).2.1) d.dst1).1
    have s2 := (writeRow_data k pDst2
      (fun i : Int => (convertValue pelBits c (src0.data (pSrc0 + i))
        (src1.data (pSrc1 + i)) (src2.data (pSrc2 + i))).2.2) d.dst2).1
    show convertPixel pelBits c src0 src1 src2 pSrc0 pSrc1 pSrc2 pDst0 pDst1 pDst2 k _ = _
    rw [convertPixel_eq pelBits c src0 src1 src2 pSrc0 pSrc1 pSrc2 pDst0 pDst1 pDst2 k _
      ⟨i0, i1, i2, ⟨a0, by rw [s0]; exact b0⟩, ⟨a1, by rw [s1]; exact b1⟩,
        ⟨a2, by rw [s2]; exact b2⟩⟩]
    rfl

/-- One more row of a plane: if `u` holds the values `F` on the first `n` rows of the window
of width `W` and `u2` differs from `u` by the values of row `n`, then `u2` holds the values
`F` on the first `n + 1` rows. -/
theorem rows_step (org : Int) (S W n : Nat) (F : Int → Int → Pel) (b u u2 : PelBuf)
    (hWS : W ≤ S)
    (ih : ∀ x y : Int, 0 ≤ x → x < (W : Int) →
      u.data (org + y * (S : Int) + x) = if 0 ≤ y ∧ y < (n : Int) then F x y
        else b.data (org + y * (S : Int) + x))
    (hu2 : ∀ a : Int, u2.data a =
      if org + (n : Int) * (S : Int) ≤ a ∧ a < org + (n : Int) * (S : Int) + (W : Int)
      then F (a - (org + (n : Int) * (S : Int))) (n : Int) else u.data a) :
    ∀ x y : Int, 0 ≤ x → x < (W : Int) →
      u2.data (org + y * (S : Int) + x) = if 0 ≤ y ∧ y < ((n + 1 : Nat) : Int) then F x y
        else b.data (org + y * (S : Int) + x) := by
  intro x y hx0 hx1
  rw [hu2]
  have hsep := row_sep (S : Int) y (n : Int) (by omega)
  by_cases hc : org + (n : Int) * (S : Int) ≤ org + y * (S : Int) + x ∧
      org + y * (S : Int) + x < org + (n : Int) * (S : Int) + (W : Int)
  · have hy : y = (n : Int) ∧ y * (S : Int) = (n : Int) * (S : Int) := by
      rcases hsep with h | h | h
      · exact h
      · exfalso; omega
      · exfalso; omega
    have e : org + y * (S : Int) + x - (org + (n : Int) * (S : Int)) = x := by omega
    rw [if_pos hc, e, if_pos (by push_cast; omega), hy.1]
  · have hy : y ≠ (n : Int) := by
      intro hy
      apply hc
      rw [hy]
      omega
    rw [if_neg hc, ih x y hx0 hx1]
    by_cases h1 : 0 ≤ y ∧ y < (n : Int)
    · rw [if_pos h1, if_pos (by push_cast; omega)]
    · rw [if_neg h1, if_neg (by push_cast; omega)]

end TComPicYuv

namespace TComPicYuv

/-- The row loop of `DefaultConvertPix`: when every location that the loops access is inside
its block, the loop runs to its end and every pixel `(x, y)` of the picture holds, in each
destination buffer, the value `convertValue` of the three source samples at `(x, y)`. -/
theorem convertRows_spec (pelBits : Nat) (c : ConvertConsts) (src0 src1 src2 : PelBuf)
    (W H : Nat) (sS0 sS1 sS2 : Int) (dS0 dS1 dS2 : Nat) (st0 : ConvertState)
    (h0 : W ≤ dS0) (h1 : W ≤ dS1) (h2 : W ≤ dS2)
    (hin : ∀ x : Nat, x < W → ∀ y : Nat, y < H →
      (src0.inBlock (st0.pSrc0 + (y : Int) * sS0 + (x : Int)) ∧
        src1.inBlock (st0.pSrc1 + (y : Int) * sS1 + (x : Int)) ∧
        src2.inBlock (st0.pSrc2 + (y : Int) * sS2 + (x : Int))) ∧
      (st0.bufs.dst0.inBlock (st0.pDst0 + (y : Int) * (dS0 : Int) + (x : Int)) ∧
        st0.bufs.dst1.inBlock (st0.pDst1 + (y : Int) * (dS1 : Int) + (x : Int)) ∧
        st0.bufs.dst2.inBlock (st0.pDst2 + (y : Int) * (dS2 : Int) + (x : Int)))) :
    ∃ st : ConvertState,
      forLoop H (fun _y r =>
          match r with
          | Except.ok st =>
            convertRow pelBits c src0 src1 src2 W sS0 sS1 sS2 dS0 dS1 dS2 st
          | Except.error e => Except.error e) (Except.ok st0) = Except.ok st ∧
      ∀ x y : Int, 0 ≤ x → x < (W : Int) → 0 ≤ y → y < (H : Int) →
        st.bufs.dst0.data (st0.pDst0 + y * (dS0 : Int) + x)
          = (convertValue pelBits c (src0.data (st0.pSrc0 + y * sS0 + x))
              (src1.data (st0.pSrc1 + y * sS1 + x)) (src2.data (st0.pSrc2 + y * sS2 + x))).1 ∧
        st.bufs.dst1.data (st0.pDst1 + y * (dS1 : Int) + x)
          = (convertValue pelBits c (src0.data (st0.pSrc0 + y * sS0 + x))
              (src1.data (st0.pSrc1 + y * sS1 + x)) (src2.data (st0.pSrc2 + y * sS2 + x))).2.1 ∧
        st.bufs.dst2.data (st0.pDst2 + y * (dS2 : Int) + x)
          = (convertValue pelBits c (src0.data (st0.pSrc0 + y * sS0 + x))
              (src1.data (st0.pSrc1 + y * sS1 + x)) (src2.data (st0.pSrc2 + y * sS2 + x))).2.2 := by
  have inv := forLoop_invariant
    (fun n (r : Except Fault ConvertState) => ∃ st : ConvertState, r = Except.ok st ∧
      (st.pSrc0 = st0.pSrc0 + (n : Int) * sS0 ∧ st.pSrc1 = st0.pSrc1 + (n : Int) * sS1 ∧
        st.pSrc2 = st0.pSrc2 + (n : Int) * sS2) ∧
      (st.pDst0 = st0.pDst0 + (n : Int) * (dS0 : Int) ∧ st.pDst1 = st0.pDst1 + (n : Int) * (dS1 : Int) ∧
        st.pDst2 = st0.pDst2 + (n : Int) * (dS2 : Int)) ∧
      (st.bufs.dst0.size = st0.bufs.dst0.size ∧ st.bufs.dst1.size = st0.bufs.dst1.size ∧
        st.bufs.dst2.size = st0.bufs.dst2.size) ∧
      (∀ x y : Int, 0 ≤ x → x < (W : Int) →
        st.bufs.dst0.data (st0.pDst0 + y * (dS0 : Int) + x) = if 0 ≤ y ∧ y < (n : Int) then
          (fun x y : Int => (convertValue pelBits c (src0.data (st0.pSrc0 + y * sS0 + x))
            (src1.data (st0.pSrc1 + y * sS1 + x)) (src2.data (st0.pSrc2 + y * sS2 + x))).1) x y
          else st0.bufs.dst0.data (st0.pDst0 + y * (dS0 : Int) + x)) ∧
      (∀ x y : Int, 0 ≤ x → x < (W : Int) →
        st.bufs.dst1.data (st0.pDst1 + y * (dS1 : Int) + x) = if 0 ≤ y ∧ y < (n : Int) then
          (fun x y : Int => (convertValue pelBits c (src0.data (st0.pSrc0 + y * sS0 + x))
            (src1.data (st0.pSrc1 + y * sS1 + x)) (src2.data (st0.pSrc2 + y * sS2 + x))).2.1) x y
          else st0.bufs.dst1.data (st0.pDst1 + y * (dS1 : Int) + x)) ∧
      (∀ x y : Int, 0 ≤ x → x < (W : Int) →
        st.bufs.dst2.data (st0.pDst2 + y * (dS2 : Int) + x) = if 0 ≤ y ∧ y < (n : Int) then
          (fun x y : Int => (convertValue pelBits c (src0.data (st0.pSrc0 + y * sS0 + x))
            (src1.data (st0.pSrc1 + y * sS1 + x)) (src2.data (st0.pSrc2 + y * sS2 + x))).2.2) x y
          else st0.bufs.dst2.data (st0.pDst2 + y * (dS2 : Int) + x)))
    (fun _y r =>
      match r with
      | Except.ok st => convertRow pelBits c src0 src1 src2 W sS0 sS1 sS2 dS0 dS1 dS2 st
      | Except.error e => Except.error e) (Except.ok st0) H
    (by
      refine ⟨st0, rfl, ⟨by simp, by simp, by simp⟩, ⟨by simp, by simp, by simp⟩,
        ⟨rfl, rfl, rfl⟩, ?_, ?_, ?_⟩ <;>
      · intro x y _ _
        rw [if_neg (by omega)])
    (by
      rintro n r hn ⟨st, rfl, ⟨hs0, hs1, hs2⟩, ⟨hd0, hd1, hd2⟩, ⟨hz0, hz1, hz2⟩, ih0, ih1, ih2⟩
      have hrow : ∀ x : Nat, x < W →
          src0.inBlock (st.pSrc0 + (x : Int)) ∧ src1.inBlock (st.pSrc1 + (x : Int)) ∧
          src2.inBlock (st.pSrc2 + (x : Int)) ∧ st.bufs.dst0.inBlock (st.pDst0 + (x : Int)) ∧
          st.bufs.dst1.inBlock (st.pDst1 + (x : Int)) ∧
          st.bufs.dst2.inBlock (st.pDst2 + (x : Int)) := by
        intro x hx
        obtain ⟨⟨a0, a1, a2⟩, ⟨b0, b1, b2⟩⟩ := hin x hx n hn
        rw [hs0, hs1, hs2, hd0, hd1, hd2]
        unfold PelBuf.inBlock
        rw [hz0, hz1, hz2]
        exact ⟨a0, a1, a2, b0, b1, b2⟩
      show ∃ st2 : ConvertState,
        convertRow pelBits c src0 src1 src2 W sS0 sS1 sS2 dS0 dS1 dS2 st = Except.ok st2 ∧ _
      unfold convertRow
      rw [convertPixelLoop_eq pelBits c src0 src1 src2 st.pSrc0 st.pSrc1 st.pSrc2 st.pDst0
        st.pDst1 st.pDst2 W st.bufs hrow]
      refine ⟨_, rfl, ?_⟩
      simp only []
      rw [hs0, hs1, hs2, hd0, hd1, hd2]
      refine ⟨⟨by push_cast; ring, by push_cast; ring, by push_cast; ring⟩,
        ⟨by push_cast; ring, by push_cast; ring, by push_cast; ring⟩, ⟨?_, ?_, ?_⟩, ?_, ?_, ?_⟩
      · rw [← hz0]
        exact (writeRow_data W (st0.pDst0 + (n : Int) * (dS0 : Int))
          (fun i : Int => (convertValue pelBits c (src0.data (st0.pSrc0 + (n : Int) * sS0 + i))
            (src1.data (st0.pSrc1 + (n : Int) * sS1 + i))
            (src2.data (st0.pSrc2 + (n : Int) * sS2 + i))).1) st.bufs.dst0).1
      · rw [← hz1]
        exact (writeRow_data W (st0.pDst1 + (n : Int) * (dS1 : Int))
          (fun i : Int => (convertValue pelBits c (src0.data (st0.pSrc0 + (n : Int) * sS0 + i))
            (src1.data (st0.pSrc1 + (n : Int) * sS1 + i))
            (src2.data (st0.pSrc2 + (n : Int) * sS2 + i))).2.1) st.bufs.dst1).1
      · rw [← hz2]
        exact (writeRow_data W (st0.pDst2 + (n : Int) * (dS2 : Int))
          (fun i : Int => (convertValue pelBits c (src0.data (st0.pSrc0 + (n : Int) * sS0 + i))
            (src1.data (st0.pSrc1 + (n : Int) * sS1 + i))
            (src2.data (st0.pSrc2 + (n : Int) * sS2 + i))).2.2) st.bufs.dst2).1
      · refine rows_step st0.pDst0 dS0 W n _ st0.bufs.dst0 st.bufs.dst0 _ h0 ih0 ?_
        intro a
        exact (writeRow_data W (st0.pDst0 + (n : Int) * (dS0 : Int))
          (fun i : Int => (convertValue pelBits c (src0.data (st0.pSrc0 + (n : Int) * sS0 + i))
            (src1.data (st0.pSrc1 + (n : Int) * sS1 + i))
            (src2.data (st0.pSrc2 + (n : Int) * sS2 + i))).1) st.bufs.dst0).2 a
      · refine rows_step st0.pDst1 dS1 W n _ st0.bufs.dst1 st.bufs.dst1 _ h1 ih1 ?_
        intro a
        exact (writeRow_data W (st0.pDst1 + (n : Int) * (dS1 : Int))
          (fun i : Int => (convertValue pelBits c (src0.data (st0.pSrc0 + (n : Int) * sS0 + i))
            (src1.data (st0.pSrc1 + (n : Int) * sS1 + i))
            (src2.data (st0.pSrc2 + (n : Int) * sS2 + i))).2.1) st.bufs.dst1).2 a
      · refine rows_step st0.pDst2 dS2 W n _ st0.bufs.dst2 st.bufs.dst2 _ h2 ih2 ?_
        intro a
        exact (writeRow_data W (st0.pDst2 + (n : Int) * (dS2 : Int))
          (fun i : Int => (convertValue pelBits c (src0.data (st0.pSrc0 + (n : Int) * sS0 + i))
            (src1.data (st0.pSrc1 + (n : Int) * sS1 + i))
            (src2.data (st0.pSrc2 + (n : Int) * sS2 + i))).2.2) st.bufs.dst2).2 a)
  obtain ⟨st, hst, -, -, -, i0, i1, i2⟩ := inv
  refine ⟨st, hst, ?_⟩
  intro x y hx0 hx1 hy0 hy1
  have r0 := i0 x y hx0 hx1
  have r1 := i1 x y hx0 hx1
  have r2 := i2 x y hx0 hx1
  rw [if_pos ⟨hy0, hy1⟩] at r0 r1 r2
  exact ⟨r0, r1, r2⟩

end TComPicYuv

namespace TComPicYuv

theorem Clip3_eq_clamp (hi v : Int) (hhi : 0 ≤ hi) : Clip3 0 hi v = clamp v 0 hi := by
  unfold Clip3 clamp
  omega

theorem two_pow_pos_int (n : Nat) : (1 : Int) ≤ 2 ^ n := by
  have : (0 : Int) < 2 ^ n := by positivity
  omega

theorem two_pow_succ_pred (b : Nat) (hb : 1 ≤ b) : (2 : Int) ^ b = 2 * 2 ^ (b - 1) := by
  rw [← pow_succ']
  congr 1
  omega

/-- The conversion to `Pel` keeps every value inside the range of `Pel`. -/
theorem toPel_eq (pelBits : Nat) (v : Int) (hw : 1 ≤ pelBits)
    (h0 : -(2 ^ (pelBits - 1)) ≤ v) (h1 : v < 2 ^ (pelBits - 1)) : toPel pelBits v = v := by
  unfold toPel
  have hp := two_pow_succ_pred pelBits hw
  rw [Int.emod_eq_of_lt (by omega) (by omega)]
  exact add_sub_cancel_right v _

/-- A bit depth `b` with `b + 2 ≤ pelBits` leaves the values up to `2^b` inside the range of
`Pel`. -/
theorem two_pow_lt_pel (pelBits b : Nat) (hb : b + 2 ≤ pelBits) :
    2 * (2 : Int) ^ b ≤ 2 ^ (pelBits - 1) := by
  have h : (2 : Int) ^ (b + 1) ≤ 2 ^ (pelBits - 1) :=
    pow_le_pow_right₀ (by norm_num) (by omega)
  rw [pow_succ'] at h
  exact h

/-- A clipped value is inside the clipping range. -/
theorem Clip3_range (hi v : Int) (hhi : 0 ≤ hi) : 0 ≤ Clip3 0 hi v ∧ Clip3 0 hi v ≤ hi := by
  unfold Clip3
  omega

/-- The values that the pixel loop stores when no store wraps are those of the transform in
the words of the specification. -/
theorem convertExact_eq_spec (bd : BitDepths) (s0 s1 s2 : Int) :
    convertExact (convertConsts bd) s0 s1 s2
      = specConvertPix (bd.recon CHANNEL_TYPE_LUMA) (bd.recon CHANNEL_TYPE_CHROMA) s0 s1 s2 := by
  unfold convertExact convertShifted convertConsts specConvertPix shl
  simp only [Int.shiftRight_eq_div_pow, one_mul, pow_one]
  have hL := two_pow_pos_int (bd.recon CHANNEL_TYPE_LUMA)
  have hC := two_pow_pos_int (bd.recon CHANNEL_TYPE_CHROMA)
  rw [Clip3_eq_clamp _ _ (by omega), Clip3_eq_clamp _ _ (by omega), Clip3_eq_clamp _ _ (by omega)]
  push_cast
  refine Prod.ext ?_ (Prod.ext ?_ ?_)
  · show clamp _ _ _ = clamp _ _ _
    congr 2
    ring
  · show clamp _ _ _ = clamp _ _ _
    congr 3
    ring
  · show clamp _ _ _ = clamp _ _ _
    congr 3
    ring

/-- The three right shifts of the transform, for source samples inside the range of their bit
depths: the luma value is in `[0, 2^bL]` and both chroma values are in
`[-2^(bC-1), 2^(bC-1)]`. -/
theorem convertShifted_bounds (bd : BitDepths) (s0 s1 s2 : Int)
    (hbC : 1 ≤ bd.recon CHANNEL_TYPE_CHROMA)
    (r0 : 0 ≤ s0 ∧ s0 < 2 ^ bd.recon CHANNEL_TYPE_LUMA)
    (r1 : 0 ≤ s1 ∧ s1 < 2 ^ bd.recon CHANNEL_TYPE_CHROMA)
    (r2 : 0 ≤ s2 ∧ s2 < 2 ^ bd.recon CHANNEL_TYPE_CHROMA) :
    (0 ≤ (convertShifted (convertConsts bd) s0 s1 s2).1 ∧
      (convertShifted (convertConsts bd) s0 s1 s2).1 ≤ 2 ^ bd.recon CHANNEL_TYPE_LUMA) ∧
    (-(2 ^ (bd.recon CHANNEL_TYPE_CHROMA - 1)) ≤ (convertShifted (convertConsts bd) s0 s1 s2).2.1 ∧
      (convertShifted (convertConsts bd) s0 s1 s2).2.1 ≤ 2 ^ (bd.recon CHANNEL_TYPE_CHROMA - 1)) ∧
    (-(2 ^ (bd.recon CHANNEL_TYPE_CHROMA - 1)) ≤ (convertShifted (convertConsts bd) s0 s1 s2).2.2 ∧
      (convertShifted (convertConsts bd) s0 s1 s2).2.2 ≤ 2 ^ (bd.recon CHANNEL_TYPE_CHROMA - 1)) := by
  unfold convertShifted convertConsts shl
  simp only [Int.shiftRight_eq_div_pow, one_mul, pow_one]
  generalize hbL : bd.recon CHANNEL_TYPE_LUMA = bL at r0 ⊢
  generalize hbC2 : bd.recon CHANNEL_TYPE_CHROMA = bC at r1 r2 hbC ⊢
  have hA : (2 : Int) ^ bL * 2 ^ (max bL bC - bL) = 2 ^ max bL bC := by
    rw [← pow_add]
    congr 1
    have := le_max_left bL bC
    omega
  have hB : (2 : Int) ^ bC * 2 ^ (max bL bC - bC) = 2 ^ max bL bC := by
    rw [← pow_add]
    congr 1
    have := le_max_right bL bC
    omega
  have h2L : (2 : Int) ^ (2 + (max bL bC - bL)) = 4 * 2 ^ (max bL bC - bL) := by
    rw [pow_add]
    norm_num
  have h1L : (2 : Int) ^ (1 + (max bL bC - bL)) = 2 * 2 ^ (max bL bC - bL) := by
    rw [pow_add]
    norm_num
  have h2C : (2 : Int) ^ (2 + (max bL bC - bC)) = 4 * 2 ^ (max bL bC - bC) := by
    rw [pow_add]
    norm_num
  have h1C : (2 : Int) ^ (1 + (max bL bC - bC)) = 2 * 2 ^ (max bL bC - bC) := by
    rw [pow_add]
    norm_num
  have hQ := two_pow_succ_pred bC hbC
  have pA := two_pow_pos_int (max bL bC - bL)
  have pB := two_pow_pos_int (max bL bC - bC)
  have pQ := two_pow_pos_int (bC - 1)
  push_cast
  rw [h2L, h1L, h2C, h1C]
  generalize (2 : Int) ^ (max bL bC - bL) = A at hA pA ⊢
  generalize (2 : Int) ^ (max bL bC - bC) = B at hB pB ⊢
  generalize (2 : Int) ^ max bL bC = P at hA hB ⊢
  generalize (2 : Int) ^ (bC - 1) = Q at hQ pQ ⊢
  generalize (2 : Int) ^ bL = PL at hA r0 ⊢
  generalize (2 : Int) ^ bC = PC at hB hQ r1 r2 ⊢
  have i0a : 0 ≤ s0 * A := mul_nonneg r0.1 (by omega)
  have i0b : s0 * A ≤ (PL - 1) * A := mul_le_mul_of_nonneg_right (by omega) (by omega)
  have i1a : 0 ≤ s1 * B := mul_nonneg r1.1 (by omega)
  have i1b : s1 * B ≤ (PC - 1) * B := mul_le_mul_of_nonneg_right (by omega) (by omega)
  have i2a : 0 ≤ s2 * B := mul_nonneg r2.1 (by omega)
  have i2b : s2 * B ≤ (PC - 1) * B := mul_le_mul_of_nonneg_right (by omega) (by omega)
  have eL : (PL - 1) * A = P - A := by rw [← hA]; ring
  have eC : (PC - 1) * B = P - B := by rw [← hB]; ring
  rw [eL] at i0b
  rw [eC] at i1b i2b
  have eP : (PL + 1) * (4 * A) = 4 * P + 4 * A := by rw [← hA]; ring
  have eQ1 : (Q + 1) * (4 * B) = 2 * P + 4 * B := by rw [← hB, hQ]; ring
  have eQ2 : -Q * (4 * B) = -(2 * P) := by rw [← hB, hQ]; ring
  generalize s0 * A = in0 at i0a i0b ⊢
  generalize s1 * B = in1 at i1a i1b ⊢
  generalize s2 * B = in2 at i2a i2b ⊢
  have hsub : (in2 - in1) * 2 = in2 * 2 - in1 * 2 := by ring
  refine ⟨⟨Int.ediv_nonneg (by omega) (by omega), ?_⟩, ⟨?_, ?_⟩, ⟨?_, ?_⟩⟩
  · have := @Int.ediv_lt_of_lt_mul (in0 * 2 + in2 + in1 + 2 * A) (PL + 1) (4 * A) (by omega)
      (by rw [eP]; omega)
    omega
  · exact Int.le_ediv_of_mul_le (by omega) (by rw [eQ2]; omega)
  · have := @Int.ediv_lt_of_lt_mul (in0 * 2 - in2 - in1 + 2 * B) (Q + 1) (4 * B) (by omega)
      (by rw [eQ1]; omega)
    omega
  · exact Int.le_ediv_of_mul_le (by omega) (by rw [eQ2, hsub]; omega)
  · have := @Int.ediv_lt_of_lt_mul ((in2 - in1) * 2 + 2 * B) (Q + 1) (4 * B) (by omega)
      (by rw [eQ1, hsub]; omega)
    omega

/-- For bit depths of at most 28 and source samples inside the range of their bit depths,
every value of type `Int` that the pixel loop and the constants of `DefaultConvertPix` compute
is inside the range of a signed integer of 32 bits: the exact arithmetic of the model is the
arithmetic of the machine. -/
theorem convertIntValues_range (bd : BitDepths) (s0 s1 s2 : Int)
    (hL : bd.recon CHANNEL_TYPE_LUMA ≤ 28) (hC : bd.recon CHANNEL_TYPE_CHROMA ≤ 28)
    (hbC : 1 ≤ bd.recon CHANNEL_TYPE_CHROMA)
    (r0 : 0 ≤ s0 ∧ s0 < 2 ^ bd.recon CHANNEL_TYPE_LUMA)
    (r1 : 0 ≤ s1 ∧ s1 < 2 ^ bd.recon CHANNEL_TYPE_CHROMA)
    (r2 : 0 ≤ s2 ∧ s2 < 2 ^ bd.recon CHANNEL_TYPE_CHROMA) :
    ∀ v ∈ convertIntValues bd s0 s1 s2, -(2 ^ 31) ≤ v ∧ v < 2 ^ 31 := by
  obtain ⟨-, ⟨b0, b1⟩, ⟨c0, c1⟩⟩ := convertShifted_bounds bd s0 s1 s2 hbC r0 r1 r2
  have hoff : (convertConsts bd).iChromaOffset = 2 ^ (bd.recon CHANNEL_TYPE_CHROMA - 1) := by
    simp [convertConsts, shl]
  rw [← hoff] at b0 b1 c0 c1
  unfold convertIntValues
  simp only []
  generalize (convertShifted (convertConsts bd) s0 s1 s2).2.1 = v1 at b0 b1
  generalize (convertShifted (convertConsts bd) s0 s1 s2).2.2 = v2 at c0 c1
  unfold convertConsts shl at b0 b1 c0 c1 ⊢
  simp only [one_mul, pow_one] at b0 b1 c0 c1 ⊢
  generalize hbL : bd.recon CHANNEL_TYPE_LUMA = bL at r0 hL ⊢
  generalize hbC2 : bd.recon CHANNEL_TYPE_CHROMA = bC at r1 r2 hbC hC b0 b1 c0 c1 ⊢
  have hm : max bL bC ≤ 28 := max_le hL hC
  have hP : (2 : Int) ^ max bL bC ≤ 2 ^ 28 := pow_le_pow_right₀ (by norm_num) hm
  have hA : (2 : Int) ^ bL * 2 ^ (max bL bC - bL) = 2 ^ max bL bC := by
    rw [← pow_add]
    congr 1
    have := le_max_left bL bC
    omega
  have hB : (2 : Int) ^ bC * 2 ^ (max bL bC - bC) = 2 ^ max bL bC := by
    rw [← pow_add]
    congr 1
    have := le_max_right bL bC
    omega
  have h1L : (2 : Int) ^ (1 + (max bL bC - bL)) = 2 * 2 ^ (max bL bC - bL) := by
    rw [pow_add]
    norm_num
  have h1C : (2 : Int) ^ (1 + (max bL bC - bC)) = 2 * 2 ^ (max bL bC - bC) := by
    rw [pow_add]
    norm_num
  have hQ := two_pow_succ_pred bC hbC
  have pA := two_pow_pos_int (max bL bC - bL)
  have pB := two_pow_pos_int (max bL bC - bC)
  have pQ := two_pow_pos_int (bC - 1)
  have pL := two_pow_pos_int bL
  have pC := two_pow_pos_int bC
  rw [h1L, h1C]
  generalize (2 : Int) ^ (max bL bC - bL) = A at hA pA ⊢
  generalize (2 : Int) ^ (max bL bC - bC) = B at hB pB ⊢
  generalize (2 : Int) ^ max bL bC = P at hA hB hP ⊢
  generalize (2 : Int) ^ (bC - 1) = Q at hQ pQ b0 b1 c0 c1 ⊢
  generalize (2 : Int) ^ bL = PL at hA r0 pL ⊢
  generalize (2 : Int) ^ bC = PC at hB hQ r1 r2 pC ⊢
  have i0a : 0 ≤ s0 * A := mul_nonneg r0.1 (by omega)
  have i0b : s0 * A ≤ (PL - 1) * A := mul_le_mul_of_nonneg_right (by omega) (by omega)
  have i1a : 0 ≤ s1 * B := mul_nonneg r1.1 (by omega)
  have i1b : s1 * B ≤ (PC - 1) * B := mul_le_mul_of_nonneg_right (by omega) (by omega)
  have i2a : 0 ≤ s2 * B := mul_nonneg r2.1 (by omega)
  have i2b : s2 * B ≤ (PC - 1) * B := mul_le_mul_of_nonneg_right (by omega) (by omega)
  have eL : (PL - 1) * A = P - A := by rw [← hA]; ring
  have eC : (PC - 1) * B = P - B := by rw [← hB]; ring
  rw [eL] at i0b
  rw [eC] at i1b i2b
  have hPLA : PL ≤ P := by
    have : PL * 1 ≤ PL * A := mul_le_mul_of_nonneg_left pA (by omega)
    rw [hA, mul_one] at this
    exact this
  have hPCB : PC ≤ P := by
    have : PC * 1 ≤ PC * B := mul_le_mul_of_nonneg_left pB (by omega)
    rw [hB, mul_one] at this
    exact this
  have hAP : A ≤ P := by
    have : 1 * A ≤ PL * A := mul_le_mul_of_nonneg_right pL (by omega)
    rw [hA, one_mul] at this
    exact this
  have hBP : B ≤ P := by
    have : 1 * B ≤ PC * B := mul_le_mul_of_nonneg_right pC (by omega)
    rw [hB, one_mul] at this
    exact this
  generalize s0 * A = in0 at i0a i0b ⊢
  generalize s1 * B = in1 at i1a i1b ⊢
  generalize s2 * B = in2 at i2a i2b ⊢
  have hsub : (in2 - in1) * 2 = in2 * 2 - in1 * 2 := by ring
  intro v hv
  simp only [List.mem_cons, List.mem_singleton, List.not_mem_nil, or_false] at hv
  rcases hv with h | h | h | h | h | h | h | h | h | h | h | h | h | h | h | h | h | h | h | h |
    h | h <;> subst h <;> constructor <;> omega

/-- For source samples inside the range of their bit depths and bit depths at most
`pelBits - 2`, no store of the pixel loop wraps: the values that the loop stores are those of
`convertExact`. -/
theorem convertValue_eq_exact (pelBits : Nat) (bd : BitDepths) (s0 s1 s2 : Int)
    (hL : bd.recon CHANNEL_TYPE_LUMA + 2 ≤ pelBits)
    (hC : bd.recon CHANNEL_TYPE_CHROMA + 2 ≤ pelBits)
    (hbC : 1 ≤ bd.recon CHANNEL_TYPE_CHROMA)
    (r0 : 0 ≤ s0 ∧ s0 < 2 ^ bd.recon CHANNEL_TYPE_LUMA)
    (r1 : 0 ≤ s1 ∧ s1 < 2 ^ bd.recon CHANNEL_TYPE_CHROMA)
    (r2 : 0 ≤ s2 ∧ s2 < 2 ^ bd.recon CHANNEL_TYPE_CHROMA) :
    convertValue pelBits (convertConsts bd) s0 s1 s2 = convertExact (convertConsts bd) s0 s1 s2 := by
  obtain ⟨⟨a0, a1⟩, ⟨b0, b1⟩, ⟨c0, c1⟩⟩ := convertShifted_bounds bd s0 s1 s2 hbC r0 r1 r2
  have wL := two_pow_lt_pel pelBits _ hL
  have wC := two_pow_lt_pel pelBits _ hC
  have pL := two_pow_pos_int (bd.recon CHANNEL_TYPE_LUMA)
  have pC := two_pow_pos_int (bd.recon CHANNEL_TYPE_CHROMA)
  have hQ := two_pow_succ_pred (bd.recon CHANNEL_TYPE_CHROMA) hbC
  have pQ := two_pow_pos_int (bd.recon CHANNEL_TYPE_CHROMA - 1)
  have hmL : (convertConsts bd).iMaxLuma = 2 ^ bd.recon CHANNEL_TYPE_LUMA - 1 := by
    simp [convertConsts, shl]
  have hmC : (convertConsts bd).iMaxChroma = 2 ^ bd.recon CHANNEL_TYPE_CHROMA - 1 := by
    simp [convertConsts, shl]
  have hoff : (convertConsts bd).iChromaOffset = 2 ^ (bd.recon CHANNEL_TYPE_CHROMA - 1) := by
    simp [convertConsts, shl]
  unfold convertValue convertExact
  simp only []
  generalize convertShifted (convertConsts bd) s0 s1 s2 = v at a0 a1 b0 b1 c0 c1 ⊢
  have hw : 1 ≤ pelBits := by omega
  have e0 : toPel pelBits v.1 = v.1 := toPel_eq pelBits _ hw (by omega) (by omega)
  have e1 : toPel pelBits v.2.1 = v.2.1 := toPel_eq pelBits _ hw (by omega) (by omega)
  have e2 : toPel pelBits v.2.2 = v.2.2 := toPel_eq pelBits _ hw (by omega) (by omega)
  have f1 : toPel pelBits (v.2.1 + (convertConsts bd).iChromaOffset)
      = v.2.1 + (convertConsts bd).iChromaOffset :=
    toPel_eq pelBits _ hw (by rw [hoff]; omega) (by rw [hoff]; omega)
  have f2 : toPel pelBits (v.2.2 + (convertConsts bd).iChromaOffset)
      = v.2.2 + (convertConsts bd).iChromaOffset :=
    toPel_eq pelBits _ hw (by rw [hoff]; omega) (by rw [hoff]; omega)
  rw [e0, e1, e2, f1, f2]
  have g0 := Clip3_range (convertConsts bd).iMaxLuma v.1 (by rw [hmL]; omega)
  have g1 := Clip3_range (convertConsts bd).iMaxChroma
    (v.2.1 + (convertConsts bd).iChromaOffset) (by rw [hmC]; omega)
  have g2 := Clip3_range (convertConsts bd).iMaxChroma
    (v.2.2 + (convertConsts bd).iChromaOffset) (by rw [hmC]; omega)
  rw [hmL] at g0
  rw [hmC] at g1 g2
  rw [toPel_eq pelBits _ hw (by rw [hmL]; omega) (by rw [hmL]; omega),
    toPel_eq pelBits _ hw (by rw [hmC]; omega) (by rw [hmC]; omega),
    toPel_eq pelBits _ hw (by rw [hmC]; omega) (by rw [hmC]; omega)]

/-- At equal bit depths a pixel with three equal in-range samples `v` is mapped to luma `v`
and to the chroma offset in both chroma outputs. -/
theorem specConvertPix_gray (b : Nat) (v : Int) (hb : 1 ≤ b) (hv0 : 0 ≤ v) (hv1 : v ≤ 2 ^ b - 1) :
    specConvertPix b b v v v = (v, 2 ^ (b - 1), 2 ^ (b - 1)) := by
  have hpow : (2 : Int) ^ b = 2 * 2 ^ (b - 1) := by
    rw [← pow_succ']
    congr 1
    omega
  have hp1 := two_pow_pos_int (b - 1)
  unfold specConvertPix
  simp only [max_self, Nat.sub_self, pow_zero, mul_one, Nat.add_zero, pow_one]
  have e1 : (2 * v + v + v + 2) / 2 ^ 2 = v := by omega
  have e2 : (2 * v - v - v + 2) / 2 ^ 2 + 2 ^ (b - 1) = 2 ^ (b - 1) := by
    have : (2 * v - v - v + 2) / 2 ^ 2 = 0 := by omega
    rw [this, zero_add]
  have e3 : (2 * (v - v) + 2) / 2 ^ 2 + 2 ^ (b - 1) = 2 ^ (b - 1) := by
    have : (2 * (v - v) + 2) / 2 ^ 2 = 0 := by omega
    rw [this, zero_add]
  have c1 : clamp v 0 (2 ^ b - 1) = v := by unfold clamp; omega
  have c2 : clamp (2 ^ (b - 1)) 0 (2 ^ b - 1) = 2 ^ (b - 1) := by unfold clamp; omega
  rw [e1, e2, e3, c1, c2]

theorem getStride_444 (pic : TComPicYuv) (h444 : pic.m_chromaFormatIDC = CHROMA_444)
    (ch : ComponentID) : pic.m_iPicWidth ≤ pic.getStride ch := by
  simp [getStride, getComponentScaleX, h444]

/-- In a 4:4:4 picture whose plane `ch` has the storage and the origin that `create` gives it
(lines 103-104), every pixel of the picture is inside the block of the plane. -/
theorem plane_inBlock (p : TComPicYuv) (h444 : p.m_chromaFormatIDC = CHROMA_444)
    (ch : ComponentID)
    (horg : p.m_piPicOrg ch
      = (p.getMarginY ch : Int) * (p.getStride ch : Int) + (p.getMarginX ch : Int))
    (hsize : (p.m_apiPicBuf ch).size = (p.getStride ch : Int) * (p.getTotalHeight ch : Int))
    (x y : Nat) (hx : x < p.m_iPicWidth) (hy : y < p.m_iPicHeight) :
    (p.m_apiPicBuf ch).inBlock (p.getAddr ch + (y : Int) * (p.getStride ch : Int) + (x : Int)) := by
  have hW : p.getWidth ch = p.m_iPicWidth := by simp [getWidth, getComponentScaleX, h444]
  have hH : p.getHeight ch = p.m_iPicHeight := by simp [getHeight, getComponentScaleY, h444]
  have hS := getStride_eq p ch
  have hT := getTotalHeight_eq p ch
  unfold PelBuf.inBlock getAddr
  rw [horg, hsize]
  exact window_index_bounds (p.getStride ch : Int) (p.getTotalHeight ch : Int)
    (p.getMarginX ch : Int) (p.getMarginY ch : Int) (x : Int) (y : Int)
    (by omega) (by omega) (by omega) (by omega)

/-- For a 4:4:4 source and a 4:4:4 destination of the same size, both with the storage and
the origins that `create` gives them, every access of `DefaultConvertPix` is inside the block
of its plane. -/
theorem convertInBlock_of_layout (pic src : TComPicYuv)
    (hw : pic.m_iPicWidth = src.m_iPicWidth) (hh : pic.m_iPicHeight = src.m_iPicHeight)
    (h444 : pic.m_chromaFormatIDC = CHROMA_444) (hs444 : src.m_chromaFormatIDC = CHROMA_444)
    (hp : ∀ ch : ComponentID,
      pic.m_piPicOrg ch
        = (pic.getMarginY ch : Int) * (pic.getStride ch : Int) + (pic.getMarginX ch : Int) ∧
      (pic.m_apiPicBuf ch).size = (pic.getStride ch : Int) * (pic.getTotalHeight ch : Int))
    (hs : ∀ ch : ComponentID,
      src.m_piPicOrg ch
        = (src.getMarginY ch : Int) * (src.getStride ch : Int) + (src.getMarginX ch : Int) ∧
      (src.m_apiPicBuf ch).size = (src.getStride ch : Int) * (src.getTotalHeight ch : Int)) :
    pic.convertInBlock src := by
  intro x hx y hy
  have hx2 : x < src.m_iPicWidth := by omega
  have hy2 : y < src.m_iPicHeight := by omega
  exact ⟨⟨plane_inBlock src hs444 _ (hs _).1 (hs _).2 x y hx2 hy2,
      plane_inBlock src hs444 _ (hs _).1 (hs _).2 x y hx2 hy2,
      plane_inBlock src hs444 _ (hs _).1 (hs _).2 x y hx2 hy2⟩,
    ⟨plane_inBlock pic h444 _ (hp _).1 (hp _).2 x y hx hy,
      plane_inBlock pic h444 _ (hp _).1 (hp _).2 x y hx hy,
      plane_inBlock pic h444 _ (hp _).1 (hp _).2 x y hx hy⟩⟩

/-- Two 4:4:4 pictures of the same size that `create` returns (for non-zero CTU sizes): every
access of `DefaultConvertPix` from one to the other is inside the block of its plane. -/
theorem create_convertInBlock (w h cw chh D cw2 chh2 D2 : Nat) (useMargin useMargin2 : Bool)
    (heap heap2 : ComponentID → Int → Pel)
    (_hcw : 0 < cw) (_hch : 0 < chh) (_hcw2 : 0 < cw2) (_hch2 : 0 < chh2) :
    (create w h CHROMA_444 cw chh D useMargin heap).convertInBlock
      (create w h CHROMA_444 cw2 chh2 D2 useMargin2 heap2) := by
  have hv : ∀ (c d e : Nat) (u : Bool) (hp : ComponentID → Int → Pel) (ch : ComponentID),
      ch.toChan < (create w h CHROMA_444 c d e u hp).getNumberValidComponents := by
    intro c d e u hp ch
    simp only [getNumberValidComponents, create_format]
    cases ch <;> decide
  refine convertInBlock_of_layout _ _ ?_ ?_ (create_format _ _ _ _ _ _ _ _)
    (create_format _ _ _ _ _ _ _ _) ?_ ?_
  · rw [create_width, create_width]
  · rw [create_height, create_height]
  · intro ch
    exact ⟨create_org w h CHROMA_444 cw chh D useMargin heap ch (hv _ _ _ _ _ ch),
      by rw [create_buf w h CHROMA_444 cw chh D useMargin heap ch (hv _ _ _ _ _ ch)]⟩
  · intro ch
    exact ⟨create_org w h CHROMA_444 cw2 chh2 D2 useMargin2 heap2 ch (hv _ _ _ _ _ ch),
      by rw [create_buf w h CHROMA_444 cw2 chh2 D2 useMargin2 heap2 ch (hv _ _ _ _ _ ch)]⟩

/-- When the three assertions of `DefaultConvertPix` hold and every access is inside the block
of its plane, the call returns the destination with new plane storage, and every pixel of the
picture holds in each plane the value `convertValue` of the three source samples at the same
coordinate. -/
theorem DefaultConvertPix_ok (pelBits : Nat) (pic src : TComPicYuv) (bd : BitDepths)
    (hw : pic.m_iPicWidth = src.m_iPicWidth) (hh : pic.m_iPicHeight = src.m_iPicHeight)
    (h444 : pic.m_chromaFormatIDC = CHROMA_444) (hin : pic.convertInBlock src) :
    ∃ pic2 : TComPicYuv, pic.DefaultConvertPix pelBits src bd = Except.ok pic2 ∧
      ∀ x y : Int, 0 ≤ x → x < (pic.m_iPicWidth : Int) → 0 ≤ y → y < (pic.m_iPicHeight : Int) →
        pic2.sample COMPONENT_Y x y
          = (convertValue pelBits (convertConsts bd) (src.sample COMPONENT_Y x y)
              (src.sample COMPONENT_Cb x y) (src.sample COMPONENT_Cr x y)).1 ∧
        pic2.sample COMPONENT_Cb x y
          = (convertValue pelBits (convertConsts bd) (src.sample COMPONENT_Y x y)
              (src.sample COMPONENT_Cb x y) (src.sample COMPONENT_Cr x y)).2.1 ∧
        pic2.sample COMPONENT_Cr x y
          = (convertValue pelBits (convertConsts bd) (src.sample COMPONENT_Y x y)
              (src.sample COMPONENT_Cb x y) (src.sample COMPONENT_Cr x y)).2.2 := by
  obtain ⟨st, hst, hdata⟩ := convertRows_spec pelBits (convertConsts bd)
    (src.m_apiPicBuf COMPONENT_Y) (src.m_apiPicBuf COMPONENT_Cb) (src.m_apiPicBuf COMPONENT_Cr)
    pic.m_iPicWidth pic.m_iPicHeight
    (src.getStride COMPONENT_Y) (src.getStride COMPONENT_Cb) (src.getStride COMPONENT_Cr)
    (pic.getStride COMPONENT_Y) (pic.getStride COMPONENT_Cb) (pic.getStride COMPONENT_Cr)
    { pSrc0 := src.getAddr COMPONENT_Y
      pSrc1 := src.getAddr COMPONENT_Cb
      pSrc2 := src.getAddr COMPONENT_Cr
      pDst0 := pic.getAddr COMPONENT_Y
      pDst1 := pic.getAddr COMPONENT_Cb
      pDst2 := pic.getAddr COMPONENT_Cr
      bufs :=
        { dst0 := pic.m_apiPicBuf COMPONENT_Y
          dst1 := pic.m_apiPicBuf COMPONENT_Cb
          dst2 := pic.m_apiPicBuf COMPONENT_Cr } }
    (getStride_444 pic h444 _) (getStride_444 pic h444 _) (getStride_444 pic h444 _)
    (fun x hx y hy => hin x hx y hy)
  unfold DefaultConvertPix
  rw [if_neg (by simp [hw]), if_neg (by simp [hh]), if_neg (by simp [h444])]
  simp only []
  rw [hst]
  refine ⟨_, rfl, ?_⟩
  intro x y hx0 hx1 hy0 hy1
  exact hdata x y hx0 hx1 hy0 hy1

/-- A successful call of `DefaultConvertPix` keeps the flag of the destination. -/
theorem DefaultConvertPix_flag (pelBits : Nat) (pic src d : TComPicYuv) (bd : BitDepths)
    (h : pic.DefaultConvertPix pelBits src bd = Except.ok d) :
    d.m_bIsBorderExtended = pic.m_bIsBorderExtended := by
  unfold DefaultConvertPix at h
  split_ifs at h
  simp only [] at h
  split at h
  · rw [← Except.ok.inj h]
  · exact absurd h (by simp)

/-- A monochrome source has null chroma planes: `DefaultConvertPix` stops with a fault at the
first pixel. -/
theorem DefaultConvertPix_monochrome_source :
    (flatPic 0).DefaultConvertPix 16 (indexPic 2 2) (mkBitDepths 8 8)
      = Except.error Fault.outOfBounds := by
  rfl

/-- A 4:2:0 source of 20x20 luma samples has chroma blocks of 26x26 samples, with the origin
at index 216: the pixel `(18, 17)` of the picture is read at index `216 + 17 * 26 + 18 = 676`,
the first index past the end of a chroma block, and `DefaultConvertPix` stops with a fault. -/
theorem DefaultConvertPix_subsampled_source :
    (TComPicYuv.create 20 20 CHROMA_444 16 16 1 false (fun _ _ => 0)).DefaultConvertPix 16
        (indexPic420 20 20) (mkBitDepths 8 8)
      = Except.error Fault.outOfBounds := by
  rfl

/-- The copy from a picture created with the CTU margin to one created without it does not
stay inside the destination block. -/
theorem copyFits_margin_mismatch : ¬ (marginPic true 7).copyFits (marginPic false 0) := by
  decide

/-- A store of a value outside the range of a 16-bit `Pel` wraps around. -/
theorem toPel_wraps : toPel 16 32768 = -32768 ∧ toPel 16 255 = 255 ∧ toPel 16 (-1) = -1 := by
  decide

/-- The bound `bitDepth + 2 ≤ pelBits` cannot be relaxed: with a `Pel` of 16 bits and bit
depths of 15, the in-range samples `(32767, 0, 0)` give the chroma value `16384 + 16384`,
which wraps in the store of line 330 and is clipped to 0, where the transform without
wrap-around gives 32767. -/
theorem convertValue_wraps :
    (convertValue 16 (convertConsts (mkBitDepths 15 15)) 32767 0 0).2.1 = 0 ∧
    (specConvertPix 15 15 32767 0 0).2.1 = 32767 := by
  decide

end TComPicYuv

/-! ## Properties of `DefaultConvertPix` -/

/-- C9: with equal luma and chroma bit depth `b` with `1 <= b <= min(pelBits, 30) - 2`, every
access inside the block of its plane, and a pixel of the picture whose three source samples all equal
the same `v` in `[0, 2^b - 1]`, `DefaultConvertPix` writes luma `v` and the chroma offset
`1 << (b-1)` in both chroma planes at that pixel. -/
theorem C9_gray_pixel (pelBits : Nat) (pic src : TComPicYuv) (bd : BitDepths)
    (hw : pic.m_iPicWidth = src.m_iPicWidth) (hh : pic.m_iPicHeight = src.m_iPicHeight)
    (h444 : pic.m_chromaFormatIDC = CHROMA_444) (hin : pic.convertInBlock src)
    (b : Nat) (hb : 1 ≤ b) (hbw : b + 2 ≤ min pelBits 30) (hL : bd.recon CHANNEL_TYPE_LUMA = b)
    (hC : bd.recon CHANNEL_TYPE_CHROMA = b)
    (v : Int) (hv0 : 0 ≤ v) (hv1 : v ≤ 2 ^ b - 1) (x y : Int)
    (hx0 : 0 ≤ x) (hx1 : x < (pic.m_iPicWidth : Int))
    (hy0 : 0 ≤ y) (hy1 : y < (pic.m_iPicHeight : Int))
    (h0 : src.sample COMPONENT_Y x y = v) (h1 : src.sample COMPONENT_Cb x y = v)
    (h2 : src.sample COMPONENT_Cr x y = v) :
    ∃ pic2 : TComPicYuv, pic.DefaultConvertPix pelBits src bd = Except.ok pic2 ∧
      pic2.sample COMPONENT_Y x y = v ∧
      pic2.sample COMPONENT_Cb x y = 2 ^ (b - 1) ∧
      pic2.sample COMPONENT_Cr x y = 2 ^ (b - 1) := by
  obtain ⟨pic2, hok, hpix⟩ := TComPicYuv.DefaultConvertPix_ok pelBits pic src bd hw hh h444 hin
  refine ⟨pic2, hok, ?_⟩
  obtain ⟨p0, p1, p2⟩ := hpix x y hx0 hx1 hy0 hy1
  have hr : 0 ≤ v ∧ v < 2 ^ b := ⟨hv0, by omega⟩
  rw [p0, p1, p2, h0, h1, h2,
    TComPicYuv.convertValue_eq_exact pelBits bd v v v
      (by rw [hL]; exact le_trans hbw (min_le_left _ _))
      (by rw [hC]; exact le_trans hbw (min_le_left _ _)) (by rw [hC]; exact hb) (by rw [hL]; exact hr)
      (by rw [hC]; exact hr) (by rw [hC]; exact hr),
    TComPicYuv.convertExact_eq_spec, hL, hC, TComPicYuv.specConvertPix_gray b v hb hv0 hv1]
  exact ⟨rfl, rfl, rfl⟩

/-- Witness for C9: at 8 bits and a `Pel` of 16 bits, a pixel with
luma = chroma1 = chroma2 = 128 gives luma 128 and both chroma outputs `2 ^ 7 = 128`. -/
theorem C9_gray_pixel_witness :
    (flatPic 0).convertInBlock (flatPic 128) ∧
    ∃ pic2 : TComPicYuv, (flatPic 0).DefaultConvertPix 16 (flatPic 128) (mkBitDepths 8 8)
        = Except.ok pic2 ∧
      pic2.sample COMPONENT_Y 0 0 = 128 ∧
      pic2.sample COMPONENT_Cb 0 0 = 2 ^ (8 - 1) ∧
      pic2.sample COMPONENT_Cr 0 0 = 2 ^ (8 - 1) :=
  ⟨by decide,
    C9_gray_pixel 16 (flatPic 0) (flatPic 128) (mkBitDepths 8 8) (by decide) (by decide)
      (by decide) (by decide) 8 (by decide) (by decide) rfl rfl 128 (by decide) (by decide) 0 0
      (by decide) (by decide) (by decide) (by decide) rfl rfl rfl⟩

/-- C14: when the flag is clear on entry, `extendPicBorder` sets it, and in every valid plane
of width and height at least 1 every sample of the padded storage at `(x, y)` equals the
sample that the picture had before the call at `(clamp(x, 0, width-1), clamp(y, 0,
height-1))`; so the rows above (below) the picture are copies of the whole horizontally
extended first (last) row, and the logical interior is unchanged. -/
theorem C14_extend_window (pic : TComPicYuv) (hflag : pic.m_bIsBorderExtended = false) :
    (pic.extendPicBorder).m_bIsBorderExtended = true ∧
    ∀ ch : ComponentID, ch.toChan < pic.getNumberValidComponents →
      1 ≤ pic.getWidth ch → 1 ≤ pic.getHeight ch →
      (∀ x y : Int, -(pic.getMarginX ch : Int) ≤ x →
        x < (pic.getWidth ch : Int) + (pic.getMarginX ch : Int) →
        -(pic.getMarginY ch : Int) ≤ y →
        y < (pic.getHeight ch : Int) + (pic.getMarginY ch : Int) →
        (pic.extendPicBorder).sample ch x y
          = pic.sample ch (clamp x 0 ((pic.getWidth ch : Int) - 1))
              (clamp y 0 ((pic.getHeight ch : Int) - 1))) ∧
      (∀ x k : Int, -(pic.getMarginX ch : Int) ≤ x →
        x < (pic.getWidth ch : Int) + (pic.getMarginX ch : Int) →
        1 ≤ k → k ≤ (pic.getMarginY ch : Int) →
        (pic.extendPicBorder).sample ch x (-k) = (pic.extendPicBorder).sample ch x 0 ∧
        (pic.extendPicBorder).sample ch x ((pic.getHeight ch : Int) - 1 + k)
          = (pic.extendPicBorder).sample ch x ((pic.getHeight ch : Int) - 1)) ∧
      (∀ x y : Int, 0 ≤ x → x < (pic.getWidth ch : Int) → 0 ≤ y →
        y < (pic.getHeight ch : Int) →
        (pic.extendPicBorder).sample ch x y = pic.sample ch x y) := by
  refine ⟨TComPicYuv.extendPicBorder_flag pic, ?_⟩
  intro ch hvalid hW hH
  have key := TComPicYuv.extendPicBorder_sample pic hflag ch hvalid hW hH
  refine ⟨key, ?_, ?_⟩
  · intro x k hx0 hx1 hk0 hk1
    constructor
    · rw [key x (-k) hx0 hx1 (by omega) (by omega), key x 0 hx0 hx1 (by omega) (by omega)]
      congr 1
      unfold clamp
      omega
    · rw [key x _ hx0 hx1 (by omega) (by omega), key x _ hx0 hx1 (by omega) (by omega)]
      congr 1
      unfold clamp
      omega
  · intro x y hx0 hx1 hy0 hy1
    rw [key x y (by omega) (by omega) (by omega) (by omega)]
    have ex : clamp x 0 ((pic.getWidth ch : Int) - 1) = x := by unfold clamp; omega
    have ey : clamp y 0 ((pic.getHeight ch : Int) - 1) = y := by unfold clamp; omega
    rw [ex, ey]

/-- Witness for C14: the example picture has its flag clear, so `extendPicBorder` sets it. -/
theorem C14_extend_window_witness :
    examplePic.m_bIsBorderExtended = false ∧
    (examplePic.extendPicBorder).m_bIsBorderExtended = true :=
  ⟨by decide, (C14_extend_window examplePic (by decide)).1⟩

/-! ## Bulk copy: the members that are kept -/

/-- C15: when the copy of `copyToPic` stays inside the blocks of both pictures (`copyFits`) and
the call returns, or when an assertion of the call fails, then whatever the flag of the source
is, the destination after the call has the same `borderExtended` flag, width, height, chroma
format, margins, origin pointers and addressing tables as before the call: only its sample
storage can differ. -/
theorem C15_copy_frame (src dst d : TComPicYuv)
    (h : (src.copyFits dst ∧ src.copyToPic dst = Except.ok d) ∨
      src.copyToPic dst = Except.error d) :
    d.m_bIsBorderExtended = dst.m_bIsBorderExtended ∧
    d.m_iPicWidth = dst.m_iPicWidth ∧ d.m_iPicHeight = dst.m_iPicHeight ∧
    d.m_chromaFormatIDC = dst.m_chromaFormatIDC ∧
    d.m_iMarginX = dst.m_iMarginX ∧ d.m_iMarginY = dst.m_iMarginY ∧
    d.m_piPicOrg = dst.m_piPicOrg ∧
    d.m_ctuOffsetInBuffer = dst.m_ctuOffsetInBuffer ∧
    d.m_subCuOffsetInBuffer = dst.m_subCuOffsetInBuffer := by
  by_cases hne : src.m_iPicWidth ≠ dst.m_iPicWidth ∨ src.m_iPicHeight ≠ dst.m_iPicHeight ∨
      src.m_chromaFormatIDC ≠ dst.m_chromaFormatIDC
  · have herr := TComPicYuv.copyToPic_error src dst hne
    rw [herr] at h
    rcases h with ⟨_, h⟩ | h
    · exact absurd h (by simp)
    · have hd : d = dst := (Except.error.inj h).symm
      subst hd
      exact ⟨rfl, rfl, rfl, rfl, rfl, rfl, rfl, rfl, rfl⟩
  · have hw : src.m_iPicWidth = dst.m_iPicWidth := by
      by_contra h1
      exact hne (Or.inl h1)
    have hh : src.m_iPicHeight = dst.m_iPicHeight := by
      by_contra h1
      exact hne (Or.inr (Or.inl h1))
    have hf : src.m_chromaFormatIDC = dst.m_chromaFormatIDC := by
      by_contra h1
      exact hne (Or.inr (Or.inr h1))
    have hok := TComPicYuv.copyToPic_ok src dst hw hh hf
    rw [hok] at h
    rcases h with ⟨_, h⟩ | h
    · have hd := (Except.ok.inj h).symm
      subst hd
      exact ⟨rfl, rfl, rfl, rfl, rfl, rfl, rfl, rfl, rfl⟩
    · exact absurd h (by simp)

/-- Witness for C15: copying the example picture, whose flag is clear, onto its border-extended
copy, whose flag is set and whose blocks have the same size, leaves the flag of the
destination set. -/
theorem C15_copy_frame_witness :
    examplePic.copyFits examplePic.extendPicBorder ∧
    ∃ d : TComPicYuv, examplePic.copyToPic examplePic.extendPicBorder = Except.ok d ∧
      examplePic.m_bIsBorderExtended = false ∧ d.m_bIsBorderExtended = true := by
  have hfit : examplePic.copyFits examplePic.extendPicBorder := by decide
  have hok := TComPicYuv.copyToPic_ok examplePic examplePic.extendPicBorder
    (by decide) (by decide) (by decide)
  refine ⟨hfit, _, hok, by decide, ?_⟩
  rw [(C15_copy_frame examplePic examplePic.extendPicBorder _ (Or.inl ⟨hfit, hok⟩)).1]
  exact TComPicYuv.extendPicBorder_flag examplePic

/-! ## Colour transform: rounding -/

namespace TComPicYuv

end TComPicYuv

namespace TComPicYuv

/-- Every CTU column of the grid starts inside the picture. -/
theorem ctuStart_lt (w c k : Nat) (hc : 0 < c)
    (hk : k < w / c + (if w % c ≠ 0 then 1 else 0)) : k * c < w := by
  have hdm := Nat.div_add_mod w c
  have hcomm : c * (w / c) = w / c * c := Nat.mul_comm _ _
  by_cases h0 : w % c = 0
  · rw [if_neg (by simp [h0])] at hk
    have h1 : (k + 1) * c ≤ w / c * c := Nat.mul_le_mul_right c (by omega)
    have h2 : (k + 1) * c = k * c + c := Nat.succ_mul k c
    omega
  · rw [if_pos h0] at hk
    have h1 : k * c ≤ w / c * c := Nat.mul_le_mul_right c (by omega)
    omega

/-- The CTU offsets increase strictly in raster order. -/
theorem ctuOffset_lt (S w cw chh gw r1 c1 r2 c2 : Nat) (hS : w ≤ S) (hch : 0 < chh)
    (hcw : 0 < cw) (hgw : ∀ c, c < gw → c * cw < w) (hc1 : c1 < gw) (hc2 : c2 < gw)
    (hlt : r1 * gw + c1 < r2 * gw + c2) :
    S * r1 * chh + c1 * cw < S * r2 * chh + c2 * cw := by
  rcases Nat.lt_trichotomy r1 r2 with h | h | h
  · have h1 : S * (r1 + 1) * chh ≤ S * r2 * chh :=
      Nat.mul_le_mul_right chh (Nat.mul_le_mul_left S h)
    have h2 : S * (r1 + 1) * chh = S * r1 * chh + S * chh := by ring
    have h3 : S * 1 ≤ S * chh := Nat.mul_le_mul_left S hch
    have h4 := hgw c1 hc1
    omega
  · subst h
    have h1 : c1 < c2 := by omega
    have h2 : (c1 + 1) * cw ≤ c2 * cw := Nat.mul_le_mul_right cw h1
    have h3 : (c1 + 1) * cw = c1 * cw + cw := Nat.succ_mul c1 cw
    omega
  · exfalso
    have h1 : (r2 + 1) * gw ≤ r1 * gw := Nat.mul_le_mul_right gw h
    have h2 : (r2 + 1) * gw = r2 * gw + gw := Nat.succ_mul r2 gw
    omega

theorem getStride_luma (pic : TComPicYuv) :
    pic.getStride COMPONENT_Y = pic.m_iPicWidth + 2 * pic.m_iMarginX := by
  simp [getStride, getComponentScaleX]

end TComPicYuv

/-- C20: for the luma channel and positive CTU width and height, every entry
`ctuOffset[row * gridWidth + col]` that `create` writes is `y * stride + x` for
`(x, y) = (col * ctuWidth, row * ctuHeight)`, that is the linear offset from the origin of that
logical sample; the sample lies inside the picture (`col * ctuWidth < width` and
`row * ctuHeight < height`); and the entries increase strictly in raster order, so distinct
CTUs have distinct offsets. -/
theorem C20_luma_ctu_offsets (w h : Nat) (fmt : ChromaFormat) (cw chh D : Nat) (useMargin : Bool)
    (heap : ComponentID → Int → Pel) (hcw : 0 < cw) (hch : 0 < chh) :
    (∀ row col : Nat, row < ⌈(h : ℚ) / (chh : ℚ)⌉₊ → col < ⌈(w : ℚ) / (cw : ℚ)⌉₊ →
      ((TComPicYuv.create w h fmt cw chh D useMargin heap).m_ctuOffsetInBuffer
          CHANNEL_TYPE_LUMA)[row * ⌈(w : ℚ) / (cw : ℚ)⌉₊ + col]?
        = some (some (((row * chh : Nat) : Int)
            * ((TComPicYuv.create w h fmt cw chh D useMargin heap).getStride COMPONENT_Y : Int)
            + ((col * cw : Nat) : Int))) ∧
      (TComPicYuv.create w h fmt cw chh D useMargin heap).sample COMPONENT_Y
          ((col * cw : Nat) : Int) ((row * chh : Nat) : Int)
        = ((TComPicYuv.create w h fmt cw chh D useMargin heap).m_apiPicBuf COMPONENT_Y).data
            ((TComPicYuv.create w h fmt cw chh D useMargin heap).getAddr COMPONENT_Y
              + (((row * chh : Nat) : Int)
                * ((TComPicYuv.create w h fmt cw chh D useMargin heap).getStride COMPONENT_Y : Int)
                + ((col * cw : Nat) : Int))) ∧
      col * cw < w ∧ row * chh < h) ∧
    (∀ i j : Nat, i < j → j < ⌈(w : ℚ) / (cw : ℚ)⌉₊ * ⌈(h : ℚ) / (chh : ℚ)⌉₊ →
      ∃ a b : Int,
        ((TComPicYuv.create w h fmt cw chh D useMargin heap).m_ctuOffsetInBuffer
            CHANNEL_TYPE_LUMA)[i]? = some (some a) ∧
        ((TComPicYuv.create w h fmt cw chh D useMargin heap).m_ctuOffsetInBuffer
            CHANNEL_TYPE_LUMA)[j]? = some (some b) ∧
        a < b) := by
  have htbl := TComPicYuv.create_ctuTable w h fmt cw chh D useMargin heap COMPONENT_Y
  have hsx : (TComPicYuv.create w h fmt cw chh D useMargin heap).getComponentScaleX COMPONENT_Y = 0 := by
    simp [TComPicYuv.getComponentScaleX]
  have hsy : (TComPicYuv.create w h fmt cw chh D useMargin heap).getComponentScaleY COMPONENT_Y = 0 := by
    simp [TComPicYuv.getComponentScaleY]
  have hS : w ≤ (TComPicYuv.create w h fmt cw chh D useMargin heap).getStride COMPONENT_Y := by
    rw [TComPicYuv.getStride_luma, TComPicYuv.create_width]
    omega
  rw [hsx, hsy] at htbl
  simp only [Nat.shiftRight_zero] at htbl
  have hgw := numCu_eq_ceil w cw hcw
  have hgh := numCu_eq_ceil h chh hch
  have hTC : TComPicYuv.toChannelType COMPONENT_Y = CHANNEL_TYPE_LUMA := rfl
  rw [hTC] at htbl
  rw [htbl, ← hgw, ← hgh]
  generalize hS' : (TComPicYuv.create w h fmt cw chh D useMargin heap).getStride COMPONENT_Y = S
    at hS ⊢
  generalize hGW : w / cw + (if w % cw ≠ 0 then 1 else 0) = gw at *
  generalize hGH : h / chh + (if h % chh ≠ 0 then 1 else 0) = gh at *
  obtain ⟨-, hget, -⟩ := tableWrite_grid gh gw
    (fun r c => (S : Int) * (r : Int) * (chh : Int) + (c : Int) * (cw : Int))
    (TComPicYuv.newTable (gw * gh)) (by simp [TComPicYuv.newTable, Nat.mul_comm])
  have hcol : ∀ c, c < gw → c * cw < w := by
    intro c hc
    rw [← hGW] at hc
    exact TComPicYuv.ctuStart_lt w cw c hcw hc
  have hrow : ∀ r, r < gh → r * chh < h := by
    intro r hr
    rw [← hGH] at hr
    exact TComPicYuv.ctuStart_lt h chh r hch hr
  constructor
  · intro row col hrow' hcol'
    refine ⟨?_, ?_, hcol col hcol', hrow row hrow'⟩
    · unfold TComPicYuv.fillCtuOffsets
      rw [hget row col hrow' hcol']
      congr 2
      push_cast
      ring
    · unfold TComPicYuv.sample
      rw [hS']
      congr 1
      ring
  · intro i j hij hj
    have hgwpos : 0 < gw := by
      rcases Nat.eq_zero_or_pos gw with h0 | h0
      · rw [h0, Nat.zero_mul] at hj
        omega
      · exact h0
    have hi : i < gw * gh := by omega
    have hdi := Nat.div_add_mod i gw
    have hdj := Nat.div_add_mod j gw
    have hci := Nat.mod_lt i hgwpos
    have hcj := Nat.mod_lt j hgwpos
    have hri : i / gw < gh := by
      rw [Nat.div_lt_iff_lt_mul hgwpos, Nat.mul_comm]
      exact hi
    have hrj : j / gw < gh := by
      rw [Nat.div_lt_iff_lt_mul hgwpos, Nat.mul_comm]
      exact hj
    have ei : i / gw * gw + i % gw = i := by rw [Nat.mul_comm]; exact hdi
    have ej : j / gw * gw + j % gw = j := by rw [Nat.mul_comm]; exact hdj
    have hlt := TComPicYuv.ctuOffset_lt S w cw chh gw (i / gw) (i % gw) (j / gw) (j % gw) hS hch hcw
      hcol hci hcj (by rw [ei, ej]; exact hij)
    have gi := hget (i / gw) (i % gw) hri hci
    have gj := hget (j / gw) (j % gw) hrj hcj
    rw [ei] at gi
    rw [ej] at gj
    refine ⟨_, _, gi, gj, ?_⟩
    have : ((S * (i / gw) * chh + i % gw * cw : Nat) : Int)
        < ((S * (j / gw) * chh + j % gw * cw : Nat) : Int) := by exact_mod_cast hlt
    push_cast at this
    simpa using this

/-- Witness for C20: the luma CTU offsets of a 64x64 picture with 16x16 CTUs. -/
theorem C20_luma_ctu_offsets_witness :
    (0 < 16 ∧ 0 < 16) ∧
    ∀ i j : Nat, i < j → j < ⌈((64 : ℕ) : ℚ) / ((16 : ℕ) : ℚ)⌉₊ * ⌈((64 : ℕ) : ℚ) / ((16 : ℕ) : ℚ)⌉₊ →
      ∃ a b : Int,
        ((TComPicYuv.create 64 64 CHROMA_420 16 16 2 true (fun _ _ => 0)).m_ctuOffsetInBuffer
            CHANNEL_TYPE_LUMA)[i]? = some (some a) ∧
        ((TComPicYuv.create 64 64 CHROMA_420 16 16 2 true (fun _ _ => 0)).m_ctuOffsetInBuffer
            CHANNEL_TYPE_LUMA)[j]? = some (some b) ∧
        a < b :=
  ⟨⟨by decide, by decide⟩,
    (C20_luma_ctu_offsets 64 64 CHROMA_420 16 16 2 true (fun _ _ => 0) (by decide) (by decide)).2⟩

/-! ## The `borderExtended` flag -/

namespace TComPicYuv

/-- A call of `extendPicBorder` on a buffer whose flag is clear leaves the margins validly
replicated. -/
theorem extendPicBorder_replicated (pic : TComPicYuv) (hflag : pic.m_bIsBorderExtended = false) :
    marginsReplicated pic.extendPicBorder := by
  obtain ⟨f, hf, -⟩ := extendPicBorder_eq pic hflag
  have hN : pic.extendPicBorder.getNumberValidComponents = pic.getNumberValidComponents := by
    rw [hf]; rfl
  have hgW : ∀ ch, pic.extendPicBorder.getWidth ch = pic.getWidth ch := by
    intro ch; rw [hf]; rfl
  have hgH : ∀ ch, pic.extendPicBorder.getHeight ch = pic.getHeight ch := by
    intro ch; rw [hf]; rfl
  have hgX : ∀ ch, pic.extendPicBorder.getMarginX ch = pic.getMarginX ch := by
    intro ch; rw [hf]; rfl
  have hgY : ∀ ch, pic.extendPicBorder.getMarginY ch = pic.getMarginY ch := by
    intro ch; rw [hf]; rfl
  intro ch hvalid hW hH x y hx0 hx1 hy0 hy1
  rw [hN] at hvalid
  rw [hgW] at hW hx1 ⊢
  rw [hgH] at hH hy1 ⊢
  rw [hgX] at hx0 hx1
  rw [hgY] at hy0 hy1
  have key := extendPicBorder_sample pic hflag ch hvalid hW hH
  have cx0 : 0 ≤ clamp x 0 ((pic.getWidth ch : Int) - 1) := by unfold clamp; omega
  have cx1 : clamp x 0 ((pic.getWidth ch : Int) - 1) ≤ (pic.getWidth ch : Int) - 1 := by
    unfold clamp; omega
  have cy0 : 0 ≤ clamp y 0 ((pic.getHeight ch : Int) - 1) := by unfold clamp; omega
  have cy1 : clamp y 0 ((pic.getHeight ch : Int) - 1) ≤ (pic.getHeight ch : Int) - 1 := by
    unfold clamp; omega
  rw [key x y hx0 hx1 hy0 hy1,
    key _ _ (by omega) (by omega) (by omega) (by omega)]
  have ex : clamp (clamp x 0 ((pic.getWidth ch : Int) - 1)) 0 ((pic.getWidth ch : Int) - 1)
      = clamp x 0 ((pic.getWidth ch : Int) - 1) := by
    generalize clamp x 0 ((pic.getWidth ch : Int) - 1) = c at cx0 cx1 ⊢
    unfold clamp; omega
  have ey : clamp (clamp y 0 ((pic.getHeight ch : Int) - 1)) 0 ((pic.getHeight ch : Int) - 1)
      = clamp y 0 ((pic.getHeight ch : Int) - 1) := by
    generalize clamp y 0 ((pic.getHeight ch : Int) - 1) = c at cy0 cy1 ⊢
    unfold clamp; omega
  rw [ex, ey]

/-- A successful call of `copyToPic` keeps the flag of the destination. -/
theorem copyToPic_flag (src dst d : TComPicYuv) (h : src.copyToPic dst = Except.ok d) :
    d.m_bIsBorderExtended = dst.m_bIsBorderExtended := by
  by_cases hne : src.m_iPicWidth ≠ dst.m_iPicWidth ∨ src.m_iPicHeight ≠ dst.m_iPicHeight ∨
      src.m_chromaFormatIDC ≠ dst.m_chromaFormatIDC
  · rw [copyToPic_error src dst hne] at h
    exact absurd h (by simp)
  · have hw : src.m_iPicWidth = dst.m_iPicWidth := by
      by_contra h1
      exact hne (Or.inl h1)
    have hh : src.m_iPicHeight = dst.m_iPicHeight := by
      by_contra h1
      exact hne (Or.inr (Or.inl h1))
    have hf : src.m_chromaFormatIDC = dst.m_chromaFormatIDC := by
      by_contra h1
      exact hne (Or.inr (Or.inr h1))
    rw [copyToPic_ok src dst hw hh hf] at h
    have hd := (Except.ok.inj h).symm
    subst hd
    rfl

end TComPicYuv

/-- Counterexample to C13 as stated: a 2x2 picture is created and border-extended, and then a
created (not extended) picture of the same geometry, whose storage holds the linear sample
indices, is copied onto it; the copy stays inside the blocks of both pictures.  The resulting
state is reachable, its flag is set, and its margins are not replicated: the sample left of
`(0,0)` is 559 and the sample at `(0,0)` is 560. -/
theorem C13_counterexample :
    ∃ pic : TComPicYuv, Reachable pic ∧ pic.m_bIsBorderExtended = true ∧
      pic.sample COMPONENT_Y (-1) 0 = 559 ∧ pic.sample COMPONENT_Y 0 0 = 560 ∧
      ¬ marginsReplicated pic := by
  have hok := TComPicYuv.copyToPic_ok (indexPic 2 2) (indexPic 2 2).extendPicBorder
    (by decide) (by decide) (by decide)
  have hfit : (indexPic 2 2).copyFits (indexPic 2 2).extendPicBorder := by decide
  refine ⟨_, Reachable.copy _ _ _ (Reachable.extend _ (Reachable.create 2 2 CHROMA_400 16 16 0
    false (fun _ i => i) (by decide) (by decide))) hfit hok, ?_, ?_, ?_, ?_⟩
  · exact TComPicYuv.extendPicBorder_flag (indexPic 2 2)
  · decide
  · decide
  · intro hrep
    have h := hrep COMPONENT_Y (by decide) (by decide) (by decide) (-1) 0 (by decide) (by decide)
      (by decide) (by decide)
    revert h
    decide

/-- C13 (amended): the flag is clear immediately after `create` (called with positive CTU
width and height); a call of `extendPicBorder` on a buffer whose flag is clear sets the flag
and leaves the margins validly replicated, so in every state reachable from `create` by calls
of `extendPicBorder` alone a set flag implies validly replicated margins; a call of
`copyToPic` whose copy stays inside the blocks of both pictures and a call of
`DefaultConvertPix` that returns, with this buffer as destination, keep the flag as it is
(they never clear it). -/
theorem C13_flag_invariant :
    (∀ (w h : Nat) (fmt : ChromaFormat) (cw chh D : Nat) (useMargin : Bool)
        (heap : ComponentID → Int → Pel), 0 < cw → 0 < chh →
      (TComPicYuv.create w h fmt cw chh D useMargin heap).m_bIsBorderExtended = false) ∧
    (∀ pic : TComPicYuv, pic.m_bIsBorderExtended = false →
      pic.extendPicBorder.m_bIsBorderExtended = true ∧ marginsReplicated pic.extendPicBorder) ∧
    (∀ pic : TComPicYuv, ReachableByExtend pic →
      pic.m_bIsBorderExtended = true → marginsReplicated pic) ∧
    (∀ src dst d : TComPicYuv, src.copyFits dst → src.copyToPic dst = Except.ok d →
      d.m_bIsBorderExtended = dst.m_bIsBorderExtended) ∧
    (∀ (pelBits : Nat) (pic src d : TComPicYuv) (bd : BitDepths),
      pic.DefaultConvertPix pelBits src bd = Except.ok d →
      d.m_bIsBorderExtended = pic.m_bIsBorderExtended) := by
  refine ⟨fun w h fmt cw chh D useMargin heap _ _ =>
      TComPicYuv.create_flag w h fmt cw chh D useMargin heap, ?_, ?_,
    fun src dst d _ h => TComPicYuv.copyToPic_flag src dst d h, ?_⟩
  · intro pic hflag
    exact ⟨TComPicYuv.extendPicBorder_flag pic, TComPicYuv.extendPicBorder_replicated pic hflag⟩
  · intro pic hreach
    induction hreach with
    | create w h fmt cw chh D useMargin heap _ _ =>
      intro hflag
      rw [TComPicYuv.create_flag] at hflag
      exact absurd hflag (by decide)
    | extend p _ ih =>
      intro _
      by_cases hp : p.m_bIsBorderExtended = true
      · have e : p.extendPicBorder = p := by
          unfold TComPicYuv.extendPicBorder
          rw [if_pos hp]
        rw [e]
        exact ih hp
      · exact TComPicYuv.extendPicBorder_replicated p (by simpa using hp)
  · intro pelBits pic src d bd h
    exact TComPicYuv.DefaultConvertPix_flag pelBits pic src d bd h

/-! ## Bulk copy between buffers with different margins -/

/-- C17 (the code at the failing input): a 4x4 picture created with the CTU margin and one
created without it pass the three checks of `copyToPic`; the copy moves the
`68 * 68 = 4624` samples of the source plane, while the destination plane has
`36 * 36 = 1296` samples, and the sample at index 1296, past the end of the destination
storage, is overwritten (it was 0 and becomes 7). -/
theorem C17_copy_past_destination :
    ((marginPic true 7).m_iPicWidth = (marginPic false 0).m_iPicWidth ∧
      (marginPic true 7).m_iPicHeight = (marginPic false 0).m_iPicHeight ∧
      (marginPic true 7).m_chromaFormatIDC = (marginPic false 0).m_chromaFormatIDC) ∧
    (((marginPic true 7).getStride COMPONENT_Y : Int)
        * ((marginPic true 7).getTotalHeight COMPONENT_Y : Int) = 4624 ∧
      ((marginPic false 0).m_apiPicBuf COMPONENT_Y).size = 1296) ∧
    ∃ d : TComPicYuv, (marginPic true 7).copyToPic (marginPic false 0) = Except.ok d ∧
      (d.m_apiPicBuf COMPONENT_Y).size = 1296 ∧
      ((marginPic false 0).m_apiPicBuf COMPONENT_Y).data 1296 = 0 ∧
      (d.m_apiPicBuf COMPONENT_Y).data 1296 = 7 := by
  refine ⟨⟨by decide, by decide, by decide⟩, ⟨by decide, by decide⟩, ?_⟩
  exact ⟨_, TComPicYuv.copyToPic_ok (marginPic true 7) (marginPic false 0)
    (by decide) (by decide) (by decide), by decide, by decide, by decide⟩

/-! ## Grid resampling -/

/-- C18 (the code at the failing input): for a picture of 8x8 samples and CTUs of 16x16 the
assertion of `resample` holds, the horizontal stride `uiPicWidth / uiMaxCUWidth` of the luma
plane is 0, and the call, forward or backward, stops at the modulo by that stride; for a
4:2:0 picture of 64x64 luma samples and CTUs of 64x64 the stride of the luma plane is 1, the
stride of the Cb plane (32 samples wide) is 0, and the call stops in the same way. -/
theorem C18_resample_zero_divisor :
    ((16 ≠ 0 ∧ 16 ≠ 0) ∧
      (0 < (indexPic 8 8).m_iPicWidth ∧ 0 < (indexPic 8 8).m_iPicHeight) ∧
      (indexPic 8 8).getWidth COMPONENT_Y / 16 = 0 ∧
      (indexPic 8 8).resample 16 16 false (fun _ _ => 0) = Except.error Fault.divisionByZero ∧
      (indexPic 8 8).resample 16 16 true (fun _ _ => 0) = Except.error Fault.divisionByZero) ∧
    ((64 ≠ 0 ∧ 64 ≠ 0) ∧
      (indexPic420 64 64).getWidth COMPONENT_Y / 64 = 1 ∧
      (indexPic420 64 64).getWidth COMPONENT_Cb / 64 = 0 ∧
      (indexPic420 64 64).resample 64 64 false (fun _ _ => 0)
        = Except.error Fault.divisionByZero) :=
  ⟨⟨⟨by decide, by decide⟩, ⟨by decide, by decide⟩, by decide, rfl, rfl⟩,
    ⟨⟨by decide, by decide⟩, by decide, by decide, rfl⟩⟩

set_option maxRecDepth 1000000 in
/-- C19 (the code at the failing input): for the Cb plane of a 4:2:0 picture of 64x64 luma
samples and CTUs of 16x16, the plane has 32 rows, the vertical stride is computed from the
luma height (`64 / 16 = 4`) while the horizontal stride is computed from the plane width
(`32 / 16 = 2`), and the destination row 8 reads the source row 32, which is not a row of the
plane: the resampled sample `(0, 8)` is the margin sample `(0, 32)` of the original plane. -/
theorem C19_forward_reads_outside_plane :
    (COMPONENT_Cb.toChan < (indexPic420 64 64).getNumberValidComponents ∧
      (indexPic420 64 64).getWidth COMPONENT_Cb = 32 ∧
      (indexPic420 64 64).getHeight COMPONENT_Cb = 32) ∧
    ((indexPic420 64 64).getWidth COMPONENT_Cb / 16 = 2 ∧
      (indexPic420 64 64).m_iPicHeight / 16 = 4) ∧
    TComPicYuv.resampleOrgY 16
        ((indexPic420 64 64).getHeight COMPONENT_Cb % ((indexPic420 64 64).m_iPicHeight / 16))
        ((indexPic420 64 64).m_iPicHeight / 16) ((indexPic420 64 64).m_iPicHeight / 16 + 1) 8
      = 32 ∧
    resultSample ((indexPic420 64 64).resample 16 16 false (fun _ _ => 0)) COMPONENT_Cb 0 8
      = some ((indexPic420 64 64).sample COMPONENT_Cb 0 32) := by
  refine ⟨⟨by decide, by decide, by decide⟩, ⟨by decide, by decide⟩, by decide, by decide⟩

set_option maxRecDepth 1000000 in
/-- C12 (the code at the failing input): for a plane of width 40 and CTU width 16 the code
uses the larger stride for `40 % (40 / 16) = 0` in-unit indices, not for `40 % 16 = 8`; the
destination columns 1 and 32 both read the source column 2, and no destination column reads
a source column from 32 to 39, so in the resampled first row the samples at columns 1 and 32
are both the original sample 1170 of column 2. -/
theorem C12_forward_not_permutation :
    ((indexPic 40 16).getWidth COMPONENT_Y = 40 ∧
      (indexPic 40 16).getWidth COMPONENT_Y % ((indexPic 40 16).getWidth COMPONENT_Y / 16) = 0 ∧
      (indexPic 40 16).getWidth COMPONENT_Y % 16 = 8) ∧
    (TComPicYuv.resampleOrgX 16 (40 % (40 / 16)) (40 / 16) (40 / 16 + 1) 1 = 2 ∧
      TComPicYuv.resampleOrgX 16 (40 % (40 / 16)) (40 / 16) (40 / 16 + 1) 32 = 2 ∧
      ∀ x : Nat, x < 40 →
        TComPicYuv.resampleOrgX 16 (40 % (40 / 16)) (40 / 16) (40 / 16 + 1) x < 32) ∧
    ((indexPic 40 16).sample COMPONENT_Y 1 0 = 1169 ∧
      (indexPic 40 16).sample COMPONENT_Y 2 0 = 1170 ∧
      (indexPic 40 16).sample COMPONENT_Y 32 0 = 1200) ∧
    (resultSample ((indexPic 40 16).resample 16 16 false (fun _ _ => 0)) COMPONENT_Y 1 0
        = some 1170 ∧
      resultSample ((indexPic 40 16).resample 16 16 false (fun _ _ => 0)) COMPONENT_Y 32 0
        = some 1170) := by
  refine ⟨⟨by decide, by decide, by decide⟩, ⟨by decide, by decide, by decide⟩,
    ⟨by decide, by decide, by decide⟩, ⟨by decide, by decide⟩⟩

set_option maxRecDepth 1000000 in
/-- C11 (the code at the failing input): for a picture of 4x4 samples and CTUs of width 4 and
height 2, the forward row map sends the rows 0, 1, 2, 3 to the source rows 0, 2, 1, 3, and
the backward row map, which multiplies the in-unit index by the CTU width, sends the rows
0, 1, 2, 3 to the source rows 0, 4, 1, 5; forward followed by backward `resample` does not
restore row 1: the sample `(0, 1)`, 628 in the original, is the scratch value 0.  For a
picture of 40x16 samples and CTUs of 16x16, forward followed by backward `resample` leaves
the sample 1169 of column 1 at column 32, whose original sample is 1200. -/
theorem C11_round_trip_fails :
    (((List.range 4).map (TComPicYuv.resampleOrgY 2 (4 % (4 / 2)) (4 / 2) (4 / 2 + 1))
          = [0, 2, 1, 3] ∧
        (List.range 4).map (TComPicYuv.resampleRsmpldY 4 (4 % (4 / 2)) (4 / 2) (4 / 2 + 1))
          = [0, 4, 1, 5]) ∧
      (indexPic 4 4).sample COMPONENT_Y 0 1 = 628 ∧
      resultSample (resampleRoundTrip (indexPic 4 4) 4 2 0) COMPONENT_Y 0 1 = some 0) ∧
    ((indexPic 40 16).sample COMPONENT_Y 32 0 = 1200 ∧
      resultSample (resampleRoundTrip (indexPic 40 16) 16 16 0) COMPONENT_Y 32 0 = some 1169) := by
  refine ⟨⟨⟨by decide, by decide⟩, by decide, by decide⟩, ⟨by decide, by decide⟩⟩
